import Mathlib

/-!
# VARCem: x87 load/store handlers (`src/cpu/x87_ops_loadstore.h`)

A shallow embedding of the FPU load/store opcode handlers.  The handlers are
translated one by one from the source.  What the handlers call but the file
does not define is kept apart:

* the register stack primitives `x87_push`, `x87_pop`, the tag type and the
  memory-bus accessors are modelled from the specification (each such
  definition says so);
* the arithmetic of the host `double`, the rounding primitive `x87_fround`,
  the 80-bit codec and the effective-address resolvers are parameters,
  collected in `Env`.  The digit extraction of `FBSTP` depends on how `-` and
  `/` round: `binary64` installs the arithmetic of IEEE 754 binary64 in an
  environment, and the properties of the digits are stated for it.

`FP_ENTER()` and `CHECK_WRITE(...)` are macros defined outside the file and
the specification gives them no behaviour; they are not part of the
embedding.  The embedding of a handler is its own work: address resolution,
bus access, conversion, register stack update.  `DEBUG` only
prints; the one place where its arguments touch the bus (`opFILDiq`) is kept,
guarded by `fplog`.

The other parts follow, each in its namespace: the input FIFO and three
drawing commands of the IM-1024 (`src/devices/video/vid_im1024.c`, `IM1024`),
the flash BIOS (`src/devices/system/intel_flash.c`, `IntelFlash`), the UDP
tunnel (`src/devices/network/net_udp.c`, `NetUdp`) and the directory reader
(`src/win/win_opendir.c`, `WinOpendir`).
-/

namespace X87

/-! ## Data model -/

/-- Modelled from the spec: the liveness/class part of a tag (the header that
declares the tag values is absent): empty, valid-nonzero, zero or special. -/
inductive TagClass where
  | valid
  | zero
  | special
  | empty
  deriving DecidableEq, Repr

/-- Modelled from the spec: a tag is a class together with the independent
"holds-exact-int64" flag, the bit `TAG_UINT64` of the source (the header that
declares `TAG_UINT64` is absent).  `tag |= TAG_UINT64` sets `uint64`, and
`tag & TAG_UINT64` tests it. -/
structure Tag where
  cls : TagClass
  uint64 : Bool
  deriving DecidableEq, Repr

/-- One access on the memory bus, as recorded by the bus model: direction,
linear address of the first byte, width in bytes, whether it faulted, and the
data transferred. -/
structure Access where
  write : Bool
  addr : Nat
  width : Nat
  faulted : Bool
  data : Nat
  deriving DecidableEq, Repr

/-- Modelled from the spec: guest memory behind the memory-bus collaborator.
`bytes` is the content per linear address, `rfault`/`wfault` say at which
linear addresses a read/write access faults, and `log` records the accesses
made so far (oldest first). -/
structure Bus where
  bytes : Nat → Nat
  rfault : Nat → Bool
  wfault : Nat → Bool
  log : List Access

/-- The part of the machine state the handlers touch.  `TOP`, `ST`, `MM`
(its `.q` member, a raw 64-bit pattern), `tag`, `abrt` and `eaaddr` are the
fields of `cpu_state`; `easeg` and `tempc` are file-scope variables of the
emulator; `clock` lists the costs passed to `CLOCK_CYCLES`, oldest first. -/
structure State (D : Type) where
  TOP : Nat
  ST : Nat → D
  MM : Nat → Nat
  tag : Nat → Tag
  abrt : Nat
  easeg : Nat
  eaaddr : Nat
  tempc : Nat
  clock : List Nat
  bus : Bus

/-- The register stack of the specification: top pointer, values, int64
shadows and tags. -/
structure RegStack (D : Type) where
  TOP : Nat
  ST : Nat → D
  MM : Nat → Nat
  tag : Nat → Tag

/-- The register-stack part of a state. -/
def regStack {D : Type} (s : State D) : RegStack D :=
  ⟨s.TOP, s.ST, s.MM, s.tag⟩

/-- What the handlers use and the file does not define: the two
effective-address resolvers (instruction bytes to segment base and offset),
the diagnostic switch, the rounding primitive, the classification used by
`x87_push`, and the operations of the host `double` on the type `D` that
stands for it. -/
structure Env (D : Type) where
  ea16 : Nat → Nat × Nat
  ea32 : Nat → Nat × Nat
  fplog : Bool
  x87_fround : D → Int
  classify : D → TagClass
  ofInt : Int → D
  ofBits : Nat → D
  toBits : D → Nat
  ofSingleBits : Nat → D
  toSingleBits : D → Nat
  ofExt80 : Nat → D
  toExt80 : D → Nat
  zero : D
  ten : D
  lt : D → D → Bool
  neg : D → D
  sub : D → D → D
  div : D → D → D
  fmod : D → D → D
  floor : D → D
  toUint8 : D → Nat

/-! ## Machine integers -/

/-- The value of a 16-bit pattern read as `int16_t`. -/
def toInt16 (u : Nat) : Int :=
  if u % 2 ^ 16 < 2 ^ 15 then (u % 2 ^ 16 : Nat) else (u % 2 ^ 16 : Nat) - 2 ^ 16

/-- The value of a 32-bit pattern read as `int32_t`. -/
def toInt32 (u : Nat) : Int :=
  if u % 2 ^ 32 < 2 ^ 31 then (u % 2 ^ 32 : Nat) else (u % 2 ^ 32 : Nat) - 2 ^ 32

/-- The value of a 64-bit pattern read as `int64_t`. -/
def toInt64 (u : Nat) : Int :=
  if u % 2 ^ 64 < 2 ^ 63 then (u % 2 ^ 64 : Nat) else (u % 2 ^ 64 : Nat) - 2 ^ 64

/-- The low `w` bits of an integer, as an unsigned pattern: the cast to an
integer type of width `w`. -/
def lowBits (w : Nat) (v : Int) : Nat :=
  (v % 2 ^ w).toNat

/-! ## Memory bus (modelled from the spec) -/

/-- Linear address of a (segment base, offset) pair, 32 bits wide. -/
def linear (seg off : Nat) : Nat :=
  (seg + off) % 2 ^ 32

/-- Whether an access of `w` bytes at linear address `a` touches a faulting
byte. -/
def anyFault (f : Nat → Bool) (a : Nat) : Nat → Bool
  | 0 => false
  | w + 1 => f (a % 2 ^ 32) || anyFault f (a + 1) w

/-- The little-endian value of the `w` bytes at linear address `a`. -/
def loadLE (bytes : Nat → Nat) (a : Nat) : Nat → Nat
  | 0 => 0
  | w + 1 => bytes (a % 2 ^ 32) % 256 + 256 * loadLE bytes (a + 1) w

/-- Memory after the low `w` bytes of `v` are stored little-endian at linear
address `a`. -/
def storeLE (bytes : Nat → Nat) (a v : Nat) : Nat → Nat → Nat
  | 0 => bytes
  | w + 1 => storeLE (Function.update bytes (a % 2 ^ 32) (v % 256)) (a + 1) (v / 256) w

/-- Modelled from the spec: a bus read of `w` bytes at (segment, offset)
(the accessors `readmemb/w/l/q` are absent).  It returns the data, or sets the
process-wide abort flag; the access is atomic.  A successful access leaves the
flag as it was. -/
def busRead {D : Type} (w seg off : Nat) (s : State D) : Nat × State D :=
  if anyFault s.bus.rfault (linear seg off) w then
    (0, { s with
            abrt := 1
            bus := { s.bus with log := s.bus.log ++ [⟨false, linear seg off, w, true, 0⟩] } })
  else
    (loadLE s.bus.bytes (linear seg off) w,
     { s with
         bus := { s.bus with
                    log := s.bus.log ++
                      [⟨false, linear seg off, w, false,
                        loadLE s.bus.bytes (linear seg off) w⟩] } })

/-- Modelled from the spec: a bus write of the low `w` bytes of `v` at
(segment, offset) (the accessors `writememb/w/l/q` are absent).  It stores the
data, or sets the process-wide abort flag and stores nothing; the access is
atomic.  A successful access leaves the flag as it was. -/
def busWrite {D : Type} (w seg off v : Nat) (s : State D) : State D :=
  if anyFault s.bus.wfault (linear seg off) w then
    { s with
        abrt := 1
        bus := { s.bus with
                   log := s.bus.log ++ [⟨true, linear seg off, w, true, v % 256 ^ w⟩] } }
  else
    { s with
        bus := { s.bus with
                   bytes := storeLE s.bus.bytes (linear seg off) v w
                   log := s.bus.log ++ [⟨true, linear seg off, w, false, v % 256 ^ w⟩] } }

/-- The macro `geteaw()` on a memory operand: a 16-bit read at `easeg:eaaddr`. -/
def geteaw {D : Type} (s : State D) : Nat × State D := busRead 2 s.easeg s.eaaddr s

/-- The macro `geteal()` on a memory operand: a 32-bit read at `easeg:eaaddr`. -/
def geteal {D : Type} (s : State D) : Nat × State D := busRead 4 s.easeg s.eaaddr s

/-- The function `geteaq()`: a 64-bit read at `easeg:eaaddr`. -/
def geteaq {D : Type} (s : State D) : Nat × State D := busRead 8 s.easeg s.eaaddr s

/-- The macro `seteaw(v)` on a memory operand: a 16-bit write at `easeg:eaaddr`. -/
def seteaw {D : Type} (v : Nat) (s : State D) : State D := busWrite 2 s.easeg s.eaaddr v s

/-- The macro `seteal(v)` on a memory operand: a 32-bit write at `easeg:eaaddr`. -/
def seteal {D : Type} (v : Nat) (s : State D) : State D := busWrite 4 s.easeg s.eaaddr v s

/-- The function `seteaq(v)`: a 64-bit write at `easeg:eaaddr`. -/
def seteaq {D : Type} (v : Nat) (s : State D) : State D := busWrite 8 s.easeg s.eaaddr v s

/-- The accessor `writememb(seg, addr, v)`; `addr` is a 32-bit value. -/
def writememb {D : Type} (seg addr v : Nat) (s : State D) : State D :=
  busWrite 1 seg (addr % 2 ^ 32) v s

/-- The accessor `readmeml(seg, addr)`; `addr` is a 32-bit value. -/
def readmeml {D : Type} (seg addr : Nat) (s : State D) : Nat × State D :=
  busRead 4 seg (addr % 2 ^ 32) s

/-! ## Register stack primitives (modelled from the spec) -/

/-- The macro `ST(i)`: the value of the register at `(TOP + i) mod 8`. -/
def STreg {D : Type} (i : Nat) (s : State D) : D :=
  s.ST ((s.TOP + i) % 8)

/-- Modelled from the spec: `x87_push` (its definition is absent).  Decrement
`TOP` (mod 8); write the value into the new top slot; set its tag to the
value's class; clear "holds-exact-int64". -/
def x87_push {D : Type} (env : Env D) (v : D) (s : State D) : State D :=
  { s with
      TOP := (s.TOP + 7) % 8
      ST := Function.update s.ST ((s.TOP + 7) % 8) v
      tag := Function.update s.tag ((s.TOP + 7) % 8) ⟨env.classify v, false⟩ }

/-- Modelled from the spec: `x87_pop` (its definition is absent).  Mark the
slot at the old `TOP` as empty; increment `TOP` (mod 8). -/
def x87_pop {D : Type} (s : State D) : State D :=
  { s with
      tag := Function.update s.tag s.TOP ⟨TagClass.empty, false⟩
      TOP := (s.TOP + 1) % 8 }

/-- Modelled from the spec: `CLOCK_CYCLES(c)` reports the cost `c` to the
timing collaborator (the macro is absent). -/
def CLOCK_CYCLES {D : Type} (c : Nat) (s : State D) : State D :=
  { s with clock := s.clock ++ [c] }

/-- Modelled from the spec: `fetch_ea_16` leaves the resolved segment base and
offset in `easeg` and `cpu_state.eaaddr` (the macro is absent). -/
def fetch_ea_16 {D : Type} (env : Env D) (fetchdat : Nat) (s : State D) : State D :=
  { s with easeg := (env.ea16 fetchdat).1, eaaddr := (env.ea16 fetchdat).2 }

/-- Modelled from the spec: `fetch_ea_32` leaves the resolved segment base and
offset in `easeg` and `cpu_state.eaaddr` (the macro is absent). -/
def fetch_ea_32 {D : Type} (env : Env D) (fetchdat : Nat) (s : State D) : State D :=
  { s with easeg := (env.ea32 fetchdat).1, eaaddr := (env.ea32 fetchdat).2 }

/-- Modelled from the spec: `x87_ld80` (absent) reads the ten bytes at
`easeg:eaaddr` with the bus primitives, eight bytes and then two, and hands
them to the 80-bit codec. -/
def x87_ld80 {D : Type} (env : Env D) (s : State D) : D × State D :=
  let lo := busRead 8 s.easeg s.eaaddr s
  let hi := busRead 2 s.easeg ((s.eaaddr + 8) % 2 ^ 32) lo.2
  (env.ofExt80 (lo.1 + 2 ^ 64 * hi.1), hi.2)

/-- Modelled from the spec: `x87_st80` (absent) encodes the value with the
80-bit codec and writes the ten bytes at `easeg:eaaddr` with the bus
primitives, eight bytes and then two. -/
def x87_st80 {D : Type} (env : Env D) (v : D) (s : State D) : State D :=
  let s1 := busWrite 8 s.easeg s.eaaddr (env.toExt80 v % 2 ^ 64) s
  busWrite 2 s1.easeg ((s1.eaaddr + 8) % 2 ^ 32) (env.toExt80 v / 2 ^ 64) s1

/-! ## The handlers -/

/-- Handler `opFILDiw_a16`. -/
def opFILDiw_a16 {D : Type} (env : Env D) (fetchdat : Nat) (s : State D) : Nat × State D :=
  let s := fetch_ea_16 env fetchdat s
  let r := geteaw s
  if r.2.abrt ≠ 0 then (1, r.2) else
  let s := x87_push env (env.ofInt (toInt16 r.1)) r.2
  (0, CLOCK_CYCLES 13 s)

/-- Handler `opFILDiw_a32`. -/
def opFILDiw_a32 {D : Type} (env : Env D) (fetchdat : Nat) (s : State D) : Nat × State D :=
  let s := fetch_ea_32 env fetchdat s
  let r := geteaw s
  if r.2.abrt ≠ 0 then (1, r.2) else
  let s := x87_push env (env.ofInt (toInt16 r.1)) r.2
  (0, CLOCK_CYCLES 13 s)

/-- Handler `opFISTiw_a16`. -/
def opFISTiw_a16 {D : Type} (env : Env D) (fetchdat : Nat) (s : State D) : Nat × State D :=
  let s := fetch_ea_16 env fetchdat s
  let temp64 := env.x87_fround (STreg 0 s)
  let s := seteaw (lowBits 16 temp64) s
  let s := CLOCK_CYCLES 29 s
  (s.abrt, s)

/-- Handler `opFISTiw_a32`. -/
def opFISTiw_a32 {D : Type} (env : Env D) (fetchdat : Nat) (s : State D) : Nat × State D :=
  let s := fetch_ea_32 env fetchdat s
  let temp64 := env.x87_fround (STreg 0 s)
  let s := seteaw (lowBits 16 temp64) s
  let s := CLOCK_CYCLES 29 s
  (s.abrt, s)

/-- Handler `opFISTPiw_a16`. -/
def opFISTPiw_a16 {D : Type} (env : Env D) (fetchdat : Nat) (s : State D) : Nat × State D :=
  let s := fetch_ea_16 env fetchdat s
  let temp64 := env.x87_fround (STreg 0 s)
  let s := seteaw (lowBits 16 temp64) s
  if s.abrt ≠ 0 then (1, s) else
  let s := x87_pop s
  (0, CLOCK_CYCLES 29 s)

/-- Handler `opFISTPiw_a32`. -/
def opFISTPiw_a32 {D : Type} (env : Env D) (fetchdat : Nat) (s : State D) : Nat × State D :=
  let s := fetch_ea_32 env fetchdat s
  let temp64 := env.x87_fround (STreg 0 s)
  let s := seteaw (lowBits 16 temp64) s
  if s.abrt ≠ 0 then (1, s) else
  let s := x87_pop s
  (0, CLOCK_CYCLES 29 s)

/-- The diagnostic of `opFILDiq`: when `fplog` is on, the arguments of `DEBUG`
read the two halves of the operand again with `readmeml`. -/
def fildqDebug {D : Type} (env : Env D) (s : State D) : State D :=
  if env.fplog then
    (readmeml s.easeg (s.eaaddr + 4) (readmeml s.easeg s.eaaddr s).2).2
  else s

/-- Handler `opFILDiq_a16`. -/
def opFILDiq_a16 {D : Type} (env : Env D) (fetchdat : Nat) (s : State D) : Nat × State D :=
  let s := fetch_ea_16 env fetchdat s
  let r := geteaq s
  if r.2.abrt ≠ 0 then (1, r.2) else
  let temp64 := toInt64 r.1
  let s := fildqDebug env r.2
  let s := x87_push env (env.ofInt temp64) s
  let s := { s with MM := Function.update s.MM s.TOP (lowBits 64 temp64) }
  let s := { s with tag := Function.update s.tag s.TOP { s.tag s.TOP with uint64 := true } }
  (0, CLOCK_CYCLES 10 s)

/-- Handler `opFILDiq_a32`. -/
def opFILDiq_a32 {D : Type} (env : Env D) (fetchdat : Nat) (s : State D) : Nat × State D :=
  let s := fetch_ea_32 env fetchdat s
  let r := geteaq s
  if r.2.abrt ≠ 0 then (1, r.2) else
  let temp64 := toInt64 r.1
  let s := fildqDebug env r.2
  let s := x87_push env (env.ofInt temp64) s
  let s := { s with MM := Function.update s.MM s.TOP (lowBits 64 temp64) }
  let s := { s with tag := Function.update s.tag s.TOP { s.tag s.TOP with uint64 := true } }
  (0, CLOCK_CYCLES 10 s)

/-- One pass of the body of the `for` loop of `FBSTP`, with loop counter `c`:
two decimal digits are taken off `tempd`, packed into one byte, and the byte
is written at `eaaddr + c`. -/
def fbstpStep {D : Type} (env : Env D) (c : Nat) (p : D × State D) : D × State D :=
  let tempd := p.1
  let tempc := env.toUint8 (env.floor (env.fmod tempd env.ten)) % 256
  let tempd := env.sub tempd (env.floor (env.fmod tempd env.ten))
  let tempd := env.div tempd env.ten
  let tempc := (tempc ||| ((env.toUint8 (env.floor (env.fmod tempd env.ten)) % 256) <<< 4)) % 256
  let tempd := env.sub tempd (env.floor (env.fmod tempd env.ten))
  let tempd := env.div tempd env.ten
  (tempd, writememb p.2.easeg (p.2.eaaddr + c) tempc p.2)

/-- The loop `for (c = c0; c < c0 + n; c++)` of `FBSTP`. -/
def fbstpLoop {D : Type} (env : Env D) : Nat → Nat → D × State D → D × State D
  | 0, _, p => p
  | n + 1, c, p => fbstpLoop env n (c + 1) (fbstpStep env c p)

/-- Handler `FBSTP_a16`.  After the loop the source assigns the file-scope `tempc`. -/
def FBSTP_a16 {D : Type} (env : Env D) (fetchdat : Nat) (s : State D) : Nat × State D :=
  let s := fetch_ea_16 env fetchdat s
  let tempd := STreg 0 s
  let tempd := if env.lt tempd env.zero then env.neg tempd else tempd
  let p := fbstpLoop env 9 0 (tempd, s)
  let tempc := env.toUint8 (env.floor (env.fmod p.1 env.ten)) % 256
  let tempc := if env.lt (STreg 0 p.2) env.zero then tempc ||| 0x80 else tempc
  let s := { p.2 with tempc := tempc }
  let s := writememb s.easeg (s.eaaddr + 9) tempc s
  if s.abrt ≠ 0 then (1, s) else
  (0, x87_pop s)

/-- Handler `FBSTP_a32`.  After the loop the source assigns the file-scope `tempc`. -/
def FBSTP_a32 {D : Type} (env : Env D) (fetchdat : Nat) (s : State D) : Nat × State D :=
  let s := fetch_ea_32 env fetchdat s
  let tempd := STreg 0 s
  let tempd := if env.lt tempd env.zero then env.neg tempd else tempd
  let p := fbstpLoop env 9 0 (tempd, s)
  let tempc := env.toUint8 (env.floor (env.fmod p.1 env.ten)) % 256
  let tempc := if env.lt (STreg 0 p.2) env.zero then tempc ||| 0x80 else tempc
  let s := { p.2 with tempc := tempc }
  let s := writememb s.easeg (s.eaaddr + 9) tempc s
  if s.abrt ≠ 0 then (1, s) else
  (0, x87_pop s)

/-- Handler `FISTPiq_a16`. -/
def FISTPiq_a16 {D : Type} (env : Env D) (fetchdat : Nat) (s : State D) : Nat × State D :=
  let s := fetch_ea_16 env fetchdat s
  let temp64 :=
    if (s.tag s.TOP).uint64 then toInt64 (s.MM s.TOP)
    else env.x87_fround (STreg 0 s)
  let s := seteaq (lowBits 64 temp64) s
  if s.abrt ≠ 0 then (1, s) else
  let s := x87_pop s
  (0, CLOCK_CYCLES 29 s)

/-- Handler `FISTPiq_a32`. -/
def FISTPiq_a32 {D : Type} (env : Env D) (fetchdat : Nat) (s : State D) : Nat × State D :=
  let s := fetch_ea_32 env fetchdat s
  let temp64 :=
    if (s.tag s.TOP).uint64 then toInt64 (s.MM s.TOP)
    else env.x87_fround (STreg 0 s)
  let s := seteaq (lowBits 64 temp64) s
  if s.abrt ≠ 0 then (1, s) else
  let s := x87_pop s
  (0, CLOCK_CYCLES 29 s)

/-- Handler `opFILDil_a16`. -/
def opFILDil_a16 {D : Type} (env : Env D) (fetchdat : Nat) (s : State D) : Nat × State D :=
  let s := fetch_ea_16 env fetchdat s
  let r := geteal s
  if r.2.abrt ≠ 0 then (1, r.2) else
  let s := x87_push env (env.ofInt (toInt32 r.1)) r.2
  (0, CLOCK_CYCLES 9 s)

/-- Handler `opFILDil_a32`. -/
def opFILDil_a32 {D : Type} (env : Env D) (fetchdat : Nat) (s : State D) : Nat × State D :=
  let s := fetch_ea_32 env fetchdat s
  let r := geteal s
  if r.2.abrt ≠ 0 then (1, r.2) else
  let s := x87_push env (env.ofInt (toInt32 r.1)) r.2
  (0, CLOCK_CYCLES 9 s)

/-- Handler `opFISTil_a16`. -/
def opFISTil_a16 {D : Type} (env : Env D) (fetchdat : Nat) (s : State D) : Nat × State D :=
  let s := fetch_ea_16 env fetchdat s
  let temp64 := env.x87_fround (STreg 0 s)
  let s := seteal (lowBits 32 temp64) s
  let s := CLOCK_CYCLES 28 s
  (s.abrt, s)

/-- Handler `opFISTil_a32`. -/
def opFISTil_a32 {D : Type} (env : Env D) (fetchdat : Nat) (s : State D) : Nat × State D :=
  let s := fetch_ea_32 env fetchdat s
  let temp64 := env.x87_fround (STreg 0 s)
  let s := seteal (lowBits 32 temp64) s
  let s := CLOCK_CYCLES 28 s
  (s.abrt, s)

/-- Handler `opFISTPil_a16`. -/
def opFISTPil_a16 {D : Type} (env : Env D) (fetchdat : Nat) (s : State D) : Nat × State D :=
  let s := fetch_ea_16 env fetchdat s
  let temp64 := env.x87_fround (STreg 0 s)
  let s := seteal (lowBits 32 temp64) s
  if s.abrt ≠ 0 then (1, s) else
  let s := x87_pop s
  (0, CLOCK_CYCLES 28 s)

/-- Handler `opFISTPil_a32`. -/
def opFISTPil_a32 {D : Type} (env : Env D) (fetchdat : Nat) (s : State D) : Nat × State D :=
  let s := fetch_ea_32 env fetchdat s
  let temp64 := env.x87_fround (STreg 0 s)
  let s := seteal (lowBits 32 temp64) s
  if s.abrt ≠ 0 then (1, s) else
  let s := x87_pop s
  (0, CLOCK_CYCLES 28 s)

/-- Handler `opFLDe_a16`. -/
def opFLDe_a16 {D : Type} (env : Env D) (fetchdat : Nat) (s : State D) : Nat × State D :=
  let s := fetch_ea_16 env fetchdat s
  let r := x87_ld80 env s
  if r.2.abrt ≠ 0 then (1, r.2) else
  let s := x87_push env r.1 r.2
  (0, CLOCK_CYCLES 6 s)

/-- Handler `opFLDe_a32`. -/
def opFLDe_a32 {D : Type} (env : Env D) (fetchdat : Nat) (s : State D) : Nat × State D :=
  let s := fetch_ea_32 env fetchdat s
  let r := x87_ld80 env s
  if r.2.abrt ≠ 0 then (1, r.2) else
  let s := x87_push env r.1 r.2
  (0, CLOCK_CYCLES 6 s)

/-- Handler `opFSTPe_a16`. -/
def opFSTPe_a16 {D : Type} (env : Env D) (fetchdat : Nat) (s : State D) : Nat × State D :=
  let s := fetch_ea_16 env fetchdat s
  let s := x87_st80 env (STreg 0 s) s
  if s.abrt ≠ 0 then (1, s) else
  let s := x87_pop s
  (0, CLOCK_CYCLES 6 s)

/-- Handler `opFSTPe_a32`. -/
def opFSTPe_a32 {D : Type} (env : Env D) (fetchdat : Nat) (s : State D) : Nat × State D :=
  let s := fetch_ea_32 env fetchdat s
  let s := x87_st80 env (STreg 0 s) s
  if s.abrt ≠ 0 then (1, s) else
  let s := x87_pop s
  (0, CLOCK_CYCLES 6 s)

/-- Handler `opFLDd_a16`. -/
def opFLDd_a16 {D : Type} (env : Env D) (fetchdat : Nat) (s : State D) : Nat × State D :=
  let s := fetch_ea_16 env fetchdat s
  let r := geteaq s
  if r.2.abrt ≠ 0 then (1, r.2) else
  let s := x87_push env (env.ofBits r.1) r.2
  (0, CLOCK_CYCLES 3 s)

/-- Handler `opFLDd_a32`. -/
def opFLDd_a32 {D : Type} (env : Env D) (fetchdat : Nat) (s : State D) : Nat × State D :=
  let s := fetch_ea_32 env fetchdat s
  let r := geteaq s
  if r.2.abrt ≠ 0 then (1, r.2) else
  let s := x87_push env (env.ofBits r.1) r.2
  (0, CLOCK_CYCLES 3 s)

/-- Handler `opFSTd_a16`. -/
def opFSTd_a16 {D : Type} (env : Env D) (fetchdat : Nat) (s : State D) : Nat × State D :=
  let s := fetch_ea_16 env fetchdat s
  let s := seteaq (env.toBits (STreg 0 s)) s
  let s := CLOCK_CYCLES 8 s
  (s.abrt, s)

/-- Handler `opFSTd_a32`. -/
def opFSTd_a32 {D : Type} (env : Env D) (fetchdat : Nat) (s : State D) : Nat × State D :=
  let s := fetch_ea_32 env fetchdat s
  let s := seteaq (env.toBits (STreg 0 s)) s
  let s := CLOCK_CYCLES 8 s
  (s.abrt, s)

/-- Handler `opFSTPd_a16`. -/
def opFSTPd_a16 {D : Type} (env : Env D) (fetchdat : Nat) (s : State D) : Nat × State D :=
  let s := fetch_ea_16 env fetchdat s
  let s := seteaq (env.toBits (STreg 0 s)) s
  if s.abrt ≠ 0 then (1, s) else
  let s := x87_pop s
  (0, CLOCK_CYCLES 8 s)

/-- Handler `opFSTPd_a32`. -/
def opFSTPd_a32 {D : Type} (env : Env D) (fetchdat : Nat) (s : State D) : Nat × State D :=
  let s := fetch_ea_32 env fetchdat s
  let s := seteaq (env.toBits (STreg 0 s)) s
  if s.abrt ≠ 0 then (1, s) else
  let s := x87_pop s
  (0, CLOCK_CYCLES 8 s)

/-- Handler `opFLDs_a16`. -/
def opFLDs_a16 {D : Type} (env : Env D) (fetchdat : Nat) (s : State D) : Nat × State D :=
  let s := fetch_ea_16 env fetchdat s
  let r := geteal s
  if r.2.abrt ≠ 0 then (1, r.2) else
  let s := x87_push env (env.ofSingleBits r.1) r.2
  (0, CLOCK_CYCLES 3 s)

/-- Handler `opFLDs_a32`. -/
def opFLDs_a32 {D : Type} (env : Env D) (fetchdat : Nat) (s : State D) : Nat × State D :=
  let s := fetch_ea_32 env fetchdat s
  let r := geteal s
  if r.2.abrt ≠ 0 then (1, r.2) else
  let s := x87_push env (env.ofSingleBits r.1) r.2
  (0, CLOCK_CYCLES 3 s)

/-- Handler `opFSTs_a16`. -/
def opFSTs_a16 {D : Type} (env : Env D) (fetchdat : Nat) (s : State D) : Nat × State D :=
  let s := fetch_ea_16 env fetchdat s
  let s := seteal (env.toSingleBits (STreg 0 s)) s
  let s := CLOCK_CYCLES 7 s
  (s.abrt, s)

/-- Handler `opFSTs_a32`. -/
def opFSTs_a32 {D : Type} (env : Env D) (fetchdat : Nat) (s : State D) : Nat × State D :=
  let s := fetch_ea_32 env fetchdat s
  let s := seteal (env.toSingleBits (STreg 0 s)) s
  let s := CLOCK_CYCLES 7 s
  (s.abrt, s)

/-- Handler `opFSTPs_a16`. -/
def opFSTPs_a16 {D : Type} (env : Env D) (fetchdat : Nat) (s : State D) : Nat × State D :=
  let s := fetch_ea_16 env fetchdat s
  let s := seteal (env.toSingleBits (STreg 0 s)) s
  if s.abrt ≠ 0 then (1, s) else
  let s := x87_pop s
  (0, CLOCK_CYCLES 7 s)

/-- Handler `opFSTPs_a32`. -/
def opFSTPs_a32 {D : Type} (env : Env D) (fetchdat : Nat) (s : State D) : Nat × State D :=
  let s := fetch_ea_32 env fetchdat s
  let s := seteal (env.toSingleBits (STreg 0 s)) s
  if s.abrt ≠ 0 then (1, s) else
  let s := x87_pop s
  (0, CLOCK_CYCLES 7 s)

/-! ## The handler set -/

/-- The operations of the file, one per pair of handlers. -/
inductive Op where
  | FILDiw
  | FISTiw
  | FISTPiw
  | FILDiq
  | FBSTP
  | FISTPiq
  | FILDil
  | FISTil
  | FISTPil
  | FLDe
  | FSTPe
  | FLDd
  | FSTd
  | FSTPd
  | FLDs
  | FSTs
  | FSTPs
  deriving DecidableEq, Repr

/-- The address-size mode of a handler. -/
inductive AddrSize where
  | a16
  | a32
  deriving DecidableEq, Repr

/-- The handler of the source for an operation and an address size. -/
def run {D : Type} (env : Env D) : Op → AddrSize → Nat → State D → Nat × State D
  | Op.FILDiw, AddrSize.a16 => opFILDiw_a16 env
  | Op.FILDiw, AddrSize.a32 => opFILDiw_a32 env
  | Op.FISTiw, AddrSize.a16 => opFISTiw_a16 env
  | Op.FISTiw, AddrSize.a32 => opFISTiw_a32 env
  | Op.FISTPiw, AddrSize.a16 => opFISTPiw_a16 env
  | Op.FISTPiw, AddrSize.a32 => opFISTPiw_a32 env
  | Op.FILDiq, AddrSize.a16 => opFILDiq_a16 env
  | Op.FILDiq, AddrSize.a32 => opFILDiq_a32 env
  | Op.FBSTP, AddrSize.a16 => FBSTP_a16 env
  | Op.FBSTP, AddrSize.a32 => FBSTP_a32 env
  | Op.FISTPiq, AddrSize.a16 => FISTPiq_a16 env
  | Op.FISTPiq, AddrSize.a32 => FISTPiq_a32 env
  | Op.FILDil, AddrSize.a16 => opFILDil_a16 env
  | Op.FILDil, AddrSize.a32 => opFILDil_a32 env
  | Op.FISTil, AddrSize.a16 => opFISTil_a16 env
  | Op.FISTil, AddrSize.a32 => opFISTil_a32 env
  | Op.FISTPil, AddrSize.a16 => opFISTPil_a16 env
  | Op.FISTPil, AddrSize.a32 => opFISTPil_a32 env
  | Op.FLDe, AddrSize.a16 => opFLDe_a16 env
  | Op.FLDe, AddrSize.a32 => opFLDe_a32 env
  | Op.FSTPe, AddrSize.a16 => opFSTPe_a16 env
  | Op.FSTPe, AddrSize.a32 => opFSTPe_a32 env
  | Op.FLDd, AddrSize.a16 => opFLDd_a16 env
  | Op.FLDd, AddrSize.a32 => opFLDd_a32 env
  | Op.FSTd, AddrSize.a16 => opFSTd_a16 env
  | Op.FSTd, AddrSize.a32 => opFSTd_a32 env
  | Op.FSTPd, AddrSize.a16 => opFSTPd_a16 env
  | Op.FSTPd, AddrSize.a32 => opFSTPd_a32 env
  | Op.FLDs, AddrSize.a16 => opFLDs_a16 env
  | Op.FLDs, AddrSize.a32 => opFLDs_a32 env
  | Op.FSTs, AddrSize.a16 => opFSTs_a16 env
  | Op.FSTs, AddrSize.a32 => opFSTs_a32 env
  | Op.FSTPs, AddrSize.a16 => opFSTPs_a16 env
  | Op.FSTPs, AddrSize.a32 => opFSTPs_a32 env

/-- The load handlers: `FILD*`, `FLD*`. -/
def Op.isLoad : Op → Bool
  | Op.FILDiw | Op.FILDil | Op.FILDiq | Op.FLDs | Op.FLDd | Op.FLDe => true
  | _ => false

/-- The store-and-pop handlers: `FISTP*`, `FSTP*`, `FBSTP`. -/
def Op.isStorePop : Op → Bool
  | Op.FISTPiw | Op.FISTPil | Op.FISTPiq | Op.FSTPs | Op.FSTPd | Op.FSTPe | Op.FBSTP => true
  | _ => false

/-- The non-popping store handlers: `FIST*`, `FST*`. -/
def Op.isStore : Op → Bool
  | Op.FISTiw | Op.FISTil | Op.FSTs | Op.FSTd => true
  | _ => false

/-- The resolved (segment base, offset) of a handler call. -/
def resolved {D : Type} (env : Env D) : AddrSize → Nat → Nat × Nat
  | AddrSize.a16, fetchdat => env.ea16 fetchdat
  | AddrSize.a32, fetchdat => env.ea32 fetchdat

/-- The bus accesses made between state `s` and the later state `t`. -/
def accessesBetween {D : Type} (s t : State D) : List Access :=
  t.bus.log.drop s.bus.log.length

/-- Whether a bus access made between `s` and the later state `t` faulted. -/
def faultedBetween {D : Type} (s t : State D) : Bool :=
  (accessesBetween s t).any (fun a => a.faulted)

/-! ## Host arithmetic -/

/-- Truncation of a rational toward zero. -/
def ratTrunc (q : ℚ) : Int :=
  if 0 ≤ q then Rat.floor q else -Rat.floor (-q)

/-- The C function `fmod`: `x - y * trunc (x / y)`, which `fmod` returns
without rounding. -/
def ratFmod (x y : ℚ) : ℚ :=
  x - y * (ratTrunc (x / y) : ℚ)

/-- An environment over `ℚ` with exact arithmetic.  The resolvers are flat
(segment base 0, offset the operand), conversions from integers are exact,
rounding is to the nearest integer (halves up), and a 32-, 64- or 80-bit
pattern `b` is laid out as the number `b`. -/
def exactEnv : Env ℚ where
  ea16 := fun fetchdat => (0, fetchdat % 2 ^ 16)
  ea32 := fun fetchdat => (0, fetchdat % 2 ^ 32)
  fplog := true
  x87_fround := fun q => Rat.floor (q + 1 / 2)
  classify := fun q => if q = 0 then TagClass.zero else TagClass.valid
  ofInt := fun v => (v : ℚ)
  ofBits := fun b => (b : ℚ)
  toBits := fun q => (Rat.floor q).toNat % 2 ^ 64
  ofSingleBits := fun b => (b : ℚ)
  toSingleBits := fun q => (Rat.floor q).toNat % 2 ^ 32
  ofExt80 := fun b => (b : ℚ)
  toExt80 := fun q => (Rat.floor q).toNat % 2 ^ 80
  zero := 0
  ten := 10
  lt := fun a b => decide (a < b)
  neg := fun a => -a
  sub := fun a b => a - b
  div := fun a b => a / b
  fmod := ratFmod
  floor := fun a => (Rat.floor a : ℚ)
  toUint8 := fun a => (ratTrunc a % 256).toNat

/-- Rounding of a rational to the nearest integer, a tie going to the even
neighbour. -/
def roundEven (q : ℚ) : Int :=
  if q - (Rat.floor q : ℚ) < 1 / 2 then Rat.floor q
  else if 1 / 2 < q - (Rat.floor q : ℚ) then Rat.floor q + 1
  else if Rat.floor q % 2 = 0 then Rat.floor q else Rat.floor q + 1

/-- The spacing of the `double` values at the magnitude of `q`:
`2 ^ (e - 52)` where `2 ^ e ≤ |q| < 2 ^ (e + 1)`, and `2 ^ (-1074)` below the
normal range. -/
def ulp (q : ℚ) : ℚ :=
  (2 : ℚ) ^ (max (Int.log 2 |q|) (-1022) - 52)

/-- The `double` (IEEE 754 binary64) nearest to a rational, ties to even: a
finite `double` is taken as the rational number it denotes, and the result is
the multiple of the spacing nearest to `q`.  Overflow to infinity is left
out. -/
def rnd (q : ℚ) : ℚ :=
  (roundEven (q / ulp q) : ℚ) * ulp q

/-- The arithmetic of the host `double` installed in an environment: `tempd`
and `ST(i)` are `double` in the source, and a C `double` is IEEE 754 binary64
with rounding to nearest.  Subtraction, division and the conversion from an
integer round their exact result to the nearest `double`; comparison,
negation, `fmod` and `floor` are exact in binary64; the cast to `uint8_t`
truncates.  The resolvers, the diagnostic switch, the rounding primitive, the
classification and the codecs stay those of `env`. -/
def binary64 (env : Env ℚ) : Env ℚ :=
  { env with
    ofInt := fun v => rnd (v : ℚ)
    zero := 0
    ten := 10
    lt := fun a b => decide (a < b)
    neg := fun a => -a
    sub := fun a b => rnd (a - b)
    div := fun a b => rnd (a / b)
    fmod := ratFmod
    floor := fun a => (Rat.floor a : ℚ)
    toUint8 := fun a => (ratTrunc a % 256).toNat }

/-- Memory holding the listed bytes from linear address 0 on, and 0 elsewhere. -/
def memOf (l : List Nat) : Nat → Nat :=
  fun x => l.getD x 0

/-- A state for examples: every slot tagged empty, `TOP = 0`, the given value
in every register, the given memory content, no faulting address, the abort
flag clear, nothing logged. -/
def demoState (v : ℚ) (bytes : Nat → Nat) : State ℚ where
  TOP := 0
  ST := fun _ => v
  MM := fun _ => 0
  tag := fun _ => ⟨TagClass.empty, false⟩
  abrt := 0
  easeg := 0
  eaaddr := 0
  tempc := 0
  clock := []
  bus := ⟨bytes, fun _ => false, fun _ => false, []⟩


/-- A state for examples whose bus faults, on reads and on writes, at the
linear addresses listed in `bad`. -/
def faultyState (v : ℚ) (bad : List Nat) : State ℚ :=
  { demoState v (fun _ => 0) with
      bus := ⟨fun _ => 0, fun x => bad.contains x, fun x => bad.contains x, []⟩ }

/-- An environment whose conversion from an integer drops the low eleven bits,
as the 53-bit significand of a `double` does for magnitudes near `2 ^ 63`. -/
def lossyEnv : Env ℚ :=
  { exactEnv with ofInt := fun v => ((v / 2048 * 2048 : Int) : ℚ) }

/-! ## Relations used in the proofs -/

/-- State `t` comes from state `s` by the bus accesses `l` alone: register
stack, resolved address, clock and fault map are those of `s`, the log grew by
`l`, and the abort flag is set exactly when it was set before or an access of
`l` faulted. -/
structure BusOnly {D : Type} (s t : State D) (l : List Access) : Prop where
  regs : regStack t = regStack s
  easeg : t.easeg = s.easeg
  eaaddr : t.eaaddr = s.eaaddr
  clock : t.clock = s.clock
  rfault : t.bus.rfault = s.bus.rfault
  wfault : t.bus.wfault = s.bus.wfault
  log : t.bus.log = s.bus.log ++ l
  abrt : t.abrt ≠ 0 ↔ (s.abrt ≠ 0 ∨ ∃ a ∈ l, a.faulted = true)

/-- What every handler call `r` from state `s` satisfies: the log grew by some
accesses `l`; the return value is non-zero exactly when the abort flag was set
on entry or an access of `l` faulted; and a non-zero return leaves the
register stack as it was. -/
def FaultSummary {D : Type} (s : State D) (r : Nat × State D) : Prop :=
  ∃ l, r.2.bus.log = s.bus.log ++ l ∧
    (r.1 ≠ 0 ↔ (s.abrt ≠ 0 ∨ ∃ x ∈ l, x.faulted = true)) ∧
    (r.1 ≠ 0 → regStack r.2 = regStack s)

/-! ## Stack effects, call sequences, cycle costs, store images -/

/-- The register stack after `x87_push` of the value `v`. -/
def pushed {D : Type} (env : Env D) (v : D) (r : RegStack D) : RegStack D :=
  ⟨(r.TOP + 7) % 8, Function.update r.ST ((r.TOP + 7) % 8) v, r.MM,
    Function.update r.tag ((r.TOP + 7) % 8) ⟨env.classify v, false⟩⟩

/-- The register stack after `x87_pop`. -/
def popped {D : Type} (r : RegStack D) : RegStack D :=
  ⟨(r.TOP + 1) % 8, r.ST, r.MM, Function.update r.tag r.TOP ⟨TagClass.empty, false⟩⟩

/-- The register stack after the two assignments of `opFILDiq` that follow its
push: the raw operand goes to the shadow of the top slot and the flag is set. -/
def shadowed {D : Type} (raw : Nat) (r : RegStack D) : RegStack D :=
  ⟨r.TOP, r.ST, Function.update r.MM r.TOP raw,
    Function.update r.tag r.TOP { r.tag r.TOP with uint64 := true }⟩

/-- One handler call: operation, address size and instruction bytes. -/
structure Call where
  op : Op
  a : AddrSize
  fetchdat : Nat
  deriving DecidableEq, Repr

/-- The state after a sequence of handler calls made one after the other. -/
def runCalls {D : Type} (env : Env D) : List Call → State D → State D
  | [], s => s
  | c :: cs, s => runCalls env cs (run env c.op c.a c.fetchdat s).2

/-- Whether every call of a sequence made one after the other returns 0. -/
def allOk {D : Type} (env : Env D) : List Call → State D → Bool
  | [], _ => true
  | c :: cs, s =>
    decide ((run env c.op c.a c.fetchdat s).1 = 0) &&
      allOk env cs (run env c.op c.a c.fetchdat s).2

/-- The states reachable from `s0`: by a handler call, or by a step of the rest
of the machine that leaves the register stack alone (the dispatch loop clearing
the abort flag, a memory write of the guest). -/
inductive Reachable {D : Type} (env : Env D) (s0 : State D) : State D → Prop where
  | start : Reachable env s0 s0
  | call (s : State D) (op : Op) (a : AddrSize) (fetchdat : Nat) :
      Reachable env s0 s → Reachable env s0 (run env op a fetchdat s).2
  | other (s t : State D) : Reachable env s0 s → regStack t = regStack s → Reachable env s0 t

/-- The state with its shadow array replaced. -/
def setMM {D : Type} (m : Nat → Nat) (s : State D) : State D :=
  { s with MM := m }

/-- The cost each handler of the source passes to `CLOCK_CYCLES`; `FBSTP` has no
such call. -/
def cycleCost : Op → Option Nat
  | Op.FILDiw => some 13
  | Op.FISTiw => some 29
  | Op.FISTPiw => some 29
  | Op.FILDiq => some 10
  | Op.FBSTP => none
  | Op.FISTPiq => some 29
  | Op.FILDil => some 9
  | Op.FISTil => some 28
  | Op.FISTPil => some 28
  | Op.FLDe => some 6
  | Op.FSTPe => some 6
  | Op.FLDd => some 3
  | Op.FSTd => some 8
  | Op.FSTPd => some 8
  | Op.FLDs => some 3
  | Op.FSTs => some 7
  | Op.FSTPs => some 7

/-- The `w` low bytes of `v`, least significant first. -/
def bytesLE : Nat → Nat → List Nat
  | 0, _ => []
  | w + 1, v => v % 256 :: bytesLE w (v / 256)

/-- The bytes a list of bus accesses hands to memory, in the order of the
accesses and, within an access, of the addresses. -/
def writtenBytes : List Access → List Nat
  | [] => []
  | a :: l => (if a.write then bytesLE a.width a.data else []) ++ writtenBytes l

/-- The digit extraction of the packed-decimal encoding in the words of the
specification: `n` times, take `floor(fmod(x, 10))` as the low digit, subtract
it and divide by 10, take the next digit as the high digit, subtract and
divide again, and pack the two digits in one byte.  The result is the bytes
and what is left of the magnitude. -/
def packedBcdLoop {D : Type} (env : Env D) : Nat → D → List Nat × D
  | 0, d => ([], d)
  | n + 1, d =>
    let lo := env.toUint8 (env.floor (env.fmod d env.ten)) % 256
    let d1 := env.div (env.sub d (env.floor (env.fmod d env.ten))) env.ten
    let hi := env.toUint8 (env.floor (env.fmod d1 env.ten)) % 256
    let d2 := env.div (env.sub d1 (env.floor (env.fmod d1 env.ten))) env.ten
    ((lo ||| (hi <<< 4)) % 256 :: (packedBcdLoop env n d2).1, (packedBcdLoop env n d2).2)

/-- The packed-decimal encoding of a value in the words of the specification:
eighteen digits of the absolute value in nine bytes, then one more digit in
the tenth byte, with the sign of the original value in its bit 7. -/
def packedBcd {D : Type} (env : Env D) (st0 : D) : List Nat :=
  let mag := if env.lt st0 env.zero then env.neg st0 else st0
  let r := packedBcdLoop env 9 mag
  let last := env.toUint8 (env.floor (env.fmod r.2 env.ten)) % 256
  r.1 ++ [(if env.lt st0 env.zero then last ||| 0x80 else last) % 256]

/-- The external encoding of `ST(0)` of a state for each store-and-pop, in the
words of the specification (format table of the codec), as bytes. -/
def storeImage {D : Type} (env : Env D) (s : State D) : Op → List Nat
  | Op.FISTPiw => bytesLE 2 ((env.x87_fround (STreg 0 s) % 2 ^ 16).toNat)
  | Op.FISTPil => bytesLE 4 ((env.x87_fround (STreg 0 s) % 2 ^ 32).toNat)
  | Op.FISTPiq =>
    bytesLE 8 (if (s.tag s.TOP).uint64 then s.MM s.TOP
      else (env.x87_fround (STreg 0 s) % 2 ^ 64).toNat)
  | Op.FSTPs => bytesLE 4 (env.toSingleBits (STreg 0 s))
  | Op.FSTPd => bytesLE 8 (env.toBits (STreg 0 s))
  | Op.FSTPe => bytesLE 10 (env.toExt80 (STreg 0 s))
  | Op.FBSTP => packedBcd env (STreg 0 s)
  | _ => []

end X87

/-!
# VARCem: the input FIFO of the IM-1024 (`src/devices/video/vid_im1024.c`)
-/

namespace IM1024

/-- The FIFO fields of `im1024_t`: the buffer `fifo` (its content per index),
its allocated length, and the write and read pointers (all `unsigned`). -/
structure Fifo where
  fifo : Nat → Nat
  fifo_len : Nat
  fifo_wrptr : Nat
  fifo_rdptr : Nat

/-- The FIFO as `im1024_init` leaves it: a fresh buffer of 4096 bytes (content
`buf`), both pointers 0. -/
def im1024_init (buf : Nat → Nat) : Fifo :=
  { fifo := buf, fifo_len := 4096, fifo_wrptr := 0, fifo_rdptr := 0 }

/-- Function `fifo_write`.  `reallocOk` says whether `realloc` succeeds when it
is called; `realloc` keeps the old content and `memmove` copies the `wrptr`
bytes at index 0 to index `fifo_len`.  Arithmetic is that of `unsigned`. -/
def fifo_write (reallocOk : Bool) (dev : Fifo) (val : Nat) : Fifo :=
  if (dev.fifo_wrptr + 1) % 2 ^ 32 % dev.fifo_len = dev.fifo_rdptr then
    if reallocOk then
      let buf : Nat → Nat := fun i =>
        if dev.fifo_len ≤ i ∧ i < dev.fifo_len + dev.fifo_wrptr then dev.fifo (i - dev.fifo_len)
        else dev.fifo i
      let wrptr := (dev.fifo_wrptr + dev.fifo_len) % 2 ^ 32
      let len := dev.fifo_len * 2 % 2 ^ 32
      let buf := Function.update buf wrptr (val % 256)
      let wrptr := (wrptr + 1) % 2 ^ 32
      { fifo := buf, fifo_len := len, fifo_wrptr := if wrptr ≥ len then 0 else wrptr,
        fifo_rdptr := dev.fifo_rdptr }
    else dev
  else
    let buf := Function.update dev.fifo dev.fifo_wrptr (val % 256)
    let wrptr := (dev.fifo_wrptr + 1) % 2 ^ 32
    { fifo := buf, fifo_len := dev.fifo_len,
      fifo_wrptr := if wrptr ≥ dev.fifo_len then 0 else wrptr, fifo_rdptr := dev.fifo_rdptr }

/-- Function `fifo_read`: `-1` when the FIFO is empty, else the byte at the read
pointer, which then advances and wraps. -/
def fifo_read (dev : Fifo) : Int × Fifo :=
  if dev.fifo_wrptr = dev.fifo_rdptr then (-1, dev)
  else
    let ret := dev.fifo dev.fifo_rdptr % 256
    let rdptr := (dev.fifo_rdptr + 1) % 2 ^ 32
    ((ret : Int), { dev with fifo_rdptr := if rdptr ≥ dev.fifo_len then 0 else rdptr })

/-- The FIFO after `fifo_write` of each byte of a list in turn, every `realloc`
succeeding. -/
def writeAll (dev : Fifo) : List Nat → Fifo
  | [] => dev
  | v :: vs => writeAll (fifo_write true dev v) vs

end IM1024

/-!
# VARCem: drawing commands of the IM-1024 (`src/devices/video/vid_im1024.c`)

The handlers `hndl_blkmov`, `hndl_imagew` and `hndl_poly` are translated from
the source.  They call into `vid_pgc.c`, which is not among the sources and
for which the specification has no text; what is used of it is kept apart in
definitions that say so.
-/

namespace IM1024

/-- The conversion to `int16_t` of the compilers in use: reduction modulo
`2 ^ 16` into `-32768 .. 32767`. -/
def wrap16 (n : Int) : Int :=
  (n + 32768) % 65536 - 32768

/-- The fields of a command list `pgc_cl_t` that `hndl_poly` reads. -/
structure Cl where
  list : Nat → Nat
  rdptr : Nat
  wrptr : Nat

/-- The fields of `pgc_t` that the three handlers use, with the framebuffer as
a function of column and row, the bytes of parameter input that the host has
sent and no handler has taken yet, and two records kept for the proofs: the
calls of `pgc_write_pixel` and of `pgc_draw_line` made so far. -/
structure Pgc where
  vp_x1 : Int
  vp_y1 : Int
  vp_x2 : Int
  vp_y2 : Int
  maxw : Int
  maxh : Int
  draw_mode : Nat
  ascii_mode : Bool
  fill_mode : Nat
  line_pattern : Int
  clcur : Option Cl
  input : List Nat
  vram : Int → Int → Nat
  pixlog : List (Int × Int × Nat)
  linelog : List (Int × Int × Int × Int)

/-- Modelled from the spec: `pgc_param_byte` (in `vid_pgc.c`, absent; the
specification has no text for it) is taken as the reader of one parameter
byte in hex mode: inside a command list the byte at its read pointer, else
the next byte of the input; failure when there is none. -/
def pgc_param_byte (p : Pgc) : Option (Nat × Pgc) :=
  match p.clcur with
  | some cl =>
    if cl.rdptr < cl.wrptr then
      some (cl.list cl.rdptr % 256, { p with clcur := some { cl with rdptr := cl.rdptr + 1 } })
    else none
  | none =>
    match p.input with
    | [] => none
    | b :: bs => some (b % 256, { p with input := bs })

/-- Modelled from the spec: `pgc_param_word` (in `vid_pgc.c`, absent; the
specification has no text for it) is taken as the reader of one parameter
word in hex mode: two parameter bytes, low byte first, as an `int16_t`. -/
def pgc_param_word (p : Pgc) : Option (Int × Pgc) :=
  match pgc_param_byte p with
  | none => none
  | some (lo, p1) =>
    match pgc_param_byte p1 with
    | none => none
    | some (hi, p2) => some (wrap16 ((lo + 256 * hi : Nat) : Int), p2)

/-- Modelled from the spec: `pgc_read_pixel` (in `vid_pgc.c`, absent; the
specification has no text for it) is taken as the read of a pixel store: the
byte of the framebuffer at a position inside it, 0 outside. -/
def pgc_read_pixel (p : Pgc) (x y : Int) : Nat :=
  if 0 ≤ x ∧ x < p.maxw ∧ 0 ≤ y ∧ y < p.maxh then p.vram x y % 256 else 0

/-- Modelled from the spec: `pgc_write_pixel` (in `vid_pgc.c`, absent; the
specification has no text for it) is taken as the write of a pixel store: the
ink is stored at a position inside the viewport and the framebuffer, a write
anywhere else is dropped.  Every call is recorded. -/
def pgc_write_pixel (p : Pgc) (x y : Int) (ink : Nat) : Pgc :=
  let q := { p with pixlog := p.pixlog ++ [(x, y, ink % 256)] }
  if x < p.vp_x1 ∨ x > p.vp_x2 ∨ x ≥ p.maxw ∨ y < p.vp_y1 ∨ y > p.vp_y2 ∨ y ≥ p.maxh then q
  else { q with vram := fun a b => if a = x ∧ b = y then ink % 256 else p.vram a b }

/-- The drawing primitives of `vid_pgc.c` that `hndl_poly` calls, as
parameters: `pgc_draw_line` (its result is the line pattern to go on with) and
`pgc_fill_polygon`. -/
structure Draw where
  pgc_draw_line : Pgc → Int → Int → Int → Int → Int → Int × Pgc
  pgc_fill_polygon : Pgc → Nat → (Nat → Int) → (Nat → Int) → Pgc

/-- How the embedding of a loop can fail: the fuel ran out, or an index into a
local array was outside the array. -/
inductive Err where
  | fuel
  | bounds
  deriving DecidableEq, Repr

/-! ## `hndl_blkmov` -/

/-- The first loop of `blkmov_row`, from column `x` on: one pixel of the source
row and one of the target row go into the local arrays `src` and `dst` of
1024 bytes each. -/
def blkmovRead : Nat → Pgc → Int → Int → Int → Int → Int → Int → (Int → Nat) → (Int → Nat) →
    Except Err ((Int → Nat) × (Int → Nat))
  | 0, _, _, _, _, _, _, _, _, _ => Except.error Err.fuel
  | fuel + 1, p, x0, x1, x2, sy, ty, x, src, dst =>
    if x ≤ x1 then
      if 0 ≤ x - x0 ∧ x - x0 < 1024 then
        blkmovRead fuel p x0 x1 x2 sy ty (wrap16 (x + 1))
          (Function.update src (x - x0) (pgc_read_pixel p x sy))
          (Function.update dst (x - x0) (pgc_read_pixel p (x - x0 + x2) ty))
      else Except.error Err.bounds
    else Except.ok (src, dst)

/-- The second loop of `blkmov_row`, from column `x` on: the pixel that the
drawing mode asks for is written to the target row. -/
def blkmovWrite : Nat → Pgc → Int → Int → Int → Int → Int → (Int → Nat) → (Int → Nat) →
    Except Err Pgc
  | 0, _, _, _, _, _, _, _, _ => Except.error Err.fuel
  | fuel + 1, p, x0, x1, x2, ty, x, src, dst =>
    if x ≤ x1 then
      if 0 ≤ x - x0 ∧ x - x0 < 1024 then
        let ink :=
          if p.draw_mode = 1 then dst (x - x0) ^^^ 0xff
          else if p.draw_mode = 2 then src (x - x0) ^^^ dst (x - x0)
          else if p.draw_mode = 3 then src (x - x0) &&& dst (x - x0)
          else src (x - x0)
        blkmovWrite fuel (pgc_write_pixel p (x - x0 + x2) ty ink) x0 x1 x2 ty (wrap16 (x + 1))
          src dst
      else Except.error Err.bounds
    else Except.ok p

/-- Function `blkmov_row`; the local arrays start with the content 0. -/
def blkmov_row (fuel : Nat) (pgc : Pgc) (x0 x1 x2 sy ty : Int) : Except Err Pgc :=
  match blkmovRead fuel pgc x0 x1 x2 sy ty x0 (fun _ => 0) (fun _ => 0) with
  | Except.error e => Except.error e
  | Except.ok (src, dst) => blkmovWrite fuel pgc x0 x1 x2 ty x0 src dst

/-- The loop `for (y = y0; y <= y1; y++)` of `hndl_blkmov`, from row `y` on. -/
def blkmovDown : Nat → Pgc → Int → Int → Int → Int → Int → Int → Int → Except Err Pgc
  | 0, _, _, _, _, _, _, _, _ => Except.error Err.fuel
  | fuel + 1, p, x0, y0, x1, y1, x2, y2, y =>
    if y ≤ y1 then
      match blkmov_row (fuel + 1) p x0 x1 x2 y (wrap16 (y - y0 + y2)) with
      | Except.error e => Except.error e
      | Except.ok q => blkmovDown fuel q x0 y0 x1 y1 x2 y2 (wrap16 (y + 1))
    else Except.ok p

/-- The loop `for (y = y1; y >= y0; y--)` of `hndl_blkmov`, from row `y` on. -/
def blkmovUp : Nat → Pgc → Int → Int → Int → Int → Int → Int → Int → Except Err Pgc
  | 0, _, _, _, _, _, _, _, _ => Except.error Err.fuel
  | fuel + 1, p, x0, y0, x1, y1, x2, y2, y =>
    if y ≥ y0 then
      match blkmov_row (fuel + 1) p x0 x1 x2 y (wrap16 (y - y0 + y2)) with
      | Except.error e => Except.error e
      | Except.ok q => blkmovUp fuel q x0 y0 x1 y1 x2 y2 (wrap16 (y - 1))
    else Except.ok p

/-- Calls of `pgc_param_word`, `n` of them one after the other, as long as they
succeed; on a failure the state is the one before the failed read. -/
def paramWords : Nat → Pgc → Option (List Int) × Pgc
  | 0, p => (some [], p)
  | n + 1, p =>
    match pgc_param_word p with
    | none => (none, p)
    | some (v, p1) =>
      match paramWords n p1 with
      | (none, p2) => (none, p2)
      | (some vs, p2) => (some (v :: vs), p2)

/-- Function `hndl_blkmov`, with `PUSHCLIP` and `POPCLIP` written out.  `false`
in the result stands for the `return` on a failed parameter read. -/
def hndl_blkmov (fuel : Nat) (pgc : Pgc) : Except Err (Bool × Pgc) :=
  match paramWords 6 pgc with
  | (some [x0, y0, x1, y1, x2, y2], p) =>
    let q := { p with vp_x1 := 0, vp_y1 := 0, vp_x2 := p.maxw - 1, vp_y2 := p.maxh - 1 }
    match (if y2 ≤ y0 then blkmovDown fuel q x0 y0 x1 y1 x2 y2 y0
           else blkmovUp fuel q x0 y0 x1 y1 x2 y2 y1) with
    | Except.error e => Except.error e
    | Except.ok r =>
      Except.ok (true, { r with vp_x1 := p.vp_x1, vp_y1 := p.vp_y1,
                                vp_x2 := p.vp_x2, vp_y2 := p.vp_y2 })
  | (_, p) => Except.ok (false, p)

/-- The parameter bytes of a list of parameter words. -/
def wordsBytes : List Int → List Nat
  | [] => []
  | v :: vs => [(v % 256).toNat, (v / 256 % 256).toNat] ++ wordsBytes vs

/-! ## `hndl_poly` -/

/-- The two vertex arrays of `hndl_poly` with their capacity `as`, the vertex
count, and a record of every index at which `hndl_poly` reads or writes an
array, with the capacity at that time. -/
structure Poly where
  x : Nat → Int
  y : Nat → Int
  as : Nat
  realcount : Nat
  acc : List (Nat × Nat)

/-- An array access at index `i`, recorded. -/
def Poly.touch (v : Poly) (i : Nat) : Poly :=
  { v with acc := v.acc ++ [(i, v.as)] }

/-- The loop `for (n = 0; n < count; n++)` of `hndl_poly`, `k` turns to go:
two parameter words, the test for a degenerate segment (with the short-circuit
evaluation of `&&`), and the store of the vertex.  `false` in the result
stands for the `return` on a failed parameter read. -/
def polyPoints : Nat → Pgc → Poly → Bool × Pgc × Poly
  | 0, p, v => (true, p, v)
  | k + 1, p, v =>
    match pgc_param_word p with
    | none => (false, p, v)
    | some (xw, p1) =>
      match pgc_param_word p1 with
      | none => (false, p1, v)
      | some (yw, p2) =>
        let last := (v.realcount + 2 ^ 32 - 1) % 2 ^ 32
        let v1 := if v.realcount > 0 then v.touch last else v
        let v2 := if v.realcount > 0 ∧ xw * 65536 = v.x last then v1.touch last else v1
        if v.realcount > 0 ∧ xw * 65536 = v.x last ∧ yw * 65536 = v.y last then
          polyPoints k p2 v2
        else
          let v3 := (v2.touch v.realcount).touch v.realcount
          polyPoints k p2
            { v3 with x := Function.update v.x v.realcount (xw * 65536),
                      y := Function.update v.y v.realcount (yw * 65536),
                      realcount := (v.realcount + 1) % 2 ^ 32 }

/-- The loop `while (parsing)` of `hndl_poly`, every `realloc` succeeding (the
new content beyond the old capacity is that of the old function).  `none`
when the fuel runs out; `false` for the `return` on a failed parameter read. -/
def polyParse : Nat → Pgc → Poly → Option (Bool × Pgc × Poly)
  | 0, _, _ => none
  | fuel + 1, p, v =>
    match pgc_param_byte p with
    | none => some (false, p, v)
    | some (count, p1) =>
      let v1 := if (count + v.realcount) % 2 ^ 32 ≥ v.as then { v with as := v.as * 2 % 2 ^ 32 }
        else v
      match polyPoints count p1 v1 with
      | (false, p2, v2) => some (false, p2, v2)
      | (true, p2, v2) =>
        match p2.clcur with
        | some cl =>
          if (cl.rdptr + 1) % 2 ^ 32 < cl.wrptr ∧ cl.list cl.rdptr % 256 = 0x30 then
            polyParse fuel { p2 with clcur := some { cl with rdptr := cl.rdptr + 1 } } v2
          else some (true, p2, v2)
        | none => some (true, p2, v2)

/-- The loop `for (n = 1; n < realcount; n++)` of `hndl_poly` that draws the
borders, `k` turns to go. -/
def polyBorder (dr : Draw) : Nat → Nat → Int → Pgc → Poly → Int × Pgc × Poly
  | 0, _, mask, p, v => (mask, p, v)
  | k + 1, n, mask, p, v =>
    let v1 := (((v.touch (n - 1)).touch (n - 1)).touch n).touch n
    let r := dr.pgc_draw_line p (v.x (n - 1)) (v.y (n - 1)) (v.x n) (v.y n) mask
    polyBorder dr k (n + 1) (wrap16 r.1) r.2 v1

/-- Function `hndl_poly`, both `mem_alloc` succeeding, with the arrays as
`mem_alloc` leaves them (content `x0`, `y0`), without the `DEBUG` lines.  The
result is the state and the record of the array accesses; `none` when the
fuel of the parsing loop runs out. -/
def hndl_poly (dr : Draw) (fuel : Nat) (x0 y0 : Nat → Int) (pgc : Pgc) :
    Option (Pgc × List (Nat × Nat)) :=
  match polyParse fuel pgc ⟨x0, y0, 256, 0, []⟩ with
  | none => none
  | some (false, p, v) => some (p, v.acc)
  | some (true, p, v) =>
    let p1 := if p.fill_mode ≠ 0 then dr.pgc_fill_polygon p v.realcount v.x v.y else p
    let b := polyBorder dr (v.realcount - 1) 1 (wrap16 p1.line_pattern) p1 v
    let last := (b.2.2.realcount + 2 ^ 32 - 1) % 2 ^ 32
    let v1 := (((b.2.2.touch last).touch last).touch 0).touch 0
    let r := dr.pgc_draw_line b.2.1 (v1.x last) (v1.y last) (v1.x 0) (v1.y 0) b.1
    some (r.2, v1.acc)

/-! ## `hndl_imagew` -/

/-- The loop of the literal run of `hndl_imagew`, `v1` bytes to go: a
parameter byte, the pixel, the next column.  `false` in the result stands for
the `return` on a failed parameter read. -/
def imagewLiteral : Nat → Int → Int → Int → Pgc → Bool × Int × Pgc
  | 0, col1, _, _, p => (true, col1, p)
  | v1 + 1, col1, col2, row1, p =>
    if col1 ≤ col2 then
      match pgc_param_byte p with
      | none => (false, col1, p)
      | some (v2, p1) =>
        imagewLiteral v1 (wrap16 (col1 + 1)) col2 row1 (pgc_write_pixel p1 col1 row1 v2)
    else (true, col1, p)

/-- The loop of the repeated run of `hndl_imagew`, `v1` pixels to go. -/
def imagewRepeat : Nat → Int → Int → Int → Nat → Pgc → Int × Pgc
  | 0, col1, _, _, _, p => (col1, p)
  | v1 + 1, col1, col2, row1, v2, p =>
    if col1 ≤ col2 then
      imagewRepeat v1 (wrap16 (col1 + 1)) col2 row1 v2 (pgc_write_pixel p col1 row1 v2)
    else (col1, p)

/-- The loop `while (col1 <= col2)` of the hex mode of `hndl_imagew`.  `none`
when the fuel runs out; `false` for the `return` on a failed parameter read. -/
def imagewHex : Nat → Int → Int → Int → Pgc → Option (Bool × Pgc)
  | 0, _, _, _, _ => none
  | fuel + 1, col1, col2, row1, p =>
    if col1 ≤ col2 then
      match pgc_param_byte p with
      | none => some (false, p)
      | some (v1, p1) =>
        if v1 &&& 0x80 ≠ 0 then
          match imagewLiteral ((v1 + 256 - 0x7f) % 256) col1 col2 row1 p1 with
          | (false, _, p2) => some (false, p2)
          | (true, c, p2) => imagewHex fuel c col2 row1 p2
        else
          match pgc_param_byte p1 with
          | none => some (false, p1)
          | some (v2, p2) =>
            let r := imagewRepeat ((v1 + 1) % 256) col1 col2 row1 v2 p2
            imagewHex fuel r.1 col2 row1 r.2
    else some (true, p)

/-- The loop `while (col1 <= col2)` of the ASCII mode of `hndl_imagew`. -/
def imagewAscii : Nat → Int → Int → Int → Pgc → Option (Bool × Pgc)
  | 0, _, _, _, _ => none
  | fuel + 1, col1, col2, row1, p =>
    if col1 ≤ col2 then
      match pgc_param_byte p with
      | none => some (false, p)
      | some (v1, p1) =>
        imagewAscii fuel (wrap16 (col1 + 1)) col2 row1 (pgc_write_pixel p1 col1 row1 v1)
    else some (true, p)

/-- Function `hndl_imagew`.  `none` when the fuel of the column loop runs out;
`false` in the result for a `return` on a failed parameter read, which leaves
the viewport as it is at that point. -/
def hndl_imagew (fuel : Nat) (pgc : Pgc) : Option (Bool × Pgc) :=
  match pgc_param_word pgc with
  | none => some (false, pgc)
  | some (row1, p1) =>
    match pgc_param_word p1 with
    | none => some (false, p1)
    | some (col1, p2) =>
      match pgc_param_word p2 with
      | none => some (false, p2)
      | some (col2, p3) =>
        let p4 := { p3 with vp_x1 := 0, vp_y1 := 0, vp_x2 := p3.maxw - 1, vp_y2 := p3.maxh - 1 }
        match (if p4.ascii_mode then imagewAscii fuel col1 col2 row1 p4
               else imagewHex fuel col1 col2 row1 p4) with
        | none => none
        | some (false, p5) => some (false, p5)
        | some (true, p5) =>
          some (true, { p5 with vp_x1 := p3.vp_x1, vp_y1 := p3.vp_y1,
                                vp_x2 := p3.vp_x2, vp_y2 := p3.vp_y2 })

/-- The expansion of a run-length stream, as a function of the stream alone,
from a point where `lit` literal bytes are still due: a control byte
`c ≥ 0x80` is followed by `c - 0x7F` literal bytes, a control byte `c < 0x80`
by one byte that is repeated `c + 1` times. -/
def rleExpandFrom : Nat → List Nat → List Nat
  | _, [] => []
  | lit + 1, b :: bs => b :: rleExpandFrom lit bs
  | 0, [_] => []
  | 0, c :: v :: bs =>
    if c ≥ 0x80 then rleExpandFrom (c - 0x7F) (v :: bs)
    else List.replicate (c + 1) v ++ rleExpandFrom 0 bs

/-- The expansion of a run-length stream that starts at a control byte. -/
def rleExpand (s : List Nat) : List Nat :=
  rleExpandFrom 0 s

/-- The calls of `pgc_write_pixel` that put the bytes of a list into a row,
from a column on. -/
def rowPixels (row : Int) : Int → List Nat → List (Int × Int × Nat)
  | _, [] => []
  | col, v :: vs => (col, row, v) :: rowPixels row (col + 1) vs

/-- The two parameter bytes of a parameter word. -/
def wordBytes (v : Int) : List Nat :=
  [(v % 256).toNat, (v / 256 % 256).toNat]

/-- A framebuffer content for examples: pixel `(a, b)` holds `a + 10 * b`. -/
def demoVram : Int → Int → Nat :=
  fun a b => (a + 10 * b).toNat % 256

/-- Drawing primitives for examples: a line is recorded and the pattern comes
back as it is, a fill does nothing. -/
def logDraw : Draw where
  pgc_draw_line := fun p a b c d m => (m, { p with linelog := p.linelog ++ [(a, b, c, d)] })
  pgc_fill_polygon := fun p _ _ _ => p

/-- A controller for examples: hex mode, draw mode 0, a framebuffer of 1024 by
1024 pixels with the given content, the viewport the 1024 by 800 pixels on
display, the given parameter input, no command list. -/
def demoPgc (vram : Int → Int → Nat) (input : List Nat) : Pgc where
  vp_x1 := 0
  vp_y1 := 0
  vp_x2 := 1023
  vp_y2 := 799
  maxw := 1024
  maxh := 1024
  draw_mode := 0
  ascii_mode := false
  fill_mode := 0
  line_pattern := 0xFFFF
  clcur := none
  input := input
  vram := vram
  pixlog := []
  linelog := []

/-! ## Relations used in the proofs -/

/-- State `q` comes from state `p` by calls of `pgc_write_pixel` that put the
bytes `vals` into row `row` from column `col` on, and by parameter reads
outside a command list that leave `rest` as input. -/
structure Wrote (p q : Pgc) (row col : Int) (vals rest : List Nat) : Prop where
  vp_x1 : q.vp_x1 = p.vp_x1
  vp_y1 : q.vp_y1 = p.vp_y1
  vp_x2 : q.vp_x2 = p.vp_x2
  vp_y2 : q.vp_y2 = p.vp_y2
  maxw : q.maxw = p.maxw
  maxh : q.maxh = p.maxh
  draw_mode : q.draw_mode = p.draw_mode
  ascii_mode : q.ascii_mode = p.ascii_mode
  clcur : q.clcur = p.clcur
  input : q.input = rest
  pixlog : q.pixlog = p.pixlog ++ rowPixels row col vals
  frame : ∀ a b, ¬ (b = row ∧ col ≤ a ∧ a < col + vals.length) → q.vram a b = p.vram a b

/-- State `q` has the configuration of state `p`: viewport, size of the
framebuffer, drawing mode, command list and input. -/
structure SameCfg (p q : Pgc) : Prop where
  vp_x1 : q.vp_x1 = p.vp_x1
  vp_y1 : q.vp_y1 = p.vp_y1
  vp_x2 : q.vp_x2 = p.vp_x2
  vp_y2 : q.vp_y2 = p.vp_y2
  maxw : q.maxw = p.maxw
  maxh : q.maxh = p.maxh
  draw_mode : q.draw_mode = p.draw_mode
  clcur : q.clcur = p.clcur
  input : q.input = p.input

/-- The viewport is the whole framebuffer, as `PUSHCLIP` sets it. -/
def Unclipped (p : Pgc) : Prop :=
  p.vp_x1 = 0 ∧ p.vp_y1 = 0 ∧ p.vp_x2 = p.maxw - 1 ∧ p.vp_y2 = p.maxh - 1

end IM1024

/-!
# VARCem: the Intel 28F001BX flash BIOS (`src/devices/system/intel_flash.c`)
-/

namespace IntelFlash

/-- Bit `FLASH_IS_BXB` of the device type. -/
def FLASH_IS_BXB : Nat := 2
/-- Bit `FLASH_INVERT` of the device type. -/
def FLASH_INVERT : Nat := 1

/-- Index `BLOCK_MAIN` of the block tables. -/
def BLOCK_MAIN : Nat := 0
/-- Index `BLOCK_DATA1` of the block tables. -/
def BLOCK_DATA1 : Nat := 1
/-- Index `BLOCK_DATA2` of the block tables. -/
def BLOCK_DATA2 : Nat := 2
/-- Index `BLOCK_BOOT` of the block tables. -/
def BLOCK_BOOT : Nat := 3

/-- Command `CMD_READ_ARRAY`. -/
def CMD_READ_ARRAY : Nat := 0xff
/-- Command `CMD_IID`. -/
def CMD_IID : Nat := 0x90
/-- Command `CMD_READ_STATUS`. -/
def CMD_READ_STATUS : Nat := 0x70
/-- Command `CMD_CLEAR_STATUS`. -/
def CMD_CLEAR_STATUS : Nat := 0x50
/-- Command `CMD_ERASE_SETUP`. -/
def CMD_ERASE_SETUP : Nat := 0x20
/-- Command `CMD_ERASE_CONFIRM`. -/
def CMD_ERASE_CONFIRM : Nat := 0xd0
/-- Command `CMD_PROGRAM_SETUP`. -/
def CMD_PROGRAM_SETUP : Nat := 0x40
/-- Command `CMD_PROGRAM_SETUP_ALT`. -/
def CMD_PROGRAM_SETUP_ALT : Nat := 0x10

/-- The fields of `flash_t` that the read and write handlers use.  The three
block tables are indexed `0 .. 3`, the array `0 .. 131071`. -/
structure flash_t where
  command : Nat
  status : Nat
  flash_id : Nat
  invert_high_pin : Nat
  block_start : Nat → Nat
  block_end : Nat → Nat
  block_len : Nat → Nat
  array : Nat → Nat

/-- A table of four entries. -/
def table4 (a b c d : Nat) : Nat → Nat :=
  fun i => if i = 0 then a else if i = 1 then b else if i = 2 then c else if i = 3 then d else 0

/-- The library call `memset(&a[start], v, len)`. -/
def memset (a : Nat → Nat) (start v len : Nat) : Nat → Nat :=
  fun k => if start ≤ k ∧ k < start + len then v else a k

/-- Function `intel_flash_init`, as far as the flash state goes: identifier,
pin setting, block tables, the array filled from `rom` (the two halves swapped
when the high pin is inverted) and then, when the NVR file exists, the three
writable blocks read from it one after the other, and the chip in read-array
mode.  The file is given by its bytes; a file shorter than the three blocks is
not modelled. -/
def intel_flash_init (type : Nat) (rom : Nat → Nat) (file : Option (Nat → Nat)) : flash_t :=
  let bxb := type % 256 &&& FLASH_IS_BXB
  let inv := type % 256 &&& FLASH_INVERT
  let len := table4 0x1c000 0x01000 0x01000 0x02000
  let start := if bxb ≠ 0 then table4 0x04000 0x03000 0x04000 0x00000
    else table4 0x00000 0x1c000 0x1d000 0x1e000
  let endt := if bxb ≠ 0 then table4 0x1ffff 0x03fff 0x04fff 0x01fff
    else table4 0x1bfff 0x1cfff 0x1dfff 0x1ffff
  let arr0 : Nat → Nat :=
    if inv ≠ 0 then fun k => if k < 65536 then rom (k + 65536) else rom (k - 65536)
    else rom
  let fread (a : Nat → Nat) (f : Nat → Nat) (off blk : Nat) : Nat → Nat :=
    fun k => if start blk ≤ k ∧ k < start blk + len blk then f (off + (k - start blk)) else a k
  let arr : Nat → Nat :=
    match file with
    | none => arr0
    | some f =>
      let a1 := fread arr0 f 0 BLOCK_MAIN
      let a2 := fread a1 f (len BLOCK_MAIN) BLOCK_DATA1
      fread a2 f (len BLOCK_MAIN + len BLOCK_DATA1) BLOCK_DATA2
  { command := CMD_READ_ARRAY, status := 0,
    flash_id := if bxb ≠ 0 then 0x95 else 0x94,
    invert_high_pin := inv,
    block_start := start, block_end := endt, block_len := len,
    array := arr }

/-- The first two statements of `flash_read` and of `flash_write`: the array
index of a bus address of 32 bits. -/
def arrayIndex (flash : flash_t) (addr : Nat) : Nat :=
  (if flash.invert_high_pin ≠ 0 then (addr % 2 ^ 32) ^^^ 0x10000 else addr % 2 ^ 32) &&& 0x1ffff

/-- Function `flash_read`. -/
def flash_read (addr : Nat) (flash : flash_t) : Nat :=
  let addr := arrayIndex flash addr
  if flash.command = CMD_IID then
    if addr &&& 1 ≠ 0 then flash.flash_id else 0x89
  else if flash.command = CMD_READ_STATUS then flash.status
  else flash.array addr

/-- One turn of the erase loop of `flash_write`: block `i` is set to `0xff`
when it holds the address. -/
def eraseBlock (flash : flash_t) (addr : Nat) (a : Nat → Nat) (i : Nat) : Nat → Nat :=
  if flash.block_start i ≤ addr ∧ addr ≤ flash.block_end i then
    memset a (flash.block_start i) 0xff (flash.block_len i)
  else a

/-- Function `flash_write`; `val` is a `uint8_t`. -/
def flash_write (addr val : Nat) (flash : flash_t) : flash_t :=
  let addr := arrayIndex flash addr
  let val := val % 256
  if flash.command = CMD_ERASE_SETUP then
    if val = CMD_ERASE_CONFIRM then
      { flash with
        array := [0, 1, 2].foldl (eraseBlock flash addr) flash.array,
        status := 0x80, command := CMD_READ_STATUS }
    else { flash with command := CMD_READ_STATUS }
  else if flash.command = CMD_PROGRAM_SETUP ∨ flash.command = CMD_PROGRAM_SETUP_ALT then
    { flash with
      array := if addr &&& 0x1e000 ≠ flash.block_start 3 &&& 0x1e000
        then Function.update flash.array addr val else flash.array,
      command := CMD_READ_STATUS, status := 0x80 }
  else
    { flash with command := val, status := if val = CMD_CLEAR_STATUS then 0 else flash.status }

/-- A flash state as `intel_flash_init` creates it for a device type, later
on: the block tables and the pin setting of the type, any command, status and
array content. -/
def flashOf (type : Nat) (command status : Nat) (array : Nat → Nat) : flash_t :=
  { intel_flash_init type (fun _ => 0) none with
    command := command, status := status, array := array }

end IntelFlash

/-!
# VARCem: the UDP network tunnel (`src/devices/network/net_udp.c`)
-/

namespace NetUdp

/-- Constant `PKT_MAGIC`. -/
def PKT_MAGIC : Nat := 0x4958
/-- Constant `CS_CMD_REG`. -/
def CS_CMD_REG : Nat := 0xFF
/-- Constant `CS_CMD_UNREG`. -/
def CS_CMD_UNREG : Nat := 0xFA

/-- The fields of `struct handshake_hdr` that sender and receiver use
(`mac_addr` is written by the sender and never read through the header by the
receiver). -/
structure handshake_hdr where
  magic : Nat
  checksum : Nat
  data_len : Nat
  compress_len : Nat
  length : Nat
  deriving DecidableEq, Repr

/-- The two calls into zlib, a library outside the repository:
`compress`, and `uncompress` with the length of the destination buffer. -/
structure Zlib where
  compress : List Nat → List Nat
  uncompress : List Nat → Nat → List Nat

/-- Function `packet_crc`: the XOR of the first `bufSize` bytes of the buffer,
`bufSize` being a `uint16_t`. -/
def packet_crc (buffer : List Nat) (bufSize : Nat) : Nat :=
  (buffer.take (bufSize % 2 ^ 16)).foldl (fun tmpCRC b => (tmpCRC ^^^ b) % 256) 0

/-- Function `do_send`, up to the socket write: the header and the compressed
packet that follow it in the datagram.  `hdrSize` is
`sizeof(struct handshake_hdr)`. -/
def do_send (z : Zlib) (hdrSize : Nat) (bufp : List Nat) (len : Nat) :
    handshake_hdr × List Nat :=
  let compressed_packet := z.compress (bufp.take len)
  let compressed_size := compressed_packet.length
  ({ magic := PKT_MAGIC,
     checksum := packet_crc bufp len,
     data_len := len % 2 ^ 16,
     compress_len := compressed_size % 2 ^ 16,
     length := (compressed_size % 2 ^ 16 + hdrSize) % 2 ^ 16 }, compressed_packet)

/-- What `poll_thread` does with one datagram. -/
inductive Rx where
  | ignored
  | short
  | registered
  | skipped
  | badChecksum
  | own
  | delivered (rawData : List Nat)
  deriving DecidableEq, Repr

/-- The body of the loop of `poll_thread` for one datagram of `len > 0` bytes:
`hdr` is the header copied from the datagram, `body` the bytes after the
header, `rxmac` the six bytes at offset 6 of the datagram, `mac` the local
address.  The result is the new `is_server_connected` and what was done. -/
def poll_packet (z : Zlib) (mac : List Nat) (is_server_connected : Bool)
    (hdr : handshake_hdr) (body rxmac : List Nat) (len : Nat) : Bool × Rx :=
  if hdr.magic = PKT_MAGIC then
    if len < hdr.length then (is_server_connected, Rx.short)
    else if hdr.checksum = CS_CMD_REG then (true, Rx.registered)
    else if is_server_connected then
      if hdr.data_len > 0 ∧ hdr.compress_len > 0 then
        let rawData := z.uncompress (body.take hdr.compress_len) hdr.data_len
        let checksum := packet_crc rawData hdr.data_len
        if hdr.checksum ≠ checksum then (is_server_connected, Rx.badChecksum)
        else if rxmac ≠ mac.take 6 then (is_server_connected, Rx.delivered rawData)
        else (is_server_connected, Rx.own)
      else (is_server_connected, Rx.skipped)
    else (is_server_connected, Rx.skipped)
  else (is_server_connected, Rx.ignored)

/-- A zlib stand-in for examples: the data is stored as it is. -/
def storedZlib : Zlib where
  compress := fun l => l
  uncompress := fun l n => l.take n

/-- An Ethernet frame of 60 bytes for examples: broadcast destination, source
`52:54:00:12:34:56`, type `0x0800`, and 46 bytes of data. -/
def demoFrame : List Nat :=
  List.replicate 6 0xFF ++ [0x52, 0x54, 0x00, 0x12, 0x34, 0x56, 0x08, 0x00, 0x81]
    ++ List.replicate 45 0

end NetUdp

/-!
# VARCem: directory reading on Windows (`src/win/win_opendir.c`)
-/

namespace WinOpendir

/-- A file name: the wide characters before the terminator. -/
abbrev Name := List Nat

/-- What `readdir` takes from the header `win_opendir.h`, which is not among
the sources: the constant `MAXNAMLEN`, and the conversions to the integer
types of the fields `offset` of `DIR` and `d_off`, `d_reclen` of
`struct direct`. -/
structure Decls where
  MAXNAMLEN : Nat
  offsetT : Int → Int
  d_offT : Int → Int
  d_reclenT : Int → Int

/-- The fields of `struct direct`. -/
structure direct where
  d_ino : Int
  d_off : Int
  d_reclen : Int
  d_name : Name
  deriving DecidableEq, Repr

/-- The fields of `DIR`.  Of `flags` the bit `DIR_F_ISROOT` is kept.  The
search that `_wfindfirst` opened is `handle`, the names it has still to
yield; `dta` is the name the last successful find call left in the work
area. -/
structure DIR where
  isroot : Bool
  offset : Int
  sts : Int
  dta : Name
  handle : List Name
  dir : Name
  dent : direct
  deriving DecidableEq, Repr

/-- The string `SUFFIX`, a backslash and a star. -/
def SUFFIX : Name := [0x5C, 0x2A]

/-- The cast `(char)` of the compilers for Windows: a signed type of 8 bits. -/
def toChar (n : Int) : Int :=
  (n + 128) % 256 - 128

/-- The library call `wcsncpy(dst, src, n)` for a source without terminator
inside: the first `n` characters (a source of `n` characters or more leaves
the destination without terminator). -/
def wcsncpy (src : Name) (n : Nat) : Name :=
  src.take n

/-- Function `opendir`, both allocations succeeding.  `search` is what the
find calls of the system yield for a file specification; an empty answer
makes `_wfindfirst` fail. -/
def opendir (name : Name) (search : Name → List Name) : Option DIR :=
  let dir := name ++ SUFFIX
  match search dir with
  | [] => none
  | e :: es =>
    some { isroot := decide (dir.length = 3), offset := 0, sts := 0, dta := e, handle := es,
           dir := dir, dent := ⟨0, 0, 0, []⟩ }

/-- Function `readdir` for a directory that is open (`p` is not `NULL`): the
entry returned, `none` for `NULL`, and the directory after the call. -/
def readdir (d : Decls) (p : DIR) : Option direct × DIR :=
  if p.sts = 1 then (none, p)
  else
    let d_off := d.d_offT p.offset
    let offset := d.offsetT (p.offset + 1)
    let dent : direct :=
      if offset = 1 then
        ⟨1, d_off, d.d_reclenT 1, wcsncpy [0x2E] (d.MAXNAMLEN + 1)⟩
      else if offset = 2 then
        ⟨1, d_off, d.d_reclenT 2, wcsncpy [0x2E, 0x2E] (d.MAXNAMLEN + 1)⟩
      else
        ⟨1, d_off, d.d_reclenT (toChar (wcsncpy p.dta (d.MAXNAMLEN + 1)).length),
          wcsncpy p.dta (d.MAXNAMLEN + 1)⟩
    if p.isroot = true ∧ offset ≤ 2 then
      (some dent, { p with offset := offset, sts := 0, dent := dent })
    else
      match p.handle with
      | [] => (some dent, { p with offset := offset, sts := 1, dent := dent })
      | e :: es =>
        (some dent, { p with offset := offset, sts := 0, dent := dent, dta := e, handle := es })

/-- The answers of `n` calls of `readdir` made one after the other. -/
def readdirN (d : Decls) : Nat → DIR → List (Option direct)
  | 0, _ => []
  | n + 1, p => (readdir d p).1 :: readdirN d n (readdir d p).2

/-- The entry that the call at position `k` returns for a name, with the
record length as the source computes it: the length cast to `char`. -/
def entryOf (d : Decls) (k : Nat) (name : Name) : direct :=
  ⟨1, k, d.d_reclenT (toChar name.length), name⟩

/-- The entries for a list of names from position `k` on. -/
def entriesFrom (d : Decls) : Nat → List Name → List (Option direct)
  | _, [] => []
  | k, e :: es => some (entryOf d k e) :: entriesFrom d (k + 1) es

/-- Declarations for examples: `MAXNAMLEN` 256, `offset` a `short`, `d_off`
and `d_reclen` of type `unsigned short`. -/
def shortDecls : Decls where
  MAXNAMLEN := 256
  offsetT := fun n => (n + 32768) % 65536 - 32768
  d_offT := fun n => n % 65536
  d_reclenT := fun n => n % 65536

end WinOpendir

namespace X87

/-! ## Lemmas: register stack frame, memory, machine integers -/

variable {D : Type}

@[simp] theorem regStack_busRead (w seg off : Nat) (s : State D) :
    regStack (busRead w seg off s).2 = regStack s := by
  unfold busRead; split <;> rfl

@[simp] theorem regStack_busWrite (w seg off v : Nat) (s : State D) :
    regStack (busWrite w seg off v s) = regStack s := by
  unfold busWrite; split <;> rfl

@[simp] theorem regStack_CLOCK_CYCLES (c : Nat) (s : State D) :
    regStack (CLOCK_CYCLES c s) = regStack s := rfl

@[simp] theorem regStack_fetch_ea_16 (env : Env D) (fd : Nat) (s : State D) :
    regStack (fetch_ea_16 env fd s) = regStack s := rfl

@[simp] theorem regStack_fetch_ea_32 (env : Env D) (fd : Nat) (s : State D) :
    regStack (fetch_ea_32 env fd s) = regStack s := rfl

/-- A store leaves the bytes outside its range as they were. -/
theorem storeLE_frame (w : Nat) : ∀ (bytes : Nat → Nat) (a v x : Nat),
    (∀ i, i < w → (a + i) % 2 ^ 32 ≠ x) → storeLE bytes a v w x = bytes x := by
  induction w with
  | zero => intro bytes a v x _; rfl
  | succ w ih =>
    intro bytes a v x h
    simp only [storeLE]
    rw [ih]
    · have h0 := h 0 (Nat.succ_pos w)
      simp only [Nat.add_zero] at h0
      exact Function.update_noteq (Ne.symm h0) _ _
    · intro i hi
      have := h (i + 1) (Nat.succ_lt_succ hi)
      rwa [Nat.add_assoc, Nat.add_comm 1 i]

/-- Reading back what was stored gives the low `w` bytes of the value. -/
theorem loadLE_storeLE (w : Nat) : ∀ (bytes : Nat → Nat) (a v : Nat), w ≤ 2 ^ 32 →
    loadLE (storeLE bytes a v w) a w = v % 256 ^ w := by
  induction w with
  | zero => intro bytes a v _; simp [loadLE, Nat.mod_one]
  | succ w ih =>
    intro bytes a v hw
    simp only [loadLE, storeLE]
    rw [ih _ _ _ (Nat.le_of_succ_le hw), storeLE_frame]
    · simp only [Function.update_same, Nat.mod_mod]
      rw [Nat.pow_succ, Nat.mul_comm (256 ^ w) 256, Nat.mod_mul]
    · intro i hi
      have : i + 1 < 2 ^ 32 + 1 := Nat.succ_lt_succ (Nat.lt_of_lt_of_le hi (Nat.le_of_succ_le hw))
      norm_num at this hw ⊢
      omega

theorem lowBits_toInt64 (u : Nat) : lowBits 64 (toInt64 u) = u % 2 ^ 64 := by
  unfold lowBits toInt64
  split <;> omega

theorem toInt64_lowBits (v : Int) (h1 : -2 ^ 63 ≤ v) (h2 : v < 2 ^ 63) :
    toInt64 (lowBits 64 v) = v := by
  unfold lowBits toInt64
  split <;> omega

theorem toInt64_mod (u : Nat) : toInt64 (u % 2 ^ 64) = toInt64 u := by
  unfold toInt64
  simp

theorem BusOnly.refl (s : State D) : BusOnly s s [] :=
  ⟨rfl, rfl, rfl, rfl, rfl, rfl, by simp, by simp⟩

theorem BusOnly.trans {s t u : State D} {l m : List Access}
    (h1 : BusOnly s t l) (h2 : BusOnly t u m) : BusOnly s u (l ++ m) where
  regs := h2.regs.trans h1.regs
  easeg := h2.easeg.trans h1.easeg
  eaaddr := h2.eaaddr.trans h1.eaaddr
  clock := h2.clock.trans h1.clock
  rfault := h2.rfault.trans h1.rfault
  wfault := h2.wfault.trans h1.wfault
  log := by rw [h2.log, h1.log, List.append_assoc]
  abrt := by
    rw [h2.abrt, h1.abrt]
    simp only [List.mem_append]
    constructor
    · rintro ((h | ⟨a, ha, hf⟩) | ⟨a, ha, hf⟩)
      · exact Or.inl h
      · exact Or.inr ⟨a, Or.inl ha, hf⟩
      · exact Or.inr ⟨a, Or.inr ha, hf⟩
    · rintro (h | ⟨a, ha | ha, hf⟩)
      · exact Or.inl (Or.inl h)
      · exact Or.inl (Or.inr ⟨a, ha, hf⟩)
      · exact Or.inr ⟨a, ha, hf⟩

theorem busRead_busOnly (w seg off : Nat) (s : State D) :
    BusOnly s (busRead w seg off s).2
      [⟨false, linear seg off, w, anyFault s.bus.rfault (linear seg off) w,
        (busRead w seg off s).1⟩] := by
  unfold busRead
  split
  · rename_i h
    refine ⟨rfl, rfl, rfl, rfl, rfl, rfl, ?_, ?_⟩ <;> simp [h]
  · rename_i h
    refine ⟨rfl, rfl, rfl, rfl, rfl, rfl, ?_, ?_⟩ <;> simp [h]

theorem busWrite_busOnly (w seg off v : Nat) (s : State D) :
    BusOnly s (busWrite w seg off v s)
      [⟨true, linear seg off, w, anyFault s.bus.wfault (linear seg off) w, v % 256 ^ w⟩] := by
  unfold busWrite
  split
  · rename_i h
    refine ⟨rfl, rfl, rfl, rfl, rfl, rfl, ?_, ?_⟩ <;> simp [h]
  · rename_i h
    refine ⟨rfl, rfl, rfl, rfl, rfl, rfl, ?_, ?_⟩ <;> simp [h]

theorem x87_ld80_busOnly (env : Env D) (s : State D) :
    ∃ l, BusOnly s (x87_ld80 env s).2 l := by
  unfold x87_ld80
  exact ⟨_, (busRead_busOnly 8 s.easeg s.eaaddr s).trans (busRead_busOnly 2 _ _ _)⟩

theorem x87_st80_busOnly (env : Env D) (v : D) (s : State D) :
    ∃ l, BusOnly s (x87_st80 env v s) l := by
  unfold x87_st80
  exact ⟨_, (busWrite_busOnly 8 s.easeg s.eaaddr _ s).trans (busWrite_busOnly 2 _ _ _ _)⟩

theorem fbstpLoop_busOnly (env : Env D) (n : Nat) : ∀ (c : Nat) (p : D × State D),
    ∃ l, BusOnly p.2 (fbstpLoop env n c p).2 l := by
  induction n with
  | zero => intro c p; exact ⟨[], BusOnly.refl _⟩
  | succ n ih =>
    intro c p
    obtain ⟨l, hl⟩ := ih (c + 1) (fbstpStep env c p)
    simp only [fbstpLoop]
    exact ⟨_, (busWrite_busOnly 1 _ _ _ _).trans hl⟩

theorem BusOnly.set_tempc {s t : State D} {l : List Access} (h : BusOnly s t l) (c : Nat) :
    BusOnly s { t with tempc := c } l :=
  ⟨h.regs, h.easeg, h.eaaddr, h.clock, h.rfault, h.wfault, h.log, h.abrt⟩

theorem summary_abort (s s0 t u : State D) (l : List Access)
    (hr : regStack s0 = regStack s) (ha : s0.abrt = s.abrt) (hl : s0.bus.log = s.bus.log)
    (hb : BusOnly s0 t l) (hu : u.bus.log = t.bus.log) :
    FaultSummary s (if t.abrt ≠ 0 then (1, t) else (0, u)) := by
  refine ⟨l, ?_, ?_, ?_⟩
  · split
    · simp only [hb.log, hl]
    · simp only [hu, hb.log, hl]
  · have := hb.abrt
    rw [ha] at this
    split
    · rename_i h
      simp only [ne_eq, one_ne_zero, not_false_eq_true, true_iff]
      exact this.mp h
    · rename_i h
      simp only [ne_eq, not_true_eq_false, false_iff]
      exact fun h' => h (this.mpr h')
  · split
    · intro _; exact hb.regs.trans hr
    · intro h; exact absurd rfl h

theorem summary_store (s s0 t u : State D) (l : List Access)
    (hr : regStack s0 = regStack s) (ha : s0.abrt = s.abrt) (hl : s0.bus.log = s.bus.log)
    (hb : BusOnly s0 t l) (hu : u.bus.log = t.bus.log) (hua : u.abrt = t.abrt)
    (hur : regStack u = regStack t) :
    FaultSummary s (u.abrt, u) := by
  refine ⟨l, ?_, ?_, ?_⟩
  · simp only [hu, hb.log, hl]
  · have := hb.abrt
    rw [ha] at this
    simp only [hua]
    exact this
  · intro _; exact hur.trans (hb.regs.trans hr)

theorem anyFault_eq_false (f : Nat → Bool) (w : Nat) : ∀ a,
    anyFault f a w = false ↔ ∀ i, i < w → f ((a + i) % 2 ^ 32) = false := by
  induction w with
  | zero => intro a; simp [anyFault]
  | succ w ih =>
    intro a
    simp only [anyFault, Bool.or_eq_false_iff, ih]
    constructor
    · rintro ⟨h0, h⟩ i hi
      cases i with
      | zero => simpa using h0
      | succ i =>
        have := h i (Nat.lt_of_succ_lt_succ hi)
        rwa [Nat.add_assoc, Nat.add_comm 1 i] at this
    · intro h
      refine ⟨by simpa using h 0 (Nat.succ_pos w), fun i hi => ?_⟩
      have := h (i + 1) (Nat.succ_lt_succ hi)
      rwa [Nat.add_assoc, Nat.add_comm 1 i]

/-- The diagnostic reads of `opFILDiq` are bus accesses only, and they do not
fault when the eight-byte read of the operand did not. -/
theorem fildqDebug_busOnly (env : Env D) (t : State D) :
    ∃ l, BusOnly t (fildqDebug env t) l ∧
      (anyFault t.bus.rfault (linear t.easeg t.eaaddr) 8 = false →
        ∀ x ∈ l, x.faulted = false) := by
  unfold fildqDebug
  split
  · refine ⟨_, (busRead_busOnly 4 _ _ _).trans (busRead_busOnly 4 _ _ _), ?_⟩
    intro h x hx
    rw [anyFault_eq_false] at h
    have e1 : (readmeml t.easeg t.eaaddr t).2.bus.rfault = t.bus.rfault :=
      (busRead_busOnly 4 _ _ _).rfault
    simp only [readmeml, List.singleton_append, List.mem_cons, List.mem_singleton,
      List.not_mem_nil, or_false] at hx e1
    rcases hx with rfl | rfl
    · simp only [anyFault_eq_false]
      intro i hi
      have := h i (by omega)
      simp only [linear] at this ⊢
      have e : ((t.easeg + t.eaaddr % 2 ^ 32) % 2 ^ 32 + i) % 2 ^ 32
          = ((t.easeg + t.eaaddr) % 2 ^ 32 + i) % 2 ^ 32 := by omega
      rw [e]; exact this
    · simp only [anyFault_eq_false, e1]
      intro i hi
      have := h (i + 4) (by omega)
      simp only [linear] at this ⊢
      have e : ((t.easeg + (t.eaaddr + 4) % 2 ^ 32) % 2 ^ 32 + i) % 2 ^ 32
          = ((t.easeg + t.eaaddr) % 2 ^ 32 + (i + 4)) % 2 ^ 32 := by omega
      rw [e]; exact this
  · exact ⟨[], BusOnly.refl t, by simp⟩

theorem summary_abort2 (s s0 t u v : State D) (l m : List Access)
    (hr : regStack s0 = regStack s) (ha : s0.abrt = s.abrt) (hl : s0.bus.log = s.bus.log)
    (hb : BusOnly s0 t l) (hd : BusOnly t u m)
    (hm : t.abrt = 0 → ∀ x ∈ m, x.faulted = false) (hv : v.bus.log = u.bus.log) :
    FaultSummary s (if t.abrt ≠ 0 then (1, t) else (0, v)) := by
  by_cases h : t.abrt = 0
  · have h0 : ¬ (t.abrt ≠ 0) := fun h' => h' h
    have h1 := (not_congr hb.abrt).mp h0
    rw [ha] at h1
    refine ⟨l ++ m, ?_, ?_, ?_⟩
    · rw [if_neg h0]
      show v.bus.log = _
      rw [hv, hd.log, hb.log, hl, List.append_assoc]
    · rw [if_neg h0]
      simp only [ne_eq, not_true_eq_false, false_iff, not_or, not_exists, not_and,
        List.mem_append]
      simp only [not_or, not_exists, not_and] at h1
      refine ⟨h1.1, ?_⟩
      rintro x (hx | hx)
      · exact h1.2 x hx
      · simp [hm h x hx]
    · rw [if_neg h0]
      intro h'; exact absurd rfl h'
  · have := summary_abort s s0 t t l hr ha hl hb rfl
    rw [if_pos h] at this ⊢
    exact this

/-- Every handler call satisfies `FaultSummary`. -/
theorem run_summary (env : Env D) (op : Op) (a : AddrSize) (fd : Nat) (s : State D) :
    FaultSummary s (run env op a fd s) := by
  cases op <;> cases a
  · -- opFILDiw_a16
    simp only [run, opFILDiw_a16]
    exact summary_abort s (fetch_ea_16 env fd s) _ _ _ rfl rfl rfl (busRead_busOnly 2 _ _ _) rfl
  · -- opFILDiw_a32
    simp only [run, opFILDiw_a32]
    exact summary_abort s (fetch_ea_32 env fd s) _ _ _ rfl rfl rfl (busRead_busOnly 2 _ _ _) rfl
  · -- opFISTiw_a16
    simp only [run, opFISTiw_a16]
    exact summary_store s (fetch_ea_16 env fd s) _ _ _ rfl rfl rfl (busWrite_busOnly 2 _ _ _ _)
      rfl rfl rfl
  · -- opFISTiw_a32
    simp only [run, opFISTiw_a32]
    exact summary_store s (fetch_ea_32 env fd s) _ _ _ rfl rfl rfl (busWrite_busOnly 2 _ _ _ _)
      rfl rfl rfl
  · -- opFISTPiw_a16
    simp only [run, opFISTPiw_a16]
    exact summary_abort s (fetch_ea_16 env fd s) _ _ _ rfl rfl rfl (busWrite_busOnly 2 _ _ _ _) rfl
  · -- opFISTPiw_a32
    simp only [run, opFISTPiw_a32]
    exact summary_abort s (fetch_ea_32 env fd s) _ _ _ rfl rfl rfl (busWrite_busOnly 2 _ _ _ _) rfl
  · -- opFILDiq_a16
    simp only [run, opFILDiq_a16]
    have hb := busRead_busOnly 8 (fetch_ea_16 env fd s).easeg (fetch_ea_16 env fd s).eaaddr
      (fetch_ea_16 env fd s)
    obtain ⟨l, hl, hf⟩ := fildqDebug_busOnly env (geteaq (fetch_ea_16 env fd s)).2
    refine summary_abort2 s (fetch_ea_16 env fd s) _ _ _ _ _ rfl rfl rfl hb hl ?_ rfl
    intro h
    apply hf
    have h0 : ¬ ((geteaq (fetch_ea_16 env fd s)).2.abrt ≠ 0) := fun h' => h' h
    have h1 := (not_congr hb.abrt).mp h0
    simp only [not_or, List.mem_singleton, exists_eq_left, Bool.not_eq_true] at h1
    show anyFault (busRead 8 _ _ _).2.bus.rfault (linear (busRead 8 _ _ _).2.easeg
      (busRead 8 _ _ _).2.eaaddr) 8 = false
    rw [hb.rfault, hb.easeg, hb.eaaddr]
    exact h1.2
  · -- opFILDiq_a32
    simp only [run, opFILDiq_a32]
    have hb := busRead_busOnly 8 (fetch_ea_32 env fd s).easeg (fetch_ea_32 env fd s).eaaddr
      (fetch_ea_32 env fd s)
    obtain ⟨l, hl, hf⟩ := fildqDebug_busOnly env (geteaq (fetch_ea_32 env fd s)).2
    refine summary_abort2 s (fetch_ea_32 env fd s) _ _ _ _ _ rfl rfl rfl hb hl ?_ rfl
    intro h
    apply hf
    have h0 : ¬ ((geteaq (fetch_ea_32 env fd s)).2.abrt ≠ 0) := fun h' => h' h
    have h1 := (not_congr hb.abrt).mp h0
    simp only [not_or, List.mem_singleton, exists_eq_left, Bool.not_eq_true] at h1
    show anyFault (busRead 8 _ _ _).2.bus.rfault (linear (busRead 8 _ _ _).2.easeg
      (busRead 8 _ _ _).2.eaaddr) 8 = false
    rw [hb.rfault, hb.easeg, hb.eaaddr]
    exact h1.2
  · -- FBSTP_a16
    simp only [run, FBSTP_a16]
    obtain ⟨l, hl⟩ := fbstpLoop_busOnly env 9 0
      (if env.lt (STreg 0 (fetch_ea_16 env fd s)) env.zero = true then
        env.neg (STreg 0 (fetch_ea_16 env fd s)) else STreg 0 (fetch_ea_16 env fd s),
        fetch_ea_16 env fd s)
    exact summary_abort s (fetch_ea_16 env fd s) _ _ _ rfl rfl rfl
      ((hl.set_tempc _).trans (busWrite_busOnly 1 _ _ _ _)) rfl
  · -- FBSTP_a32
    simp only [run, FBSTP_a32]
    obtain ⟨l, hl⟩ := fbstpLoop_busOnly env 9 0
      (if env.lt (STreg 0 (fetch_ea_32 env fd s)) env.zero = true then
        env.neg (STreg 0 (fetch_ea_32 env fd s)) else STreg 0 (fetch_ea_32 env fd s),
        fetch_ea_32 env fd s)
    exact summary_abort s (fetch_ea_32 env fd s) _ _ _ rfl rfl rfl
      ((hl.set_tempc _).trans (busWrite_busOnly 1 _ _ _ _)) rfl
  · -- FISTPiq_a16
    simp only [run, FISTPiq_a16]
    exact summary_abort s (fetch_ea_16 env fd s) _ _ _ rfl rfl rfl (busWrite_busOnly 8 _ _ _ _) rfl
  · -- FISTPiq_a32
    simp only [run, FISTPiq_a32]
    exact summary_abort s (fetch_ea_32 env fd s) _ _ _ rfl rfl rfl (busWrite_busOnly 8 _ _ _ _) rfl
  · -- opFILDil_a16
    simp only [run, opFILDil_a16]
    exact summary_abort s (fetch_ea_16 env fd s) _ _ _ rfl rfl rfl (busRead_busOnly 4 _ _ _) rfl
  · -- opFILDil_a32
    simp only [run, opFILDil_a32]
    exact summary_abort s (fetch_ea_32 env fd s) _ _ _ rfl rfl rfl (busRead_busOnly 4 _ _ _) rfl
  · -- opFISTil_a16
    simp only [run, opFISTil_a16]
    exact summary_store s (fetch_ea_16 env fd s) _ _ _ rfl rfl rfl (busWrite_busOnly 4 _ _ _ _)
      rfl rfl rfl
  · -- opFISTil_a32
    simp only [run, opFISTil_a32]
    exact summary_store s (fetch_ea_32 env fd s) _ _ _ rfl rfl rfl (busWrite_busOnly 4 _ _ _ _)
      rfl rfl rfl
  · -- opFISTPil_a16
    simp only [run, opFISTPil_a16]
    exact summary_abort s (fetch_ea_16 env fd s) _ _ _ rfl rfl rfl (busWrite_busOnly 4 _ _ _ _) rfl
  · -- opFISTPil_a32
    simp only [run, opFISTPil_a32]
    exact summary_abort s (fetch_ea_32 env fd s) _ _ _ rfl rfl rfl (busWrite_busOnly 4 _ _ _ _) rfl
  · -- opFLDe_a16
    simp only [run, opFLDe_a16]
    obtain ⟨l, hl⟩ := x87_ld80_busOnly env (fetch_ea_16 env fd s)
    exact summary_abort s (fetch_ea_16 env fd s) _ _ _ rfl rfl rfl hl rfl
  · -- opFLDe_a32
    simp only [run, opFLDe_a32]
    obtain ⟨l, hl⟩ := x87_ld80_busOnly env (fetch_ea_32 env fd s)
    exact summary_abort s (fetch_ea_32 env fd s) _ _ _ rfl rfl rfl hl rfl
  · -- opFSTPe_a16
    simp only [run, opFSTPe_a16]
    obtain ⟨l, hl⟩ := x87_st80_busOnly env (STreg 0 (fetch_ea_16 env fd s)) (fetch_ea_16 env fd s)
    exact summary_abort s (fetch_ea_16 env fd s) _ _ _ rfl rfl rfl hl rfl
  · -- opFSTPe_a32
    simp only [run, opFSTPe_a32]
    obtain ⟨l, hl⟩ := x87_st80_busOnly env (STreg 0 (fetch_ea_32 env fd s)) (fetch_ea_32 env fd s)
    exact summary_abort s (fetch_ea_32 env fd s) _ _ _ rfl rfl rfl hl rfl
  · -- opFLDd_a16
    simp only [run, opFLDd_a16]
    exact summary_abort s (fetch_ea_16 env fd s) _ _ _ rfl rfl rfl (busRead_busOnly 8 _ _ _) rfl
  · -- opFLDd_a32
    simp only [run, opFLDd_a32]
    exact summary_abort s (fetch_ea_32 env fd s) _ _ _ rfl rfl rfl (busRead_busOnly 8 _ _ _) rfl
  · -- opFSTd_a16
    simp only [run, opFSTd_a16]
    exact summary_store s (fetch_ea_16 env fd s) _ _ _ rfl rfl rfl (busWrite_busOnly 8 _ _ _ _)
      rfl rfl rfl
  · -- opFSTd_a32
    simp only [run, opFSTd_a32]
    exact summary_store s (fetch_ea_32 env fd s) _ _ _ rfl rfl rfl (busWrite_busOnly 8 _ _ _ _)
      rfl rfl rfl
  · -- opFSTPd_a16
    simp only [run, opFSTPd_a16]
    exact summary_abort s (fetch_ea_16 env fd s) _ _ _ rfl rfl rfl (busWrite_busOnly 8 _ _ _ _) rfl
  · -- opFSTPd_a32
    simp only [run, opFSTPd_a32]
    exact summary_abort s (fetch_ea_32 env fd s) _ _ _ rfl rfl rfl (busWrite_busOnly 8 _ _ _ _) rfl
  · -- opFLDs_a16
    simp only [run, opFLDs_a16]
    exact summary_abort s (fetch_ea_16 env fd s) _ _ _ rfl rfl rfl (busRead_busOnly 4 _ _ _) rfl
  · -- opFLDs_a32
    simp only [run, opFLDs_a32]
    exact summary_abort s (fetch_ea_32 env fd s) _ _ _ rfl rfl rfl (busRead_busOnly 4 _ _ _) rfl
  · -- opFSTs_a16
    simp only [run, opFSTs_a16]
    exact summary_store s (fetch_ea_16 env fd s) _ _ _ rfl rfl rfl (busWrite_busOnly 4 _ _ _ _)
      rfl rfl rfl
  · -- opFSTs_a32
    simp only [run, opFSTs_a32]
    exact summary_store s (fetch_ea_32 env fd s) _ _ _ rfl rfl rfl (busWrite_busOnly 4 _ _ _ _)
      rfl rfl rfl
  · -- opFSTPs_a16
    simp only [run, opFSTPs_a16]
    exact summary_abort s (fetch_ea_16 env fd s) _ _ _ rfl rfl rfl (busWrite_busOnly 4 _ _ _ _) rfl
  · -- opFSTPs_a32
    simp only [run, opFSTPs_a32]
    exact summary_abort s (fetch_ea_32 env fd s) _ _ _ rfl rfl rfl (busWrite_busOnly 4 _ _ _ _) rfl

theorem ite_ret_bool (c : Prop) [Decidable c] (t u : State D) :
    (if c then ((1 : Nat), t) else (0, u)).1 = 0 ∨ (if c then ((1 : Nat), t) else (0, u)).1 = 1 := by
  split <;> simp

/-- A load or store-and-pop handler returns 0 or 1. -/
theorem run_ret_bool (env : Env D) (op : Op) (a : AddrSize) (fd : Nat) (s : State D)
    (h : op.isLoad = true ∨ op.isStorePop = true) :
    (run env op a fd s).1 = 0 ∨ (run env op a fd s).1 = 1 := by
  cases op <;> simp [Op.isLoad, Op.isStorePop] at h <;> cases a <;>
    simp only [run, opFILDiw_a16, opFILDiw_a32, opFISTPiw_a16, opFISTPiw_a32, opFILDiq_a16,
      opFILDiq_a32, FBSTP_a16, FBSTP_a32, FISTPiq_a16, FISTPiq_a32, opFILDil_a16, opFILDil_a32,
      opFISTPil_a16, opFISTPil_a32, opFLDe_a16, opFLDe_a32, opFSTPe_a16, opFSTPe_a32,
      opFLDd_a16, opFLDd_a32, opFSTPd_a16, opFSTPd_a32, opFLDs_a16, opFLDs_a32,
      opFSTPs_a16, opFSTPs_a32] <;>
    exact ite_ret_bool _ _ _

theorem faultedBetween_of_log (s t : State D) (l : List Access)
    (h : t.bus.log = s.bus.log ++ l) :
    faultedBetween s t = true ↔ ∃ x ∈ l, x.faulted = true := by
  simp [faultedBetween, accessesBetween, h]

theorem regStack_fields {s t : State D} (h : regStack t = regStack s) :
    t.TOP = s.TOP ∧ t.tag = s.tag ∧ t.ST = s.ST ∧ t.MM = s.MM :=
  ⟨congrArg RegStack.TOP h, congrArg RegStack.tag h, congrArg RegStack.ST h,
    congrArg RegStack.MM h⟩

theorem busRead_of_ok (w seg off : Nat) (s : State D) (h : (busRead w seg off s).2.abrt = 0) :
    (busRead w seg off s).1 = loadLE s.bus.bytes (linear seg off) w := by
  unfold busRead at h ⊢
  split
  · rename_i hf; rw [if_pos hf] at h; exact absurd h (by simp)
  · rfl

theorem busWrite_of_ok (w seg off v : Nat) (s : State D) (h : (busWrite w seg off v s).abrt = 0) :
    (busWrite w seg off v s).bus.bytes = storeLE s.bus.bytes (linear seg off) v w := by
  unfold busWrite at h ⊢
  split
  · rename_i hf; rw [if_pos hf] at h; exact absurd h (by simp)
  · rfl

theorem ret_zero_of_ite {c : Prop} [Decidable c] {t u : State D}
    (h : (if c then ((1 : Nat), t) else (0, u)).1 = 0) : ¬ c := by
  intro hc; rw [if_pos hc] at h; exact absurd h (by simp)

/-- After a successful `FILDiq` the new top slot carries the flag and the raw
operand. -/
theorem fildq_ok (env : Env D) (a : AddrSize) (fd : Nat) (s : State D)
    (h : (run env Op.FILDiq a fd s).1 = 0) :
    ((run env Op.FILDiq a fd s).2.tag (run env Op.FILDiq a fd s).2.TOP).uint64 = true ∧
    (run env Op.FILDiq a fd s).2.MM (run env Op.FILDiq a fd s).2.TOP =
      loadLE s.bus.bytes (linear (resolved env a fd).1 (resolved env a fd).2) 8 % 2 ^ 64 := by
  cases a <;> simp only [run, opFILDiq_a16, opFILDiq_a32, resolved] at h ⊢
  all_goals
    have h0 := ret_zero_of_ite h
    rw [if_neg h0]
    simp only [ne_eq, not_not] at h0
    have hv := busRead_of_ok 8 _ _ _ h0
    simp only [geteaq] at hv ⊢
    simp only [CLOCK_CYCLES, Function.update_same, lowBits_toInt64, hv, true_and]
    rfl

/-- What a successful `FISTPiq` leaves in memory when the top slot carries the
flag: the shadow of that slot. -/
theorem fistpq_shadow (env : Env D) (a : AddrSize) (fd : Nat) (s : State D)
    (hf : (s.tag s.TOP).uint64 = true) (h : (run env Op.FISTPiq a fd s).1 = 0) :
    loadLE (run env Op.FISTPiq a fd s).2.bus.bytes
      (linear (resolved env a fd).1 (resolved env a fd).2) 8 = s.MM s.TOP % 2 ^ 64 := by
  cases a <;> simp only [run, FISTPiq_a16, FISTPiq_a32, resolved] at h ⊢
  all_goals
    have h0 := ret_zero_of_ite h
    rw [if_neg h0]
    simp only [ne_eq, not_not] at h0
    have hb := busWrite_of_ok 8 _ _ _ _ h0
    simp only [seteaq] at hb ⊢
    simp only [CLOCK_CYCLES, x87_pop]
    rw [hb]
    simp only [fetch_ea_16, fetch_ea_32, hf, if_true]
    rw [loadLE_storeLE 8 _ _ _ (by norm_num), lowBits_toInt64]
    norm_num

/-- What a successful 16- or 32-bit integer store leaves in memory. -/
theorem fist_ok (env : Env D) (a : AddrSize) (fd : Nat) (s : State D) (op : Op) (w : Nat)
    (hops : ((op = Op.FISTiw ∨ op = Op.FISTPiw) ∧ w = 2) ∨
      ((op = Op.FISTil ∨ op = Op.FISTPil) ∧ w = 4))
    (hok : (run env op a fd s).1 = 0) :
    loadLE (run env op a fd s).2.bus.bytes (linear (resolved env a fd).1 (resolved env a fd).2) w
      = (env.x87_fround (STreg 0 s) % 2 ^ (8 * w)).toNat := by
  rcases hops with ⟨rfl | rfl, rfl⟩ | ⟨rfl | rfl, rfl⟩ <;> cases a <;>
    simp only [run, opFISTiw_a16, opFISTiw_a32, opFISTPiw_a16, opFISTPiw_a32, opFISTil_a16,
      opFISTil_a32, opFISTPil_a16, opFISTPil_a32, resolved] at hok ⊢
  all_goals
    first
    | (have h0 := ret_zero_of_ite hok
       rw [if_neg h0]
       simp only [ne_eq, not_not] at h0)
    | (have h0 : _ = 0 := hok)
    have hb := busWrite_of_ok _ _ _ _ _ h0
    simp only [seteaw, seteal] at hb ⊢
    simp only [CLOCK_CYCLES, x87_pop]
    rw [hb]
    simp only [fetch_ea_16, fetch_ea_32, STreg]
    rw [loadLE_storeLE _ _ _ _ (by norm_num)]
    simp only [lowBits]
    norm_num
    omega

theorem toInt16_lowBits (v : Int) (h1 : -2 ^ 15 ≤ v) (h2 : v < 2 ^ 15) :
    toInt16 (lowBits 16 v) = v := by
  unfold lowBits toInt16
  split <;> omega

theorem toInt32_lowBits (v : Int) (h1 : -2 ^ 31 ≤ v) (h2 : v < 2 ^ 31) :
    toInt32 (lowBits 32 v) = v := by
  unfold lowBits toInt32
  split <;> omega

theorem STreg_push (env : Env D) (v : D) (t : State D) : STreg 0 (x87_push env v t) = v := by
  simp only [STreg, x87_push, Nat.add_zero, Nat.mod_mod, Function.update_same]

/-- After a successful load by `FILDiw`, `FILDil`, `FLDs` or `FLDd`, `ST(0)` is the
decoded operand. -/
theorem load_ok (env : Env D) (a : AddrSize) (fd : Nat) (s : State D) :
    ((run env Op.FILDiw a fd s).1 = 0 →
      STreg 0 (run env Op.FILDiw a fd s).2 = env.ofInt (toInt16
        (loadLE s.bus.bytes (linear (resolved env a fd).1 (resolved env a fd).2) 2))) ∧
    ((run env Op.FILDil a fd s).1 = 0 →
      STreg 0 (run env Op.FILDil a fd s).2 = env.ofInt (toInt32
        (loadLE s.bus.bytes (linear (resolved env a fd).1 (resolved env a fd).2) 4))) ∧
    ((run env Op.FLDs a fd s).1 = 0 →
      STreg 0 (run env Op.FLDs a fd s).2 = env.ofSingleBits
        (loadLE s.bus.bytes (linear (resolved env a fd).1 (resolved env a fd).2) 4)) ∧
    ((run env Op.FLDd a fd s).1 = 0 →
      STreg 0 (run env Op.FLDd a fd s).2 = env.ofBits
        (loadLE s.bus.bytes (linear (resolved env a fd).1 (resolved env a fd).2) 8)) := by
  refine ⟨?_, ?_, ?_, ?_⟩ <;> intro h <;> cases a <;>
    simp only [run, opFILDiw_a16, opFILDiw_a32, opFILDil_a16, opFILDil_a32, opFLDs_a16,
      opFLDs_a32, opFLDd_a16, opFLDd_a32, resolved] at h ⊢
  all_goals
    have h0 := ret_zero_of_ite h
    rw [if_neg h0]
    simp only [ne_eq, not_not] at h0
    have hv := busRead_of_ok _ _ _ _ h0
    simp only [geteaw, geteal, geteaq] at hv ⊢
    rw [hv]
    exact STreg_push env _ _

/-- What a successful `FSTd` or `FSTPd` leaves in memory. -/
theorem fstd_ok (env : Env D) (a : AddrSize) (fd : Nat) (s : State D) (st : Op)
    (hst : st = Op.FSTd ∨ st = Op.FSTPd) (hok : (run env st a fd s).1 = 0) :
    loadLE (run env st a fd s).2.bus.bytes (linear (resolved env a fd).1 (resolved env a fd).2) 8
      = env.toBits (STreg 0 s) % 2 ^ 64 := by
  rcases hst with rfl | rfl <;> cases a <;>
    simp only [run, opFSTd_a16, opFSTd_a32, opFSTPd_a16, opFSTPd_a32, resolved] at hok ⊢
  all_goals
    first
    | (have h0 := ret_zero_of_ite hok
       rw [if_neg h0]
       simp only [ne_eq, not_not] at h0)
    | (have h0 : _ = 0 := hok)
    have hb := busWrite_of_ok _ _ _ _ _ h0
    simp only [seteaq] at hb ⊢
    simp only [CLOCK_CYCLES, x87_pop]
    rw [hb]
    simp only [fetch_ea_16, fetch_ea_32, STreg]
    rw [loadLE_storeLE _ _ _ _ (by norm_num)]
    norm_num

theorem rat_floor_natCast (m : Nat) : Rat.floor (m : ℚ) = (m : Int) := by
  have : (⌊(m : ℚ)⌋ : Int) = m := Int.floor_natCast m
  exact this

theorem rat_floor_nat_div (n d : Nat) : Rat.floor ((n : ℚ) / (d : ℚ)) = ((n / d : Nat) : Int) := by
  have h := Rat.floor_intCast_div_natCast (n : Int) d
  rw [Int.cast_natCast] at h
  exact h

theorem ratTrunc_natCast (m : Nat) : ratTrunc (m : ℚ) = (m : Int) := by
  unfold ratTrunc
  rw [if_pos (Nat.cast_nonneg m), rat_floor_natCast]

theorem ratFmod_nat (n : Nat) : ratFmod (n : ℚ) 10 = ((n % 10 : Nat) : ℚ) := by
  unfold ratFmod ratTrunc
  have h10 : (10 : ℚ) = ((10 : Nat) : ℚ) := by norm_num
  have hnn : (0 : ℚ) ≤ (n : ℚ) / 10 := by positivity
  have hfl : Rat.floor ((n : ℚ) / 10) = ((n / 10 : Nat) : Int) := by
    have := rat_floor_nat_div n 10
    rwa [← h10] at this
  rw [if_pos hnn, hfl, Int.cast_natCast]
  have := Nat.mod_add_div n 10
  have h2 : ((n % 10 : Nat) : ℚ) + 10 * ((n / 10 : Nat) : ℚ) = (n : ℚ) := by
    exact_mod_cast this
  linarith

theorem exactEnv_digit (n : Nat) :
    exactEnv.toUint8 (exactEnv.floor (exactEnv.fmod (n : ℚ) exactEnv.ten)) % 256 = n % 10 := by
  show (ratTrunc ((Rat.floor (ratFmod (n : ℚ) 10) : Int) : ℚ) % 256).toNat % 256 = n % 10
  rw [ratFmod_nat, rat_floor_natCast, Int.cast_natCast, ratTrunc_natCast]
  omega

theorem exactEnv_drop (n : Nat) :
    exactEnv.div (exactEnv.sub (n : ℚ) (exactEnv.floor (exactEnv.fmod (n : ℚ) exactEnv.ten)))
      exactEnv.ten = ((n / 10 : Nat) : ℚ) := by
  show ((n : ℚ) - ((Rat.floor (ratFmod (n : ℚ) 10) : Int) : ℚ)) / 10 = ((n / 10 : Nat) : ℚ)
  rw [ratFmod_nat, rat_floor_natCast, Int.cast_natCast]
  have := Nat.mod_add_div n 10
  have h2 : ((n % 10 : Nat) : ℚ) + 10 * ((n / 10 : Nat) : ℚ) = (n : ℚ) := by
    exact_mod_cast this
  field_simp
  linarith

/-! ## Rounding to `double` -/

theorem exactEnv_round (v : Int) : exactEnv.x87_fround (exactEnv.ofInt v) = v := by
  show Rat.floor ((v : ℚ) + 1 / 2) = v
  have h : (⌊(v : ℚ) + 1 / 2⌋ : Int) = v := by
    rw [Int.floor_eq_iff]
    constructor <;> norm_num
  exact h

theorem exactEnv_pun (b : Nat) (hb : b < 2 ^ 64) : exactEnv.toBits (exactEnv.ofBits b) = b := by
  show (Rat.floor (b : ℚ)).toNat % 2 ^ 64 = b
  rw [rat_floor_natCast, Int.toNat_natCast]
  exact Nat.mod_eq_of_lt hb

theorem ieee_abs (env : Env ℚ) (x : Int) :
    (if (binary64 env).lt (x : ℚ) (binary64 env).zero = true then (binary64 env).neg (x : ℚ)
      else (x : ℚ)) = ((x.natAbs : Nat) : ℚ) := by
  show (if decide ((x : ℚ) < 0) = true then -(x : ℚ) else (x : ℚ)) = ((x.natAbs : Nat) : ℚ)
  have hc : ((x.natAbs : Nat) : ℚ) = ((x.natAbs : Int) : ℚ) := (Int.cast_natCast _).symm
  by_cases h : x < 0
  · have h2 : (x : ℚ) < 0 := by exact_mod_cast h
    rw [if_pos (by simpa using h2)]
    have : ((x.natAbs : Nat) : Int) = -x := by omega
    rw [hc, this, Int.cast_neg]
  · have h2 : ¬ (x : ℚ) < 0 := by
      intro hh; exact h (by exact_mod_cast hh)
    rw [if_neg (by simpa using h2)]
    have : ((x.natAbs : Nat) : Int) = x := by omega
    rw [hc, this]

theorem log_of_pop_ite (c : Prop) [Decidable c] (t : State D) :
    (if c then ((1 : Nat), t) else (0, x87_pop t)).2.bus.log = t.bus.log := by
  split <;> rfl

theorem STreg_of_regs {s t : State D} (h : regStack t = regStack s) (i : Nat) :
    STreg i t = STreg i s := by
  have h1 : t.TOP = s.TOP := congrArg RegStack.TOP h
  have h2 : t.ST = s.ST := congrArg RegStack.ST h
  simp only [STreg, h1, h2]

/-- C1: exact 64-bit round trip.  For every 64-bit signed integer `v`, every
environment (whatever its conversion from integers to the internal value
loses) and every state: if the operand of `FILDiq` holds the two's-complement
pattern of `v`, `FILDiq` succeeds, and the `FISTPiq` that follows immediately
succeeds, then the eight bytes at the operand of `FISTPiq` read back as `v`.
Both address sizes of both handlers are covered. -/
theorem int64_roundtrip (env : Env D) (a1 a2 : AddrSize) (fd1 fd2 : Nat) (s : State D) (v : Int)
    (hlo : -2 ^ 63 ≤ v) (hhi : v < 2 ^ 63)
    (hv : loadLE s.bus.bytes (linear (resolved env a1 fd1).1 (resolved env a1 fd1).2) 8
      = lowBits 64 v)
    (h1 : (run env Op.FILDiq a1 fd1 s).1 = 0)
    (h2 : (run env Op.FISTPiq a2 fd2 (run env Op.FILDiq a1 fd1 s).2).1 = 0) :
    toInt64 (loadLE (run env Op.FISTPiq a2 fd2 (run env Op.FILDiq a1 fd1 s).2).2.bus.bytes
      (linear (resolved env a2 fd2).1 (resolved env a2 fd2).2) 8) = v := by
  obtain ⟨hflag, hmm⟩ := fildq_ok env a1 fd1 s h1
  rw [fistpq_shadow env a2 fd2 _ hflag h2, hmm, hv, Nat.mod_mod, toInt64_mod,
    toInt64_lowBits v hlo hhi]

/-- Witness of C1 at `v = 2 ^ 63 - 1`, which a `double` cannot represent: the
operand bytes are `FF FF FF FF FF FF FF 7F`, the conversion from integers is
lossy, and the eight bytes stored at address 64 read back as `2 ^ 63 - 1`. -/
theorem int64_roundtrip_witness :
    toInt64 (loadLE (run lossyEnv Op.FISTPiq AddrSize.a32 64
        (run lossyEnv Op.FILDiq AddrSize.a16 0
          (demoState 0 (memOf [0xFF, 0xFF, 0xFF, 0xFF, 0xFF, 0xFF, 0xFF, 0x7F]))).2).2.bus.bytes
      (linear 0 64) 8) = 2 ^ 63 - 1 :=
  int64_roundtrip lossyEnv AddrSize.a16 AddrSize.a32 0 64
    (demoState 0 (memOf [0xFF, 0xFF, 0xFF, 0xFF, 0xFF, 0xFF, 0xFF, 0x7F]))
    (2 ^ 63 - 1) (by norm_num) (by norm_num) (by decide) (by decide) (by decide)

/-- C2: for every load handler (`FILDiw`, `FILDil`, `FILDiq`, `FLDs`, `FLDd`,
`FLDe`, both address sizes) and every state: if a bus access of the call
faulted, the handler returns 1 and `TOP`, every tag, every register value and
every int64 shadow are exactly as before the call. -/
theorem load_fault_leaves_stack (env : Env D) (op : Op) (a : AddrSize) (fd : Nat) (s : State D)
    (hop : op.isLoad = true) (hf : faultedBetween s (run env op a fd s).2 = true) :
    (run env op a fd s).1 = 1 ∧
      (run env op a fd s).2.TOP = s.TOP ∧ (run env op a fd s).2.tag = s.tag ∧
      (run env op a fd s).2.ST = s.ST ∧ (run env op a fd s).2.MM = s.MM := by
  obtain ⟨l, hl, hiff, hregs⟩ := run_summary env op a fd s
  have hne : (run env op a fd s).1 ≠ 0 :=
    hiff.mpr (Or.inr ((faultedBetween_of_log s _ l hl).mp hf))
  refine ⟨?_, regStack_fields (hregs hne)⟩
  rcases run_ret_bool env op a fd s (Or.inl hop) with h | h
  · exact absurd h hne
  · exact h

/-- Witness of C2: `FLDe` whose second bus read (the two bytes at address 8)
faults at linear address 9. -/
theorem load_fault_leaves_stack_witness :
    Op.FLDe.isLoad = true ∧
      faultedBetween (faultyState 7 [9])
        (run exactEnv Op.FLDe AddrSize.a32 0 (faultyState 7 [9])).2 = true ∧
      (run exactEnv Op.FLDe AddrSize.a32 0 (faultyState 7 [9])).1 = 1 ∧
      (run exactEnv Op.FLDe AddrSize.a32 0 (faultyState 7 [9])).2.TOP = 0 :=
  ⟨rfl, by decide,
    (load_fault_leaves_stack exactEnv Op.FLDe AddrSize.a32 0 (faultyState 7 [9]) rfl
      (by decide)).1,
    (load_fault_leaves_stack exactEnv Op.FLDe AddrSize.a32 0 (faultyState 7 [9]) rfl
      (by decide)).2.1⟩

/-- C3: for every store-and-pop handler (`FISTPiw`, `FISTPil`, `FISTPiq`,
`FSTPs`, `FSTPd`, `FSTPe`, `FBSTP`, both address sizes) and every state: if a
bus write of the call faulted (for `FBSTP` any one of its ten byte writes),
the handler returns 1, does not pop, and leaves `TOP`, all tags, all register
values and all shadows unchanged. -/
theorem store_pop_fault_leaves_stack (env : Env D) (op : Op) (a : AddrSize) (fd : Nat)
    (s : State D) (hop : op.isStorePop = true)
    (hf : faultedBetween s (run env op a fd s).2 = true) :
    (run env op a fd s).1 = 1 ∧
      (run env op a fd s).2.TOP = s.TOP ∧ (run env op a fd s).2.tag = s.tag ∧
      (run env op a fd s).2.ST = s.ST ∧ (run env op a fd s).2.MM = s.MM := by
  obtain ⟨l, hl, hiff, hregs⟩ := run_summary env op a fd s
  have hne : (run env op a fd s).1 ≠ 0 :=
    hiff.mpr (Or.inr ((faultedBetween_of_log s _ l hl).mp hf))
  refine ⟨?_, regStack_fields (hregs hne)⟩
  rcases run_ret_bool env op a fd s (Or.inr hop) with h | h
  · exact absurd h hne
  · exact h

/-- Witness of C3: `FBSTP` at offset 100 whose fourth byte write (linear
address 103) is the only one that faults. -/
theorem store_pop_fault_leaves_stack_witness :
    Op.FBSTP.isStorePop = true ∧
      faultedBetween (faultyState 7 [103])
        (run exactEnv Op.FBSTP AddrSize.a16 100 (faultyState 7 [103])).2 = true ∧
      (run exactEnv Op.FBSTP AddrSize.a16 100 (faultyState 7 [103])).1 = 1 ∧
      (run exactEnv Op.FBSTP AddrSize.a16 100 (faultyState 7 [103])).2.TOP = 0 :=
  ⟨rfl, by decide,
    (store_pop_fault_leaves_stack exactEnv Op.FBSTP AddrSize.a16 100 (faultyState 7 [103]) rfl
      (by decide)).1,
    (store_pop_fault_leaves_stack exactEnv Op.FBSTP AddrSize.a16 100 (faultyState 7 [103]) rfl
      (by decide)).2.1⟩

/-- C4: for every non-popping store handler (`FISTiw`, `FISTil`, `FSTs`,
`FSTd`, both address sizes) and every state, whether the write succeeds or
faults, `TOP`, all tags, all values and all shadows after the call are those
before the call. -/
theorem store_leaves_stack (env : Env D) (op : Op) (a : AddrSize) (fd : Nat) (s : State D)
    (hop : op.isStore = true) :
    (run env op a fd s).2.TOP = s.TOP ∧ (run env op a fd s).2.tag = s.tag ∧
      (run env op a fd s).2.ST = s.ST ∧ (run env op a fd s).2.MM = s.MM := by
  apply regStack_fields
  cases op <;> simp [Op.isStore] at hop <;> cases a <;>
    simp [run, opFISTiw_a16, opFISTiw_a32, opFISTil_a16, opFISTil_a32, opFSTs_a16, opFSTs_a32,
      opFSTd_a16, opFSTd_a32, seteaw, seteal, seteaq]

/-- Witness of C4: `FSTd` with a faulting write. -/
theorem store_leaves_stack_witness :
    Op.FSTd.isStore = true ∧
      (run exactEnv Op.FSTd AddrSize.a16 100 (faultyState 7 [100])).1 = 1 ∧
      (run exactEnv Op.FSTd AddrSize.a16 100 (faultyState 7 [100])).2.TOP = 0 :=
  ⟨rfl, by decide,
    (store_leaves_stack exactEnv Op.FSTd AddrSize.a16 100 (faultyState 7 [100]) rfl).1⟩

/-- C5: for every handler of the load/store set and every register state,
entered with the abort flag clear, the handler returns a non-zero failure
indicator if and only if a bus access it made faulted.  No tag, value or top
pointer enters the condition. -/
theorem fails_iff_access_faulted (env : Env D) (op : Op) (a : AddrSize) (fd : Nat)
    (s : State D) (h0 : s.abrt = 0) :
    (run env op a fd s).1 ≠ 0 ↔ faultedBetween s (run env op a fd s).2 = true := by
  obtain ⟨l, hl, hiff, _⟩ := run_summary env op a fd s
  rw [faultedBetween_of_log s _ l hl, hiff]
  simp [h0]

/-- Witness of C5: a store from a top slot tagged empty, on a bus without
faults. -/
theorem fails_iff_access_faulted_witness :
    (demoState 7 (fun _ => 0)).abrt = 0 ∧
      ((demoState 7 (fun _ => 0)).tag (demoState 7 (fun _ => 0)).TOP).cls = TagClass.empty ∧
      ((run exactEnv Op.FISTPil AddrSize.a16 100 (demoState 7 (fun _ => 0))).1 ≠ 0 ↔
        faultedBetween (demoState 7 (fun _ => 0))
          (run exactEnv Op.FISTPil AddrSize.a16 100 (demoState 7 (fun _ => 0))).2 = true) :=
  ⟨rfl, rfl,
    fails_iff_access_faulted exactEnv Op.FISTPil AddrSize.a16 100 (demoState 7 (fun _ => 0)) rfl⟩

/-- C6: truncation, not saturation.  With `r = x87_fround (ST(0))`, a
successful `FISTiw` or `FISTPiw` leaves `r mod 2 ^ 16` in the two bytes of its
operand, and a successful `FISTil` or `FISTPil` leaves `r mod 2 ^ 32` in the
four bytes of its operand, for every `r`, in range or not. -/
theorem fist_truncates (env : Env D) (a : AddrSize) (fd : Nat) (s : State D) (op : Op) (w : Nat)
    (hops : ((op = Op.FISTiw ∨ op = Op.FISTPiw) ∧ w = 2) ∨
      ((op = Op.FISTil ∨ op = Op.FISTPil) ∧ w = 4))
    (hok : (run env op a fd s).1 = 0) :
    loadLE (run env op a fd s).2.bus.bytes (linear (resolved env a fd).1 (resolved env a fd).2) w
      = (env.x87_fround (STreg 0 s) % 2 ^ (8 * w)).toNat :=
  fist_ok env a fd s op w hops hok

/-- Witness of C6: the rounded integer `0x18000` stored as 16 bits yields
`0x8000`. -/
theorem fist_truncates_witness :
    loadLE (run exactEnv Op.FISTiw AddrSize.a16 100
        (demoState (exactEnv.ofInt 0x18000) (fun _ => 0))).2.bus.bytes (linear 0 100) 2
      = 0x8000 :=
  (fist_truncates exactEnv AddrSize.a16 100 (demoState (exactEnv.ofInt 0x18000) (fun _ => 0))
    Op.FISTiw 2 (Or.inl ⟨Or.inl rfl, rfl⟩) (by decide)).trans
    (by
      show (exactEnv.x87_fround (exactEnv.ofInt 0x18000) % 2 ^ (8 * 2)).toNat = 0x8000
      rw [exactEnv_round]
      decide)

/-- C7: integer round trip up to 32 bits.  For every int16 `v` (`w = 2`,
`FILDiw` then `FISTiw` or `FISTPiw`) and every int32 `v` (`w = 4`, `FILDil`
then `FISTil` or `FISTPil`): if the operand of the load holds the pattern of
`v`, both handlers succeed, and `x87_fround` returns `v` on the internal value
that represents `v`, then the operand of the store holds the pattern of `v`. -/
theorem int_roundtrip (env : Env D) (a1 a2 : AddrSize) (fd1 fd2 : Nat) (s : State D) (v : Int)
    (ld st : Op) (w : Nat)
    (hops : (ld = Op.FILDiw ∧ (st = Op.FISTiw ∨ st = Op.FISTPiw) ∧ w = 2) ∨
      (ld = Op.FILDil ∧ (st = Op.FISTil ∨ st = Op.FISTPil) ∧ w = 4))
    (hlo : -2 ^ (8 * w - 1) ≤ v) (hhi : v < 2 ^ (8 * w - 1))
    (hv : loadLE s.bus.bytes (linear (resolved env a1 fd1).1 (resolved env a1 fd1).2) w
      = lowBits (8 * w) v)
    (hround : env.x87_fround (env.ofInt v) = v)
    (h1 : (run env ld a1 fd1 s).1 = 0)
    (h2 : (run env st a2 fd2 (run env ld a1 fd1 s).2).1 = 0) :
    loadLE (run env st a2 fd2 (run env ld a1 fd1 s).2).2.bus.bytes
      (linear (resolved env a2 fd2).1 (resolved env a2 fd2).2) w = lowBits (8 * w) v := by
  rcases hops with ⟨rfl, hst, rfl⟩ | ⟨rfl, hst, rfl⟩
  · rw [fist_ok env a2 fd2 _ st 2 (Or.inl ⟨hst, rfl⟩) h2, (load_ok env a1 fd1 s).1 h1, hv,
      toInt16_lowBits v (by simpa using hlo) (by simpa using hhi), hround]
    rfl
  · rw [fist_ok env a2 fd2 _ st 4 (Or.inr ⟨hst, rfl⟩) h2, (load_ok env a1 fd1 s).2.1 h1, hv,
      toInt32_lowBits v (by simpa using hlo) (by simpa using hhi), hround]
    rfl

/-- Witness of C7: the int16 `-2` (bytes `FE FF`) loaded by `FILDiw` and stored
by `FISTPiw` at address 64 is again `FE FF`, the pattern `0xFFFE`. -/
theorem int_roundtrip_witness :
    loadLE (run exactEnv Op.FISTPiw AddrSize.a32 64
        (run exactEnv Op.FILDiw AddrSize.a16 0 (demoState 0 (memOf [0xFE, 0xFF]))).2).2.bus.bytes
      (linear 0 64) 2 = 0xFFFE :=
  int_roundtrip exactEnv AddrSize.a16 AddrSize.a32 0 64 (demoState 0 (memOf [0xFE, 0xFF])) (-2)
    Op.FILDiw Op.FISTPiw 2 (Or.inl ⟨rfl, Or.inr rfl, rfl⟩) (by norm_num) (by norm_num)
    (by decide) (exactEnv_round (-2)) (by decide) (by decide)

/-- C8: float64 passthrough.  For every 64-bit pattern `b` at which the union
`x87_td` is a reinterpretation (member `i` read back from the `double` that
member `i = b` denotes is `b`): if the operand of `FLDd` holds `b`, `FLDd`
succeeds, and the `FSTd` or `FSTPd` that follows succeeds, then the eight
bytes at the operand of the store hold `b`. -/
theorem float64_passthrough (env : Env D) (a1 a2 : AddrSize) (fd1 fd2 : Nat) (s : State D)
    (b : Nat) (st : Op) (hst : st = Op.FSTd ∨ st = Op.FSTPd) (hb : b < 2 ^ 64)
    (hpun : env.toBits (env.ofBits b) = b)
    (hv : loadLE s.bus.bytes (linear (resolved env a1 fd1).1 (resolved env a1 fd1).2) 8 = b)
    (h1 : (run env Op.FLDd a1 fd1 s).1 = 0)
    (h2 : (run env st a2 fd2 (run env Op.FLDd a1 fd1 s).2).1 = 0) :
    loadLE (run env st a2 fd2 (run env Op.FLDd a1 fd1 s).2).2.bus.bytes
      (linear (resolved env a2 fd2).1 (resolved env a2 fd2).2) 8 = b := by
  rw [fstd_ok env a2 fd2 _ st hst h2, (load_ok env a1 fd1 s).2.2.2 h1, hv, hpun]
  exact Nat.mod_eq_of_lt hb

/-- Witness of C8: the pattern `0x7FF0000000000001` (a signalling NaN of
IEEE-754) loaded by `FLDd` and stored by `FSTPd` at address 64. -/
theorem float64_passthrough_witness :
    loadLE (run exactEnv Op.FSTPd AddrSize.a32 64
        (run exactEnv Op.FLDd AddrSize.a16 0
          (demoState 0 (memOf [0x01, 0, 0, 0, 0, 0, 0xF0, 0x7F]))).2).2.bus.bytes
      (linear 0 64) 8 = 0x7FF0000000000001 :=
  float64_passthrough exactEnv AddrSize.a16 AddrSize.a32 0 64
    (demoState 0 (memOf [0x01, 0, 0, 0, 0, 0, 0xF0, 0x7F])) 0x7FF0000000000001 Op.FSTPd
    (Or.inr rfl) (by norm_num) (exactEnv_pun _ (by norm_num)) (by decide) (by decide)
    (by decide)

/-- C10: address-size independence.  For each operation of the file, the
`_a16` and the `_a32` handler, started from the same state and given
instruction bytes that resolve to the same (segment, offset), produce the same
return value and the same state: register stack, memory, bus accesses and
reported cycle counts. -/
theorem addr_size_independent (env : Env D) (op : Op) (fd16 fd32 : Nat) (s : State D)
    (h : env.ea16 fd16 = env.ea32 fd32) :
    run env op AddrSize.a16 fd16 s = run env op AddrSize.a32 fd32 s := by
  have hs : fetch_ea_16 env fd16 s = fetch_ea_32 env fd32 s := by
    simp [fetch_ea_16, fetch_ea_32, h]
  cases op <;> simp only [run, opFILDiw_a16, opFILDiw_a32, hs, opFISTiw_a16, opFISTiw_a32,
    opFISTPiw_a16, opFISTPiw_a32, opFILDiq_a16, opFILDiq_a32, FBSTP_a16, FBSTP_a32,
    FISTPiq_a16, FISTPiq_a32, opFILDil_a16, opFILDil_a32, opFISTil_a16, opFISTil_a32,
    opFISTPil_a16, opFISTPil_a32, opFLDe_a16, opFLDe_a32, opFSTPe_a16, opFSTPe_a32,
    opFLDd_a16, opFLDd_a32, opFSTd_a16, opFSTd_a32, opFSTPd_a16, opFSTPd_a32,
    opFLDs_a16, opFLDs_a32, opFSTs_a16, opFSTs_a32, opFSTPs_a16, opFSTPs_a32]

/-- Witness of C10: `FBSTP` with the operand at offset 5 in both modes. -/
theorem addr_size_independent_witness :
    exactEnv.ea16 5 = exactEnv.ea32 5 ∧
      run exactEnv Op.FBSTP AddrSize.a16 5 (demoState 7 (fun _ => 0))
        = run exactEnv Op.FBSTP AddrSize.a32 5 (demoState 7 (fun _ => 0)) :=
  ⟨rfl, addr_size_independent exactEnv Op.FBSTP 5 5 (demoState 7 (fun _ => 0)) rfl⟩

/-! ## Lemmas: stack effects, shadow, clock, memory frame, written bytes -/

theorem op_kind (op : Op) : op.isLoad = true ∨ op.isStorePop = true ∨ op.isStore = true := by
  cases op <;> simp [Op.isLoad, Op.isStorePop, Op.isStore]

theorem regStack_x87_push (env : Env D) (v : D) (t : State D) :
    regStack (x87_push env v t) = pushed env v (regStack t) := rfl

theorem regStack_x87_pop (t : State D) : regStack (x87_pop t) = popped (regStack t) := rfl

/-- The register stack after a successful load other than `FILDiq` is the old
one with some value pushed. -/
theorem load_regs (env : Env D) (op : Op) (a : AddrSize) (fd : Nat) (s : State D)
    (hop : op.isLoad = true) (hq : op ≠ Op.FILDiq) (h : (run env op a fd s).1 = 0) :
    ∃ v, regStack (run env op a fd s).2 = pushed env v (regStack s) := by
  cases op <;> simp [Op.isLoad] at hop hq <;> cases a <;>
    simp only [run, opFILDiw_a16, opFILDiw_a32, opFILDil_a16, opFILDil_a32, opFLDe_a16,
      opFLDe_a32, opFLDd_a16, opFLDd_a32, opFLDs_a16, opFLDs_a32] at h ⊢
  all_goals
    have h0 := ret_zero_of_ite h
    rw [if_neg h0]
    first
    | exact ⟨_, congrArg (pushed env _) (regStack_busRead _ _ _ _)⟩
    | (obtain ⟨l, hl⟩ := x87_ld80_busOnly env (fetch_ea_16 env fd s)
       exact ⟨_, congrArg (pushed env _) hl.regs⟩)
    | (obtain ⟨l, hl⟩ := x87_ld80_busOnly env (fetch_ea_32 env fd s)
       exact ⟨_, congrArg (pushed env _) hl.regs⟩)

/-- The register stack after a successful `FILDiq`: the converted operand is
pushed, then the raw operand is put in the shadow and the flag is set. -/
theorem fildq_regs (env : Env D) (a : AddrSize) (fd : Nat) (s : State D)
    (h : (run env Op.FILDiq a fd s).1 = 0) :
    ∃ v raw, regStack (run env Op.FILDiq a fd s).2
      = shadowed raw (pushed env v (regStack s)) := by
  cases a <;> simp only [run, opFILDiq_a16, opFILDiq_a32] at h ⊢
  all_goals
    have h0 := ret_zero_of_ite h
    rw [if_neg h0]
    obtain ⟨l, hl, _⟩ := fildqDebug_busOnly env (geteaq _).2
    exact ⟨_, _, congrArg (fun r => shadowed _ (pushed env _ r))
      (hl.regs.trans (regStack_busRead _ _ _ _))⟩

/-- The register stack after a successful store-and-pop is the old one popped. -/
theorem store_pop_regs (env : Env D) (op : Op) (a : AddrSize) (fd : Nat) (s : State D)
    (hop : op.isStorePop = true) (h : (run env op a fd s).1 = 0) :
    regStack (run env op a fd s).2 = popped (regStack s) := by
  cases op <;> simp [Op.isStorePop] at hop <;> cases a <;>
    simp only [run, opFISTPiw_a16, opFISTPiw_a32, FBSTP_a16, FBSTP_a32, FISTPiq_a16, FISTPiq_a32,
      opFISTPil_a16, opFISTPil_a32, opFSTPe_a16, opFSTPe_a32, opFSTPd_a16, opFSTPd_a32,
      opFSTPs_a16, opFSTPs_a32] at h ⊢
  all_goals
    have h0 := ret_zero_of_ite h
    rw [if_neg h0]
    first
    | exact congrArg popped (regStack_busWrite _ _ _ _ _)
    | (obtain ⟨l, hl⟩ := x87_st80_busOnly env (STreg 0 (fetch_ea_16 env fd s))
         (fetch_ea_16 env fd s)
       exact congrArg popped hl.regs)
    | (obtain ⟨l, hl⟩ := x87_st80_busOnly env (STreg 0 (fetch_ea_32 env fd s))
         (fetch_ea_32 env fd s)
       exact congrArg popped hl.regs)
    | (obtain ⟨l, hl⟩ := fbstpLoop_busOnly env 9 0
         (if env.lt (STreg 0 (fetch_ea_16 env fd s)) env.zero = true then
           env.neg (STreg 0 (fetch_ea_16 env fd s)) else STreg 0 (fetch_ea_16 env fd s),
           fetch_ea_16 env fd s)
       exact congrArg popped
         (((hl.set_tempc _).trans (busWrite_busOnly 1 _ _ _ _)).regs))
    | (obtain ⟨l, hl⟩ := fbstpLoop_busOnly env 9 0
         (if env.lt (STreg 0 (fetch_ea_32 env fd s)) env.zero = true then
           env.neg (STreg 0 (fetch_ea_32 env fd s)) else STreg 0 (fetch_ea_32 env fd s),
           fetch_ea_32 env fd s)
       exact congrArg popped
         (((hl.set_tempc _).trans (busWrite_busOnly 1 _ _ _ _)).regs))

/-- A non-popping store leaves the register stack as it was. -/
theorem store_regs (env : Env D) (op : Op) (a : AddrSize) (fd : Nat) (s : State D)
    (hop : op.isStore = true) : regStack (run env op a fd s).2 = regStack s := by
  cases op <;> simp [Op.isStore] at hop <;> cases a <;>
    simp [run, opFISTiw_a16, opFISTiw_a32, opFISTil_a16, opFISTil_a32, opFSTs_a16, opFSTs_a32,
      opFSTd_a16, opFSTd_a32, seteaw, seteal, seteaq]

/-- A handler call leaves the register stack as it was, or pushes one value
(and, for `FILDiq`, fills the shadow of the new top slot), or pops. -/
theorem run_regs (env : Env D) (op : Op) (a : AddrSize) (fd : Nat) (s : State D) :
    regStack (run env op a fd s).2 = regStack s ∨
    (∃ v, regStack (run env op a fd s).2 = pushed env v (regStack s)) ∨
    (∃ v raw, regStack (run env op a fd s).2 = shadowed raw (pushed env v (regStack s))) ∨
    regStack (run env op a fd s).2 = popped (regStack s) := by
  by_cases h : (run env op a fd s).1 = 0
  · rcases op_kind op with hop | hop | hop
    · by_cases hq : op = Op.FILDiq
      · subst hq
        exact Or.inr (Or.inr (Or.inl (fildq_regs env a fd s h)))
      · exact Or.inr (Or.inl (load_regs env op a fd s hop hq h))
    · exact Or.inr (Or.inr (Or.inr (store_pop_regs env op a fd s hop h)))
    · exact Or.inl (store_regs env op a fd s hop)
  · obtain ⟨l, _, _, hregs⟩ := run_summary env op a fd s
    exact Or.inl (hregs h)

/-- A handler call leaves `TOP` in `[0, 7]` when it was there. -/
theorem run_top_lt (env : Env D) (op : Op) (a : AddrSize) (fd : Nat) (s : State D)
    (h : s.TOP < 8) : (run env op a fd s).2.TOP < 8 := by
  have e : ∀ t : State D, t.TOP = (regStack t).TOP := fun _ => rfl
  rw [e]
  rcases run_regs env op a fd s with h1 | ⟨v, h1⟩ | ⟨v, raw, h1⟩ | h1 <;> rw [h1]
  · exact h
  · exact Nat.mod_lt _ (by norm_num)
  · exact Nat.mod_lt _ (by norm_num)
  · exact Nat.mod_lt _ (by norm_num)

theorem load_top (env : Env D) (op : Op) (a : AddrSize) (fd : Nat) (s : State D)
    (hop : op.isLoad = true) (h : (run env op a fd s).1 = 0) :
    (run env op a fd s).2.TOP = (s.TOP + 7) % 8 := by
  have e : ∀ t : State D, t.TOP = (regStack t).TOP := fun _ => rfl
  rw [e]
  by_cases hq : op = Op.FILDiq
  · subst hq
    obtain ⟨v, raw, h1⟩ := fildq_regs env a fd s h
    rw [h1]; rfl
  · obtain ⟨v, h1⟩ := load_regs env op a fd s hop hq h
    rw [h1]; rfl

theorem pop_top (env : Env D) (op : Op) (a : AddrSize) (fd : Nat) (s : State D)
    (hop : op.isStorePop = true) (h : (run env op a fd s).1 = 0) :
    (run env op a fd s).2.TOP = (s.TOP + 1) % 8 := by
  have e : ∀ t : State D, t.TOP = (regStack t).TOP := fun _ => rfl
  rw [e, store_pop_regs env op a fd s hop h]; rfl

/-- After `n` successful loads `TOP` went down by `n` modulo 8. -/
theorem loads_top (env : Env D) (cs : List Call) : ∀ s : State D,
    (∀ c ∈ cs, c.op.isLoad = true) → allOk env cs s = true →
    (runCalls env cs s).TOP % 8 = (s.TOP + 7 * cs.length) % 8 ∧
      (cs ≠ [] → (runCalls env cs s).TOP < 8) := by
  induction cs with
  | nil => intro s _ _; simp [runCalls]
  | cons c cs ih =>
    intro s hall hok
    simp only [allOk, Bool.and_eq_true, decide_eq_true_eq] at hok
    have hc := hall c (List.mem_cons_self _ _)
    have htop := load_top env c.op c.a c.fetchdat s hc hok.1
    obtain ⟨h1, h2⟩ := ih (run env c.op c.a c.fetchdat s).2
      (fun d hd => hall d (List.mem_cons_of_mem _ hd)) hok.2
    simp only [runCalls, List.length_cons]
    refine ⟨?_, fun _ => ?_⟩
    · rw [h1, htop]; omega
    · by_cases hcs : cs = []
      · subst hcs
        simp only [runCalls, htop]
        exact Nat.mod_lt _ (by norm_num)
      · exact h2 hcs

/-- After `n` successful store-and-pops `TOP` went up by `n` modulo 8. -/
theorem pops_top (env : Env D) (cs : List Call) : ∀ s : State D,
    (∀ c ∈ cs, c.op.isStorePop = true) → allOk env cs s = true →
    (runCalls env cs s).TOP % 8 = (s.TOP + cs.length) % 8 ∧
      (cs ≠ [] → (runCalls env cs s).TOP < 8) := by
  induction cs with
  | nil => intro s _ _; simp [runCalls]
  | cons c cs ih =>
    intro s hall hok
    simp only [allOk, Bool.and_eq_true, decide_eq_true_eq] at hok
    have hc := hall c (List.mem_cons_self _ _)
    have htop := pop_top env c.op c.a c.fetchdat s hc hok.1
    obtain ⟨h1, h2⟩ := ih (run env c.op c.a c.fetchdat s).2
      (fun d hd => hall d (List.mem_cons_of_mem _ hd)) hok.2
    simp only [runCalls, List.length_cons]
    refine ⟨?_, fun _ => ?_⟩
    · rw [h1, htop]; omega
    · by_cases hcs : cs = []
      · subst hcs
        simp only [runCalls, htop]
        exact Nat.mod_lt _ (by norm_num)
      · exact h2 hcs

/-- A handler entered with the abort flag clear returns 0 when none of its bus
accesses faulted. -/
theorem ret_zero_of_no_fault (env : Env D) (op : Op) (a : AddrSize) (fd : Nat) (s : State D)
    (h0 : s.abrt = 0) (hnf : faultedBetween s (run env op a fd s).2 = false) :
    (run env op a fd s).1 = 0 := by
  obtain ⟨l, hl, hiff, _⟩ := run_summary env op a fd s
  by_contra hne
  rcases hiff.mp hne with h | h
  · exact h h0
  · have := (faultedBetween_of_log s _ l hl).mpr h
    rw [hnf] at this
    exact absurd this (by simp)

theorem log_of_ite (c : Prop) [Decidable c] (t u : State D) (h : u.bus.log = t.bus.log) :
    (if c then ((1 : Nat), t) else (0, u)).2.bus.log = t.bus.log := by
  split
  · rfl
  · exact h

/-- The one bus access of `FISTPiq`: an eight-byte write of the shadow of the top
slot when its tag carries the flag, and of the rounded `ST(0)` otherwise. -/
theorem fistpq_log (env : Env D) (a : AddrSize) (fd : Nat) (s : State D) :
    accessesBetween s (run env Op.FISTPiq a fd s).2 =
      [⟨true, linear (resolved env a fd).1 (resolved env a fd).2, 8,
        anyFault s.bus.wfault (linear (resolved env a fd).1 (resolved env a fd).2) 8,
        if (s.tag s.TOP).uint64 = true then s.MM s.TOP % 2 ^ 64
        else lowBits 64 (env.x87_fround (STreg 0 s))⟩] := by
  have key : ∀ s0 : State D, s0.bus = s.bus → ∀ (v : Nat) (r : Nat × State D),
      r.2.bus.log = (busWrite 8 s0.easeg s0.eaaddr v s0).bus.log →
      accessesBetween s r.2 = [⟨true, linear s0.easeg s0.eaaddr, 8,
        anyFault s.bus.wfault (linear s0.easeg s0.eaaddr) 8, v % 256 ^ 8⟩] := by
    intro s0 hbus v r hr
    have hb := (busWrite_busOnly 8 s0.easeg s0.eaaddr v s0).log
    simp only [accessesBetween, hr, hb, hbus, List.drop_left]
  cases a <;> simp only [run, FISTPiq_a16, FISTPiq_a32, resolved]
  all_goals
    first
    | refine (key (fetch_ea_16 env fd s) rfl _ _ (log_of_ite _ _ _ (by rfl))).trans ?_
    | refine (key (fetch_ea_32 env fd s) rfl _ _ (log_of_ite _ _ _ (by rfl))).trans ?_
    simp only [fetch_ea_16, fetch_ea_32, STreg]
    congr 2
    split
    · rw [lowBits_toInt64]; norm_num
    · simp only [lowBits]; norm_num; omega

theorem busRead_setMM (m : Nat → Nat) (w seg off : Nat) (s : State D) :
    busRead w seg off (setMM m s) = ((busRead w seg off s).1, setMM m (busRead w seg off s).2) := by
  unfold busRead
  simp only [setMM]
  split <;> rfl

theorem busWrite_setMM (m : Nat → Nat) (w seg off v : Nat) (s : State D) :
    busWrite w seg off v (setMM m s) = setMM m (busWrite w seg off v s) := by
  unfold busWrite
  simp only [setMM]
  split <;> rfl

theorem fbstpLoop_setMM (env : Env D) (m : Nat → Nat) (n : Nat) : ∀ (c : Nat) (d : D) (s : State D),
    fbstpLoop env n c (d, setMM m s)
      = ((fbstpLoop env n c (d, s)).1, setMM m (fbstpLoop env n c (d, s)).2) := by
  induction n with
  | zero => intro c d s; rfl
  | succ n ih =>
    intro c d s
    simp only [fbstpLoop, fbstpStep, writememb, busWrite_setMM]
    exact ih _ _ _

theorem ite_setMM (m : Nat → Nat) (c : Prop) [Decidable c] (t u : State D) :
    (if c then ((1 : Nat), setMM m t) else (0, setMM m u))
      = ((if c then ((1 : Nat), t) else (0, u)).1, setMM m (if c then ((1 : Nat), t) else (0, u)).2) := by
  split <;> rfl

theorem fbstp_tail_setMM (m : Nat → Nat) (t : State D) (seg addr tc : Nat) :
    (if (writememb seg addr tc ({ setMM m t with tempc := tc } : State D)).abrt ≠ 0 then
        ((1 : Nat), writememb seg addr tc ({ setMM m t with tempc := tc } : State D))
      else (0, x87_pop (writememb seg addr tc ({ setMM m t with tempc := tc } : State D))))
    = ((if (writememb seg addr tc ({ t with tempc := tc } : State D)).abrt ≠ 0 then
        ((1 : Nat), writememb seg addr tc ({ t with tempc := tc } : State D))
      else (0, x87_pop (writememb seg addr tc ({ t with tempc := tc } : State D)))).1,
      setMM m (if (writememb seg addr tc ({ t with tempc := tc } : State D)).abrt ≠ 0 then
        ((1 : Nat), writememb seg addr tc ({ t with tempc := tc } : State D))
      else (0, x87_pop (writememb seg addr tc ({ t with tempc := tc } : State D)))).2) := by
  have e : ({ setMM m t with tempc := tc } : State D) = setMM m { t with tempc := tc } := rfl
  rw [e]
  simp only [writememb, busWrite_setMM]
  have e2 : ∀ u : State D, (setMM m u).abrt = u.abrt := fun _ => rfl
  have e3 : ∀ u : State D, x87_pop (setMM m u) = setMM m (x87_pop u) := fun _ => rfl
  rw [e2, e3]
  exact ite_setMM m _ _ _

/-- A handler other than `FILDiq` and `FISTPiq` commutes with a change of the
shadow array: it neither reads nor writes it. -/
theorem run_setMM (env : Env D) (op : Op) (a : AddrSize) (fd : Nat) (s : State D)
    (m : Nat → Nat) (h1 : op ≠ Op.FISTPiq) (h2 : op ≠ Op.FILDiq) :
    run env op a fd (setMM m s) = ((run env op a fd s).1, setMM m (run env op a fd s).2) := by
  have hST : ∀ (i : Nat) (t : State D), STreg i (setMM m t) = STreg i t := fun _ _ => rfl
  have hf16 : fetch_ea_16 env fd (setMM m s) = setMM m (fetch_ea_16 env fd s) := rfl
  have hf32 : fetch_ea_32 env fd (setMM m s) = setMM m (fetch_ea_32 env fd s) := rfl
  have hab : ∀ t : State D, (setMM m t).abrt = t.abrt := fun _ => rfl
  have hes : ∀ t : State D, (setMM m t).easeg = t.easeg := fun _ => rfl
  have hea : ∀ t : State D, (setMM m t).eaaddr = t.eaaddr := fun _ => rfl
  have hpush : ∀ (v : D) (t : State D), x87_push env v (setMM m t) = setMM m (x87_push env v t) :=
    fun _ _ => rfl
  have hpop : ∀ t : State D, x87_pop (setMM m t) = setMM m (x87_pop t) := fun _ => rfl
  have hclk : ∀ (c : Nat) (t : State D), CLOCK_CYCLES c (setMM m t) = setMM m (CLOCK_CYCLES c t) :=
    fun _ _ => rfl
  by_cases hb : op = Op.FBSTP
  · subst hb
    cases a <;> simp only [run, FBSTP_a16, FBSTP_a32, hf16, hf32, hST, fbstpLoop_setMM]
    · exact fbstp_tail_setMM m _ _ _ _
    · exact fbstp_tail_setMM m _ _ _ _
  cases op <;> simp at h1 h2 hb <;> cases a <;>
    simp only [run, opFILDiw_a16, opFILDiw_a32, opFISTiw_a16, opFISTiw_a32,
      opFISTPiw_a16, opFISTPiw_a32, FBSTP_a16, FBSTP_a32,
      opFILDil_a16, opFILDil_a32, opFISTil_a16, opFISTil_a32,
      opFISTPil_a16, opFISTPil_a32, opFLDe_a16, opFLDe_a32, opFSTPe_a16, opFSTPe_a32,
      opFLDd_a16, opFLDd_a32, opFSTd_a16, opFSTd_a32, opFSTPd_a16, opFSTPd_a32,
      opFLDs_a16, opFLDs_a32, opFSTs_a16, opFSTs_a32, opFSTPs_a16, opFSTPs_a32,
      hf16, hf32, geteaw, geteal, geteaq, seteaw, seteal, seteaq, x87_ld80, x87_st80, writememb,
      busRead_setMM, busWrite_setMM, fbstpLoop_setMM, hST, hab, hes, hea, hpush, hpop, hclk,
      ite_setMM]


theorem fildqDebug_setMM (env : Env D) (m : Nat → Nat) (t : State D) :
    fildqDebug env (setMM m t) = setMM m (fildqDebug env t) := by
  unfold fildqDebug
  split
  · simp only [readmeml, busRead_setMM]
    rfl
  · rfl

/-- The handler `opFILDiq` does not read the shadow array: return value and
state, shadows apart, do not depend on it. -/
theorem fildq_setMM (env : Env D) (a : AddrSize) (fd : Nat) (s : State D) (m : Nat → Nat) :
    (run env Op.FILDiq a fd (setMM m s)).1 = (run env Op.FILDiq a fd s).1 ∧
    setMM (fun _ => 0) (run env Op.FILDiq a fd (setMM m s)).2
      = setMM (fun _ => 0) (run env Op.FILDiq a fd s).2 := by
  have hf16 : fetch_ea_16 env fd (setMM m s) = setMM m (fetch_ea_16 env fd s) := rfl
  have hf32 : fetch_ea_32 env fd (setMM m s) = setMM m (fetch_ea_32 env fd s) := rfl
  have hab : ∀ t : State D, (setMM m t).abrt = t.abrt := fun _ => rfl
  have hes : ∀ t : State D, (setMM m t).easeg = t.easeg := fun _ => rfl
  have hea : ∀ t : State D, (setMM m t).eaaddr = t.eaaddr := fun _ => rfl
  cases a <;>
    simp only [run, opFILDiq_a16, opFILDiq_a32, hf16, hf32, geteaq, busRead_setMM, hab, hes, hea,
      fildqDebug_setMM] <;>
    split <;> exact ⟨rfl, rfl⟩

theorem clock_of_ite (c : Prop) [Decidable c] (t u : State D)
    (h : (if c then ((1 : Nat), t) else (0, u)).1 = 0) :
    (if c then ((1 : Nat), t) else (0, u)).2.clock = u.clock := by
  have h0 := ret_zero_of_ite h
  rw [if_neg h0]

/-- On a successful call the clock grew by the cost of the operation, and by
nothing for `FBSTP`. -/
theorem run_clock (env : Env D) (op : Op) (a : AddrSize) (fd : Nat) (s : State D)
    (h : (run env op a fd s).1 = 0) :
    (run env op a fd s).2.clock = s.clock ++ (cycleCost op).toList := by
  have hr : ∀ (w seg off : Nat) (t : State D), (busRead w seg off t).2.clock = t.clock :=
    fun w seg off t => (busRead_busOnly w seg off t).clock
  have hw : ∀ (w seg off v : Nat) (t : State D), (busWrite w seg off v t).clock = t.clock :=
    fun w seg off v t => (busWrite_busOnly w seg off v t).clock
  have hd : ∀ t : State D, (fildqDebug env t).clock = t.clock := fun t => by
    obtain ⟨l, hl, _⟩ := fildqDebug_busOnly env t
    exact hl.clock
  have hl80 : ∀ t : State D, (x87_ld80 env t).2.clock = t.clock := fun t => by
    obtain ⟨l, hl⟩ := x87_ld80_busOnly env t
    exact hl.clock
  have hs80 : ∀ (v : D) (t : State D), (x87_st80 env v t).clock = t.clock := fun v t => by
    obtain ⟨l, hl⟩ := x87_st80_busOnly env v t
    exact hl.clock
  have hloop : ∀ (n c : Nat) (p : D × State D), (fbstpLoop env n c p).2.clock = p.2.clock :=
    fun n c p => by
      obtain ⟨l, hl⟩ := fbstpLoop_busOnly env n c p
      exact hl.clock
  cases op <;> cases a <;>
    simp only [run, opFILDiw_a16, opFILDiw_a32, opFISTiw_a16, opFISTiw_a32,
      opFISTPiw_a16, opFISTPiw_a32, opFILDiq_a16, opFILDiq_a32, FBSTP_a16, FBSTP_a32,
      FISTPiq_a16, FISTPiq_a32, opFILDil_a16, opFILDil_a32, opFISTil_a16, opFISTil_a32,
      opFISTPil_a16, opFISTPil_a32, opFLDe_a16, opFLDe_a32, opFSTPe_a16, opFSTPe_a32,
      opFLDd_a16, opFLDd_a32, opFSTd_a16, opFSTd_a32, opFSTPd_a16, opFSTPd_a32,
      opFLDs_a16, opFLDs_a32, opFSTs_a16, opFSTs_a32, opFSTPs_a16, opFSTPs_a32] at h ⊢
  all_goals
    first
    | rw [clock_of_ite _ _ _ h]
    | skip
    simp only [cycleCost, Option.toList, CLOCK_CYCLES, x87_push, x87_pop, geteaw, geteal, geteaq,
      seteaw, seteal, seteaq, writememb, hr, hw, hd, hl80, hs80, hloop, List.append_nil]
  all_goals rfl

theorem busRead_bytes (w seg off : Nat) (s : State D) :
    (busRead w seg off s).2.bus.bytes = s.bus.bytes := by
  unfold busRead; split <;> rfl

theorem busWrite_bytes_of_abrt (w seg off v : Nat) (s : State D) (h0 : s.abrt = 0)
    (h : (busWrite w seg off v s).abrt ≠ 0) :
    (busWrite w seg off v s).bus.bytes = s.bus.bytes := by
  unfold busWrite at h ⊢
  split
  · rfl
  · rename_i hf
    rw [if_neg hf] at h
    exact absurd h0 h

theorem ret_ne_zero_of_ite {c : Prop} [Decidable c] {t u : State D}
    (h : (if c then ((1 : Nat), t) else (0, u)).1 ≠ 0) :
    c ∧ (if c then ((1 : Nat), t) else (0, u)).2 = t := by
  by_cases hc : c
  · rw [if_pos hc]; exact ⟨hc, rfl⟩
  · rw [if_neg hc] at h; exact absurd rfl h

/-- A load never changes guest memory. -/
theorem load_bytes (env : Env D) (op : Op) (a : AddrSize) (fd : Nat) (s : State D)
    (hop : op.isLoad = true) : (run env op a fd s).2.bus.bytes = s.bus.bytes := by
  have hd : ∀ t : State D, (fildqDebug env t).bus.bytes = t.bus.bytes := fun t => by
    unfold fildqDebug
    split
    · simp only [readmeml, busRead_bytes]
    · rfl
  have hl80 : ∀ t : State D, (x87_ld80 env t).2.bus.bytes = t.bus.bytes := fun t => by
    simp only [x87_ld80, busRead_bytes]
  cases op <;> simp [Op.isLoad] at hop <;> cases a <;>
    simp only [run, opFILDiw_a16, opFILDiw_a32, opFILDiq_a16, opFILDiq_a32, opFILDil_a16,
      opFILDil_a32, opFLDe_a16, opFLDe_a32, opFLDd_a16, opFLDd_a32, opFLDs_a16, opFLDs_a32] <;>
    split <;>
    simp only [CLOCK_CYCLES, x87_push, geteaw, geteal, geteaq, busRead_bytes, hd, hl80] <;>
    rfl

/-- A store that makes a single bus write, entered with the abort flag clear,
changes no byte of guest memory when it returns failure. -/
theorem single_store_bytes (env : Env D) (op : Op) (a : AddrSize) (fd : Nat) (s : State D)
    (hop : op.isLoad = false) (hb : op ≠ Op.FBSTP) (he : op ≠ Op.FSTPe)
    (h0 : s.abrt = 0) (h : (run env op a fd s).1 ≠ 0) :
    (run env op a fd s).2.bus.bytes = s.bus.bytes := by
  cases op <;> simp [Op.isLoad] at hop hb he <;> cases a <;>
    simp only [run, opFISTiw_a16, opFISTiw_a32, opFISTPiw_a16, opFISTPiw_a32,
      FISTPiq_a16, FISTPiq_a32, opFISTil_a16, opFISTil_a32, opFISTPil_a16, opFISTPil_a32,
      opFSTd_a16, opFSTd_a32, opFSTPd_a16, opFSTPd_a32, opFSTs_a16, opFSTs_a32,
      opFSTPs_a16, opFSTPs_a32] at h ⊢
  all_goals
    first
    | (obtain ⟨hc, heq⟩ := ret_ne_zero_of_ite h
       rw [heq]
       exact busWrite_bytes_of_abrt _ _ _ _ _ h0 hc)
    | exact busWrite_bytes_of_abrt _ _ _ _ _ h0 h

/-- A one-byte bus write leaves the bytes at other addresses as they were. -/
theorem busWrite_one_frame (seg off v x : Nat) (s : State D) (h : linear seg off ≠ x) :
    (busWrite 1 seg off v s).bus.bytes x = s.bus.bytes x := by
  unfold busWrite
  split
  · rfl
  · show storeLE s.bus.bytes (linear seg off) v 1 x = s.bus.bytes x
    apply storeLE_frame
    intro i hi
    have hi0 : i = 0 := by omega
    subst hi0
    unfold linear at h ⊢
    omega

/-- A one-byte bus write that does not fault puts the byte at its address. -/
theorem busWrite_one_same (seg off v : Nat) (s : State D)
    (h : s.bus.wfault (linear seg off) = false) :
    (busWrite 1 seg off v s).bus.bytes (linear seg off) = v % 256 := by
  have hl : linear seg off % 2 ^ 32 = linear seg off := by unfold linear; omega
  have hnf : ¬ (anyFault s.bus.wfault (linear seg off) 1 = true) := by
    simp only [anyFault]
    rw [hl, h]
    simp
  unfold busWrite
  rw [if_neg hnf]
  show storeLE s.bus.bytes (linear seg off) v 1 (linear seg off) = v % 256
  simp only [storeLE]
  rw [hl, Function.update_same]

/-- The loop of `FBSTP` leaves alone every byte that is not at one of its
offsets. -/
theorem fbstpLoop_frame (env : Env D) (x : Nat) (n : Nat) : ∀ (c : Nat) (p : D × State D),
    (∀ i, i < n → linear p.2.easeg ((p.2.eaaddr + (c + i)) % 2 ^ 32) ≠ x) →
    (fbstpLoop env n c p).2.bus.bytes x = p.2.bus.bytes x := by
  induction n with
  | zero => intro c p _; rfl
  | succ n ih =>
    intro c p h
    simp only [fbstpLoop]
    have hw := busWrite_busOnly 1 p.2.easeg ((p.2.eaaddr + c) % 2 ^ 32)
      (fbstpStep env c p).2.tempc p.2
    rw [ih (c + 1) (fbstpStep env c p)]
    · exact busWrite_one_frame _ _ _ _ _ (by simpa using h 0 (Nat.succ_pos n))
    · intro i hi
      have e1 : (fbstpStep env c p).2.easeg = p.2.easeg := (busWrite_busOnly 1 _ _ _ _).easeg
      have e2 : (fbstpStep env c p).2.eaaddr = p.2.eaaddr := (busWrite_busOnly 1 _ _ _ _).eaaddr
      rw [e1, e2]
      have := h (i + 1) (Nat.succ_lt_succ hi)
      rwa [show c + (i + 1) = c + 1 + i by omega] at this

theorem bytes_of_pop_ite (c : Prop) [Decidable c] (t : State D) :
    (if c then ((1 : Nat), t) else (0, x87_pop t)).2.bus.bytes = t.bus.bytes := by
  split <;> rfl

/-- The first byte of the operand after the body of `FBSTP`, when the write
of that byte does not fault: the byte packed by the first pass of the loop,
whatever happens to the later writes. -/
theorem fbstp_first_byte_core (env : Env D) (s0 : State D) (mag : D)
    (hw0 : s0.bus.wfault (linear s0.easeg ((s0.eaaddr + 0) % 2 ^ 32)) = false)
    (p : D × State D) (hp : p = fbstpLoop env 9 0 (mag, s0)) (tc : Nat) :
    (writememb p.2.easeg (p.2.eaaddr + 9) tc { p.2 with tempc := tc }).bus.bytes
        (linear s0.easeg ((s0.eaaddr + 0) % 2 ^ 32))
      = (packedBcdLoop env 1 mag).1.head! := by
  obtain ⟨l, h2⟩ := fbstpLoop_busOnly env 9 0 (mag, s0)
  rw [← hp] at h2
  have hne : ∀ k, 1 ≤ k → k < 10 →
      linear s0.easeg ((s0.eaaddr + k) % 2 ^ 32) ≠ linear s0.easeg ((s0.eaaddr + 0) % 2 ^ 32) := by
    intro k h1 h10
    unfold linear
    omega
  have hlast : (writememb p.2.easeg (p.2.eaaddr + 9) tc { p.2 with tempc := tc }).bus.bytes
      (linear s0.easeg ((s0.eaaddr + 0) % 2 ^ 32))
      = p.2.bus.bytes (linear s0.easeg ((s0.eaaddr + 0) % 2 ^ 32)) := by
    simp only [writememb]
    rw [busWrite_one_frame]
    rw [h2.easeg, h2.eaaddr]
    exact hne 9 (by norm_num) (by norm_num)
  rw [hlast, hp]
  show (fbstpLoop env 8 1 (fbstpStep env 0 (mag, s0))).2.bus.bytes _ = _
  rw [fbstpLoop_frame]
  · simp only [fbstpStep, writememb]
    rw [busWrite_one_same _ _ _ _ hw0]
    simp only [packedBcdLoop, List.head!, Nat.mod_mod]
  · intro i hi
    have e1 : (fbstpStep env 0 (mag, s0)).2.easeg = s0.easeg :=
      (busWrite_busOnly 1 _ _ _ _).easeg
    have e2 : (fbstpStep env 0 (mag, s0)).2.eaaddr = s0.eaaddr :=
      (busWrite_busOnly 1 _ _ _ _).eaaddr
    rw [e1, e2]
    exact hne (1 + i) (by omega) (by omega)

/-- The first byte of the operand after `FBSTP`, when the write of that byte
does not fault. -/
theorem fbstp_first_byte (env : Env D) (a : AddrSize) (fd : Nat) (s : State D)
    (hw0 : s.bus.wfault
      (linear (resolved env a fd).1 (((resolved env a fd).2 + 0) % 2 ^ 32)) = false) :
    (run env Op.FBSTP a fd s).2.bus.bytes
        (linear (resolved env a fd).1 (((resolved env a fd).2 + 0) % 2 ^ 32))
      = (packedBcdLoop env 1
          (if env.lt (STreg 0 s) env.zero = true then env.neg (STreg 0 s) else STreg 0 s)).1.head!
      := by
  cases a <;> simp only [run, FBSTP_a16, FBSTP_a32, resolved] at hw0 ⊢
  · rw [bytes_of_pop_ite]
    exact fbstp_first_byte_core env (fetch_ea_16 env fd s) _ hw0 _ rfl _
  · rw [bytes_of_pop_ite]
    exact fbstp_first_byte_core env (fetch_ea_32 env fd s) _ hw0 _ rfl _

theorem bytesLE_mod (w : Nat) : ∀ v, bytesLE w (v % 256 ^ w) = bytesLE w v := by
  induction w with
  | zero => intro v; rfl
  | succ w ih =>
    intro v
    simp only [bytesLE]
    have h1 : v % 256 ^ (w + 1) % 256 = v % 256 := by
      rw [pow_succ]; exact Nat.mod_mul_left_mod _ _ _
    have h2 : v % 256 ^ (w + 1) / 256 = v / 256 % 256 ^ w := by
      rw [pow_succ, Nat.mul_comm, Nat.mod_mul_right_div_self]
    rw [h1, h2, ih]

theorem bytesLE_append (a b : Nat) : ∀ v,
    bytesLE (a + b) v = bytesLE a v ++ bytesLE b (v / 256 ^ a) := by
  induction a with
  | zero => intro v; simp [bytesLE]
  | succ a ih =>
    intro v
    have e : a + 1 + b = (a + b) + 1 := by omega
    rw [e]
    simp only [bytesLE, List.cons_append, ih]
    rw [Nat.div_div_eq_div_mul, pow_succ, Nat.mul_comm]

theorem writtenBytes_append (l m : List Access) :
    writtenBytes (l ++ m) = writtenBytes l ++ writtenBytes m := by
  induction l with
  | nil => rfl
  | cons a l ih =>
    show (if a.write then bytesLE a.width a.data else []) ++ writtenBytes (l ++ m) = _
    rw [ih]
    simp only [writtenBytes, List.append_assoc]


/-- The bus log of a handler whose only access is one write. -/
theorem single_write_log (s s0 : State D) (hbus : s0.bus = s.bus) (w v : Nat)
    (r : Nat × State D)
    (hr : r.2.bus.log = (busWrite w s0.easeg s0.eaaddr v s0).bus.log) :
    accessesBetween s r.2 = [⟨true, linear s0.easeg s0.eaaddr, w,
      anyFault s.bus.wfault (linear s0.easeg s0.eaaddr) w, v % 256 ^ w⟩] := by
  have hb := (busWrite_busOnly w s0.easeg s0.eaaddr v s0).log
  simp only [accessesBetween, hr, hb, hbus, List.drop_left]

/-- The loop of `FBSTP` hands to the bus the bytes of the digit extraction, and
leaves in `tempd` what the extraction leaves. -/
theorem fbstpLoop_written (env : Env D) (n : Nat) : ∀ (c : Nat) (p : D × State D),
    ∃ l, (fbstpLoop env n c p).2.bus.log = p.2.bus.log ++ l ∧
      writtenBytes l = (packedBcdLoop env n p.1).1 ∧
      (fbstpLoop env n c p).1 = (packedBcdLoop env n p.1).2 := by
  induction n with
  | zero => intro c p; exact ⟨[], by simp [fbstpLoop], rfl, rfl⟩
  | succ n ih =>
    intro c p
    obtain ⟨l, h1, h2, h3⟩ := ih (c + 1) (fbstpStep env c p)
    obtain ⟨acc, hacc, hwr, hwd, hdata⟩ : ∃ acc : Access,
        (fbstpStep env c p).2.bus.log = p.2.bus.log ++ [acc] ∧ acc.write = true ∧
        acc.width = 1 ∧ acc.data = (packedBcdLoop env (n + 1) p.1).1.head! % 256 ^ 1 :=
      ⟨_, (busWrite_busOnly 1 p.2.easeg ((p.2.eaaddr + c) % 2 ^ 32) _ p.2).log, rfl, rfl, rfl⟩
    refine ⟨acc :: l, ?_, ?_, ?_⟩
    · simp only [fbstpLoop]
      rw [h1, hacc, List.append_assoc]
      rfl
    · simp only [writtenBytes, hwr, if_true, hwd, hdata, bytesLE, packedBcdLoop, List.head!,
        List.cons_append, List.nil_append, pow_one, Nat.mod_mod]
      rw [h2]
      rfl
    · simp only [fbstpLoop, packedBcdLoop]
      rw [h3]
      rfl

theorem writtenBytes_single (ad w v : Nat) (fl : Bool) :
    writtenBytes [⟨true, ad, w, fl, v % 256 ^ w⟩] = bytesLE w v := by
  simp only [writtenBytes, if_true, List.append_nil, bytesLE_mod]

/-- The bytes `x87_st80` hands to the bus are the ten bytes of the encoded value. -/
theorem x87_st80_written (env : Env D) (v : D) (s0 : State D) :
    ∃ l, (x87_st80 env v s0).bus.log = s0.bus.log ++ l ∧
      writtenBytes l = bytesLE 10 (env.toExt80 v) := by
  have h1 := busWrite_busOnly 8 s0.easeg s0.eaaddr (env.toExt80 v % 2 ^ 64) s0
  have h2 := busWrite_busOnly 2 (busWrite 8 s0.easeg s0.eaaddr (env.toExt80 v % 2 ^ 64) s0).easeg
    (((busWrite 8 s0.easeg s0.eaaddr (env.toExt80 v % 2 ^ 64) s0).eaaddr + 8) % 2 ^ 32)
    (env.toExt80 v / 2 ^ 64) (busWrite 8 s0.easeg s0.eaaddr (env.toExt80 v % 2 ^ 64) s0)
  refine ⟨_, (h1.trans h2).log, ?_⟩
  have e : (10 : Nat) = 8 + 2 := rfl
  have e2 : (2 : Nat) ^ 64 = 256 ^ 8 := by norm_num
  rw [List.singleton_append]
  show writtenBytes ([_] ++ [_]) = _
  rw [writtenBytes_append, writtenBytes_single, writtenBytes_single, e, bytesLE_append, e2,
    bytesLE_mod]


/-- The bytes the body of `FBSTP` hands to the bus are the packed-decimal
encoding of `ST(0)`. -/
theorem fbstp_written_core (env : Env D) (s0 : State D) (p : D × State D)
    (hp : p = fbstpLoop env 9 0
      (if env.lt (STreg 0 s0) env.zero = true then env.neg (STreg 0 s0) else STreg 0 s0, s0))
    (tc : Nat)
    (htc : tc = if env.lt (STreg 0 p.2) env.zero = true then
        env.toUint8 (env.floor (env.fmod p.1 env.ten)) % 256 ||| 0x80
      else env.toUint8 (env.floor (env.fmod p.1 env.ten)) % 256) :
    ∃ l, (writememb p.2.easeg (p.2.eaaddr + 9) tc { p.2 with tempc := tc }).bus.log
        = s0.bus.log ++ l ∧
      writtenBytes l = packedBcd env (STreg 0 s0) := by
  obtain ⟨l, h1, h2, h3⟩ := fbstpLoop_written env 9 0
    (if env.lt (STreg 0 s0) env.zero = true then env.neg (STreg 0 s0) else STreg 0 s0, s0)
  obtain ⟨l', hb⟩ := fbstpLoop_busOnly env 9 0
    (if env.lt (STreg 0 s0) env.zero = true then env.neg (STreg 0 s0) else STreg 0 s0, s0)
  rw [← hp] at h1 h3 hb
  have hst : STreg 0 p.2 = STreg 0 s0 := STreg_of_regs hb.regs 0
  have hw := (busWrite_busOnly 1 p.2.easeg ((p.2.eaaddr + 9) % 2 ^ 32) tc
    ({ p.2 with tempc := tc } : State D)).log
  refine ⟨l ++ [⟨true, linear p.2.easeg ((p.2.eaaddr + 9) % 2 ^ 32), 1,
    anyFault p.2.bus.wfault (linear p.2.easeg ((p.2.eaaddr + 9) % 2 ^ 32)) 1, tc % 256 ^ 1⟩],
    ?_, ?_⟩
  · simp only [writememb]
    rw [hw]
    show p.2.bus.log ++ _ = _
    rw [h1, List.append_assoc]
  · rw [writtenBytes_append, writtenBytes_single, h2]
    simp only [packedBcd, bytesLE]
    rw [htc, hst, h3]


theorem fbstp_written_drop (env : Env D) (s0 : State D) (p : D × State D)
    (hp : p = fbstpLoop env 9 0
      (if env.lt (STreg 0 s0) env.zero = true then env.neg (STreg 0 s0) else STreg 0 s0, s0))
    (tc : Nat)
    (htc : tc = if env.lt (STreg 0 p.2) env.zero = true then
        env.toUint8 (env.floor (env.fmod p.1 env.ten)) % 256 ||| 0x80
      else env.toUint8 (env.floor (env.fmod p.1 env.ten)) % 256) :
    writtenBytes (List.drop s0.bus.log.length
        (writememb p.2.easeg (p.2.eaaddr + 9) tc { p.2 with tempc := tc }).bus.log)
      = packedBcd env (STreg 0 s0) := by
  obtain ⟨l, hl, hw⟩ := fbstp_written_core env s0 p hp tc htc
  rw [hl, List.drop_left]
  exact hw

theorem x87_st80_written_drop (env : Env D) (v : D) (s0 : State D) :
    writtenBytes (List.drop s0.bus.log.length (x87_st80 env v s0).bus.log)
      = bytesLE 10 (env.toExt80 v) := by
  obtain ⟨l, hl, hw⟩ := x87_st80_written env v s0
  rw [hl, List.drop_left]
  exact hw

theorem log_of_pop_clock_ite (c : Prop) [Decidable c] (k : Nat) (t : State D) :
    (if c then ((1 : Nat), t) else (0, CLOCK_CYCLES k (x87_pop t))).2.bus.log = t.bus.log := by
  split <;> rfl

theorem accesses_of_log (s t : State D) (l : List Access) (h : t.bus.log = s.bus.log ++ l) :
    accessesBetween s t = l := by
  simp only [accessesBetween, h, List.drop_left]

/-- The bytes a store-and-pop hands to the bus are the encoding of the `ST(0)` of
the state it was called in. -/
theorem store_pop_written (env : Env D) (op : Op) (a : AddrSize) (fd : Nat) (s : State D)
    (hop : op.isStorePop = true) :
    writtenBytes (accessesBetween s (run env op a fd s).2) = storeImage env s op := by
  have e64 : (2 : Nat) ^ 64 = 256 ^ 8 := by norm_num
  cases op <;> simp [Op.isStorePop] at hop
  case FBSTP =>
    cases a <;> simp only [run, FBSTP_a16, FBSTP_a32, accessesBetween] <;>
      rw [log_of_pop_ite]
    · exact fbstp_written_drop env (fetch_ea_16 env fd s) _ rfl _ rfl
    · exact fbstp_written_drop env (fetch_ea_32 env fd s) _ rfl _ rfl
  case FSTPe =>
    cases a <;> simp only [run, opFSTPe_a16, opFSTPe_a32, accessesBetween] <;>
      rw [log_of_pop_clock_ite]
    · exact x87_st80_written_drop env _ (fetch_ea_16 env fd s)
    · exact x87_st80_written_drop env _ (fetch_ea_32 env fd s)
  all_goals
    cases a <;>
    simp only [run, opFISTPiw_a16, opFISTPiw_a32, FISTPiq_a16, FISTPiq_a32,
      opFISTPil_a16, opFISTPil_a32, opFSTPd_a16, opFSTPd_a32,
      opFSTPs_a16, opFSTPs_a32, accessesBetween] <;>
    rw [log_of_pop_clock_ite] <;>
    simp only [seteaw, seteal, seteaq]
  all_goals
    first
    | rw [(busWrite_busOnly _ (fetch_ea_16 env fd s).easeg (fetch_ea_16 env fd s).eaaddr _
        (fetch_ea_16 env fd s)).log,
        show (fetch_ea_16 env fd s).bus.log = s.bus.log from rfl, List.drop_left,
        writtenBytes_single]
    | rw [(busWrite_busOnly _ (fetch_ea_32 env fd s).easeg (fetch_ea_32 env fd s).eaaddr _
        (fetch_ea_32 env fd s)).log,
        show (fetch_ea_32 env fd s).bus.log = s.bus.log from rfl, List.drop_left,
        writtenBytes_single]
    first
    | rfl
    | (simp only [storeImage, fetch_ea_16, fetch_ea_32, STreg]
       split
       · rw [lowBits_toInt64, e64, bytesLE_mod]
       · rfl)

/-! ## Properties of the specification: stack discipline, shadow, timing, atomicity -/

/-- C11: a successful integer load is an exact push.  For every int16 `v`
(`FILDiw`, `w = 2`) and every int32 `v` (`FILDil`, `w = 4`) whose pattern the
operand holds, every state entered with the abort flag clear and every address
size: if no bus access of the call faulted, the handler returns 0, the new
`TOP` is `(t - 1) mod 8` for the old top pointer `t`, `ST(0)` is the
conversion of the integer `v`, and every physical slot other than the new top
holds the value it held before. -/
theorem int_load_is_push (env : Env D) (a : AddrSize) (fd : Nat) (s : State D) (v : Int)
    (op : Op) (w : Nat)
    (hops : (op = Op.FILDiw ∧ w = 2) ∨ (op = Op.FILDil ∧ w = 4))
    (hlo : -2 ^ (8 * w - 1) ≤ v) (hhi : v < 2 ^ (8 * w - 1))
    (hv : loadLE s.bus.bytes (linear (resolved env a fd).1 (resolved env a fd).2) w
      = lowBits (8 * w) v)
    (h0 : s.abrt = 0) (hnf : faultedBetween s (run env op a fd s).2 = false) :
    (run env op a fd s).1 = 0 ∧
    ((run env op a fd s).2.TOP : Int) = ((s.TOP : Int) - 1) % 8 ∧
    STreg 0 (run env op a fd s).2 = env.ofInt v ∧
    ∀ i, i ≠ (run env op a fd s).2.TOP → (run env op a fd s).2.ST i = s.ST i := by
  have hret := ret_zero_of_no_fault env op a fd s h0 hnf
  have hload : op.isLoad = true := by
    rcases hops with ⟨rfl, _⟩ | ⟨rfl, _⟩ <;> rfl
  have hq : op ≠ Op.FILDiq := by
    rcases hops with ⟨rfl, _⟩ | ⟨rfl, _⟩ <;> simp
  obtain ⟨x, hregs⟩ := load_regs env op a fd s hload hq hret
  have htop : (run env op a fd s).2.TOP = (s.TOP + 7) % 8 := congrArg RegStack.TOP hregs
  have hst : (run env op a fd s).2.ST = Function.update s.ST ((s.TOP + 7) % 8) x :=
    congrArg RegStack.ST hregs
  refine ⟨hret, ?_, ?_, ?_⟩
  · rw [htop]; omega
  · rcases hops with ⟨rfl, rfl⟩ | ⟨rfl, rfl⟩
    · rw [(load_ok env a fd s).1 hret, hv,
        toInt16_lowBits v (by simpa using hlo) (by simpa using hhi)]
    · rw [(load_ok env a fd s).2.1 hret, hv,
        toInt32_lowBits v (by simpa using hlo) (by simpa using hhi)]
  · intro i hi
    rw [htop] at hi
    rw [hst, Function.update_noteq hi]

/-- Witness of C11: `FILDiw` of the bytes `FE FF` from `TOP = 0` returns 0,
moves `TOP` to 7 and leaves the number `-2` in `ST(0)`. -/
theorem int_load_is_push_witness :
    (run exactEnv Op.FILDiw AddrSize.a16 0 (demoState 0 (memOf [0xFE, 0xFF]))).1 = 0 ∧
    (run exactEnv Op.FILDiw AddrSize.a16 0 (demoState 0 (memOf [0xFE, 0xFF]))).2.TOP = 7 ∧
    STreg 0 (run exactEnv Op.FILDiw AddrSize.a16 0 (demoState 0 (memOf [0xFE, 0xFF]))).2
      = ((-2 : Int) : ℚ) :=
  have h := int_load_is_push exactEnv AddrSize.a16 0 (demoState 0 (memOf [0xFE, 0xFF])) (-2)
    Op.FILDiw 2 (Or.inl ⟨rfl, rfl⟩) (by norm_num) (by norm_num) (by decide) rfl (by decide)
  ⟨h.1, by decide, h.2.2.1⟩

/-- C12: a successful store-and-pop pops exactly once.  For every
store-and-pop handler (`FISTPiw`, `FISTPil`, `FISTPiq`, `FSTPs`, `FSTPd`,
`FSTPe`, `FBSTP`, both address sizes) and every state with top pointer `t`,
entered with the abort flag clear: if no bus write of the call faulted, the
handler returns 0, slot `t` is tagged empty, the new `TOP` is `(t + 1) mod 8`,
the tags of the other slots, all register values and all shadows are those of
before, and the bytes handed to the bus are the external encoding of the
`ST(0)` of before the pop. -/
theorem store_pop_pops_once (env : Env D) (op : Op) (a : AddrSize) (fd : Nat) (s : State D)
    (hop : op.isStorePop = true) (h0 : s.abrt = 0)
    (hnf : faultedBetween s (run env op a fd s).2 = false) :
    (run env op a fd s).1 = 0 ∧
    ((run env op a fd s).2.tag s.TOP).cls = TagClass.empty ∧
    (run env op a fd s).2.TOP = (s.TOP + 1) % 8 ∧
    (∀ i, i ≠ s.TOP → (run env op a fd s).2.tag i = s.tag i) ∧
    (run env op a fd s).2.ST = s.ST ∧
    (run env op a fd s).2.MM = s.MM ∧
    writtenBytes (accessesBetween s (run env op a fd s).2) = storeImage env s op := by
  have hret := ret_zero_of_no_fault env op a fd s h0 hnf
  have hregs := store_pop_regs env op a fd s hop hret
  have htag : (run env op a fd s).2.tag
      = Function.update s.tag s.TOP ⟨TagClass.empty, false⟩ := congrArg RegStack.tag hregs
  refine ⟨hret, ?_, congrArg RegStack.TOP hregs, ?_, congrArg RegStack.ST hregs,
    congrArg RegStack.MM hregs, store_pop_written env op a fd s hop⟩
  · rw [htag, Function.update_same]
  · intro i hi
    rw [htag, Function.update_noteq hi]

/-- Witness of C12: `FISTPiw` of the value 7 from `TOP = 0` returns 0, moves
`TOP` to 1 and writes the bytes `07 00`. -/
theorem store_pop_pops_once_witness :
    (run exactEnv Op.FISTPiw AddrSize.a16 100 (demoState (exactEnv.ofInt 7) (fun _ => 0))).1 = 0 ∧
    (run exactEnv Op.FISTPiw AddrSize.a16 100
      (demoState (exactEnv.ofInt 7) (fun _ => 0))).2.TOP = 1 ∧
    writtenBytes (accessesBetween (demoState (exactEnv.ofInt 7) (fun _ => 0))
      (run exactEnv Op.FISTPiw AddrSize.a16 100
        (demoState (exactEnv.ofInt 7) (fun _ => 0))).2) = [7, 0] :=
  have h := store_pop_pops_once exactEnv Op.FISTPiw AddrSize.a16 100
    (demoState (exactEnv.ofInt 7) (fun _ => 0)) rfl rfl (by decide)
  ⟨h.1, h.2.2.1, h.2.2.2.2.2.2.trans (by
    rw [show storeImage exactEnv (demoState (exactEnv.ofInt 7) (fun _ => 0)) Op.FISTPiw
      = bytesLE 2 (Int.toNat (exactEnv.x87_fround (exactEnv.ofInt 7) % 2 ^ 16)) from rfl,
      exactEnv_round]
    decide)⟩

/-- C13: stack discipline.  From every state whose `TOP` is in `0 .. 7`, any
eight load handlers that all return 0, followed by any eight store-and-pop
handlers that all return 0, leave `TOP` at its original value. -/
theorem eight_pushes_eight_pops (env : Env D) (loads stores : List Call) (s : State D)
    (htop : s.TOP < 8)
    (hl8 : loads.length = 8) (hl : ∀ c ∈ loads, c.op.isLoad = true)
    (hlok : allOk env loads s = true)
    (hs8 : stores.length = 8) (hs : ∀ c ∈ stores, c.op.isStorePop = true)
    (hsok : allOk env stores (runCalls env loads s) = true) :
    (runCalls env stores (runCalls env loads s)).TOP = s.TOP := by
  obtain ⟨h1, _⟩ := loads_top env loads s hl hlok
  obtain ⟨h2, h3⟩ := pops_top env stores (runCalls env loads s) hs hsok
  have hne : stores ≠ [] := by
    intro h; rw [h] at hs8; simp at hs8
  have h4 := h3 hne
  rw [hs8] at h2
  rw [hl8] at h1
  omega

/-- Witness of C13: eight `FLDd` and then eight `FSTPd` from `TOP = 0` end at
`TOP = 0`. -/
theorem eight_pushes_eight_pops_witness :
    (runCalls exactEnv (List.replicate 8 ⟨Op.FSTPd, AddrSize.a32, 64⟩)
      (runCalls exactEnv (List.replicate 8 ⟨Op.FLDd, AddrSize.a16, 0⟩)
        (demoState 0 (fun _ => 0)))).TOP = 0 :=
  eight_pushes_eight_pops exactEnv (List.replicate 8 ⟨Op.FLDd, AddrSize.a16, 0⟩)
    (List.replicate 8 ⟨Op.FSTPd, AddrSize.a32, 64⟩) (demoState 0 (fun _ => 0))
    (by decide) rfl (by decide) (by decide) rfl (by decide) (by decide)

/-- C14: range of `TOP`.  From a start state with `TOP` in `0 .. 7`, every
state reached by handler calls (and by steps of the rest of the machine that
leave the register stack alone) has `TOP` in `0 .. 7`, and so has the state
after one more call of any handler, whether the call succeeds or faults. -/
theorem top_range_invariant (env : Env D) (s0 s : State D) (h0 : s0.TOP < 8)
    (hr : Reachable env s0 s) :
    s.TOP < 8 ∧ ∀ op a fd, (run env op a fd s).2.TOP < 8 := by
  have hs : s.TOP < 8 := by
    induction hr with
    | start => exact h0
    | call t op a fd _ ih => exact run_top_lt env op a fd t ih
    | other t u _ hregs ih =>
      have : u.TOP = t.TOP := congrArg RegStack.TOP hregs
      rw [this]; exact ih
  exact ⟨hs, fun op a fd => run_top_lt env op a fd s hs⟩

/-- Witness of C14: the state after a faulting `FBSTP` that follows an `FLDd`
has `TOP` in `0 .. 7`. -/
theorem top_range_invariant_witness :
    (run exactEnv Op.FBSTP AddrSize.a32 100
      (run exactEnv Op.FLDd AddrSize.a16 0 (faultyState 7 [103])).2).2.TOP < 8 :=
  (top_range_invariant exactEnv (faultyState 7 [103])
    (run exactEnv Op.FLDd AddrSize.a16 0 (faultyState 7 [103])).2 (by decide)
    (Reachable.call _ _ _ _ Reachable.start)).2 Op.FBSTP AddrSize.a32 100

/-- C15: 64-bit store selection.  For every state, `FISTPiq` makes one bus
access, an 8-byte write at its operand, whose data is the shadow `MM[TOP]` of
the top slot when the tag of that slot has the `uint64` bit set, and the low
64 bits of `x87_fround (ST(0))` when the bit is clear.  No other handler reads
the shadow: with any other content of the shadow array, every other handler
returns the same value and ends in the same state, shadow array apart. -/
theorem fistpq_selects_shadow (env : Env D) (a : AddrSize) (fd : Nat) (s : State D) :
    accessesBetween s (run env Op.FISTPiq a fd s).2 =
      [⟨true, linear (resolved env a fd).1 (resolved env a fd).2, 8,
        anyFault s.bus.wfault (linear (resolved env a fd).1 (resolved env a fd).2) 8,
        if (s.tag s.TOP).uint64 = true then s.MM s.TOP % 2 ^ 64
        else lowBits 64 (env.x87_fround (STreg 0 s))⟩] ∧
    ∀ (op : Op) (m : Nat → Nat), op ≠ Op.FISTPiq →
      (run env op a fd (setMM m s)).1 = (run env op a fd s).1 ∧
      setMM (fun _ => 0) (run env op a fd (setMM m s)).2
        = setMM (fun _ => 0) (run env op a fd s).2 := by
  refine ⟨fistpq_log env a fd s, ?_⟩
  intro op m hne
  by_cases hq : op = Op.FILDiq
  · subst hq
    exact fildq_setMM env a fd s m
  · rw [run_setMM env op a fd s m hne hq]
    exact ⟨rfl, rfl⟩

/-- Witness of C15: with the bit set and the shadow `0x1122334455667788`,
`FISTPiq` writes that integer, and `FSTPd` returns the same value whatever
the shadow array holds. -/
theorem fistpq_selects_shadow_witness :
    (accessesBetween
        { demoState 7 (fun _ => 0) with
          tag := fun _ => ⟨TagClass.valid, true⟩, MM := fun _ => 0x1122334455667788 }
        (run exactEnv Op.FISTPiq AddrSize.a16 100
          { demoState 7 (fun _ => 0) with
            tag := fun _ => ⟨TagClass.valid, true⟩,
            MM := fun _ => 0x1122334455667788 }).2).map (fun x => x.data)
      = [0x1122334455667788] ∧
    (run exactEnv Op.FSTPd AddrSize.a16 100
        (setMM (fun _ => 5)
          { demoState 7 (fun _ => 0) with
            tag := fun _ => ⟨TagClass.valid, true⟩, MM := fun _ => 0x1122334455667788 })).1
      = (run exactEnv Op.FSTPd AddrSize.a16 100
          { demoState 7 (fun _ => 0) with
            tag := fun _ => ⟨TagClass.valid, true⟩, MM := fun _ => 0x1122334455667788 }).1 :=
  have h := fistpq_selects_shadow exactEnv AddrSize.a16 100
    { demoState 7 (fun _ => 0) with
      tag := fun _ => ⟨TagClass.valid, true⟩, MM := fun _ => 0x1122334455667788 }
  ⟨(congrArg (List.map (fun x => x.data)) h.1).trans (by decide),
    (h.2 Op.FSTPd (fun _ => 5) (by decide)).1⟩

/-- C16: no stale shadow.  After a successful `FILDiw`, `FILDil`, `FLDs`,
`FLDd` or `FLDe`, from any state (whatever tag and shadow the slot that
becomes the top held), the tag of the new top slot does not carry the
`uint64` bit, and the `FISTPiq` that follows writes the low 64 bits of
`x87_fround` of the value just loaded, not the shadow. -/
theorem no_stale_shadow (env : Env D) (op : Op) (a a2 : AddrSize) (fd fd2 : Nat) (s : State D)
    (hop : op = Op.FILDiw ∨ op = Op.FILDil ∨ op = Op.FLDs ∨ op = Op.FLDd ∨ op = Op.FLDe)
    (h : (run env op a fd s).1 = 0) :
    ((run env op a fd s).2.tag (run env op a fd s).2.TOP).uint64 = false ∧
    (accessesBetween (run env op a fd s).2
        (run env Op.FISTPiq a2 fd2 (run env op a fd s).2).2).map (fun x => x.data)
      = [lowBits 64 (env.x87_fround (STreg 0 (run env op a fd s).2))] := by
  have hload : op.isLoad = true := by
    rcases hop with rfl | rfl | rfl | rfl | rfl <;> rfl
  have hq : op ≠ Op.FILDiq := by
    rcases hop with rfl | rfl | rfl | rfl | rfl <;> simp
  obtain ⟨x, hregs⟩ := load_regs env op a fd s hload hq h
  have htop : (run env op a fd s).2.TOP = (s.TOP + 7) % 8 := congrArg RegStack.TOP hregs
  have htag : (run env op a fd s).2.tag
      = Function.update s.tag ((s.TOP + 7) % 8) ⟨env.classify x, false⟩ :=
    congrArg RegStack.tag hregs
  have hbit : ((run env op a fd s).2.tag (run env op a fd s).2.TOP).uint64 = false := by
    rw [htag, htop, Function.update_same]
  refine ⟨hbit, ?_⟩
  rw [fistpq_log, hbit]
  simp

/-- Witness of C16: every slot carries the bit and a shadow; after `FLDd` the
new top slot does not carry the bit. -/
theorem no_stale_shadow_witness :
    ((run exactEnv Op.FLDd AddrSize.a16 0
        { demoState 7 (fun _ => 0) with
          tag := fun _ => ⟨TagClass.valid, true⟩, MM := fun _ => 99 }).2.tag
      (run exactEnv Op.FLDd AddrSize.a16 0
        { demoState 7 (fun _ => 0) with
          tag := fun _ => ⟨TagClass.valid, true⟩, MM := fun _ => 99 }).2.TOP).uint64 = false :=
  (no_stale_shadow exactEnv Op.FLDd AddrSize.a16 AddrSize.a16 0 100
    { demoState 7 (fun _ => 0) with tag := fun _ => ⟨TagClass.valid, true⟩, MM := fun _ => 99 }
    (Or.inr (Or.inr (Or.inr (Or.inl rfl)))) (by decide)).1

/-- C17, evaluated: `FBSTP` of `-12345` with no fault returns 0 and reports no
cycle cost to the clock, where `FISTPiq` from the same state returns 0 and
reports its one cost of 29. -/
theorem fbstp_reports_no_cycles :
    (run exactEnv Op.FBSTP AddrSize.a16 100 (demoState (-12345) (fun _ => 0))).1 = 0 ∧
    (run exactEnv Op.FBSTP AddrSize.a16 100 (demoState (-12345) (fun _ => 0))).2.clock = [] ∧
    (run exactEnv Op.FISTPiq AddrSize.a16 100 (demoState (-12345) (fun _ => 0))).1 = 0 ∧
    (run exactEnv Op.FISTPiq AddrSize.a16 100 (demoState (-12345) (fun _ => 0))).2.clock
      = [29] := by
  refine ⟨by decide, ?_, by decide, ?_⟩
  · exact run_clock exactEnv Op.FBSTP AddrSize.a16 100 _ (by decide)
  · exact run_clock exactEnv Op.FISTPiq AddrSize.a16 100 _ (by decide)

/-- C18 fails as stated, counterexample: `FBSTP` of `-12345` at offset 4090 with the addresses
from 4096 on faulting is entered with the abort flag clear and returns
failure, and the byte at 4090, which was 0, holds `0x45` afterwards. -/
theorem fbstp_partial_write :
    (faultyState (-12345) [4096, 4097, 4098, 4099]).abrt = 0 ∧
    (run exactEnv Op.FBSTP AddrSize.a16 4090
      (faultyState (-12345) [4096, 4097, 4098, 4099])).1 = 1 ∧
    (faultyState (-12345) [4096, 4097, 4098, 4099]).bus.bytes 4090 = 0 ∧
    (run exactEnv Op.FBSTP AddrSize.a16 4090
      (faultyState (-12345) [4096, 4097, 4098, 4099])).2.bus.bytes 4090 = 0x45 := by
  refine ⟨rfl, by decide, rfl, ?_⟩
  have h := fbstp_first_byte exactEnv AddrSize.a16 4090
    (faultyState (-12345) [4096, 4097, 4098, 4099]) (by decide)
  have e : linear (resolved exactEnv AddrSize.a16 4090).1
      (((resolved exactEnv AddrSize.a16 4090).2 + 0) % 2 ^ 32) = 4090 := by decide
  rw [e] at h
  have hst : STreg 0 (faultyState (-12345) [4096, 4097, 4098, 4099])
      = (((-12345 : Int)) : ℚ) := by
    simp [STreg, faultyState, demoState]
  have hmag := ieee_abs exactEnv (-12345)
  have hmag2 : (if exactEnv.lt (((-12345 : Int)) : ℚ) exactEnv.zero = true
      then exactEnv.neg (((-12345 : Int)) : ℚ) else (((-12345 : Int)) : ℚ))
      = (((12345 : Nat)) : ℚ) := hmag
  rw [h, hst, hmag2]
  simp only [packedBcdLoop, List.head!, exactEnv_digit, exactEnv_drop]
  decide

/-- C18 for the handlers that make at most one bus write: for every handler
other than `FBSTP` and `FSTPe` and every fault pattern of the bus, entered
with the abort flag clear: if the handler returns failure, every byte of
guest memory is as before the call. -/
theorem single_write_atomic (env : Env D) (op : Op) (a : AddrSize) (fd : Nat) (s : State D)
    (hb : op ≠ Op.FBSTP) (he : op ≠ Op.FSTPe) (h0 : s.abrt = 0)
    (h : (run env op a fd s).1 ≠ 0) :
    (run env op a fd s).2.bus.bytes = s.bus.bytes := by
  by_cases hl : op.isLoad = true
  · exact load_bytes env op a fd s hl
  · exact single_store_bytes env op a fd s (by simpa using hl) hb he h0 h

/-- Witness of C18 for a single write: `FSTPd` at offset 4090 with the addresses from 4096
on faulting returns failure and leaves the byte at 4090 as it was. -/
theorem single_write_atomic_witness :
    (run exactEnv Op.FSTPd AddrSize.a16 4090
      (faultyState (-12345) [4096, 4097, 4098, 4099])).1 ≠ 0 ∧
    (run exactEnv Op.FSTPd AddrSize.a16 4090
      (faultyState (-12345) [4096, 4097, 4098, 4099])).2.bus.bytes
      = (faultyState (-12345) [4096, 4097, 4098, 4099]).bus.bytes :=
  ⟨by decide, single_write_atomic exactEnv Op.FSTPd AddrSize.a16 4090
    (faultyState (-12345) [4096, 4097, 4098, 4099]) (by decide) (by decide) rfl (by decide)⟩

end X87

namespace IM1024

/-! ## The FIFO at its first resize -/

/-- While fewer than 4096 bytes were written and none read, the FIFO of
`im1024_init` has not been resized and the write pointer counts the bytes. -/
theorem writeAll_below (vals : List Nat) : ∀ dev : Fifo,
    dev.fifo_len = 4096 → dev.fifo_rdptr = 0 → dev.fifo_wrptr + vals.length ≤ 4095 →
    (writeAll dev vals).fifo_len = 4096 ∧ (writeAll dev vals).fifo_rdptr = 0 ∧
      (writeAll dev vals).fifo_wrptr = dev.fifo_wrptr + vals.length := by
  induction vals with
  | nil => intro dev h1 h2 _; exact ⟨h1, h2, rfl⟩
  | cons v vs ih =>
    intro dev h1 h2 h3
    simp only [List.length_cons] at h3
    have hnot : ¬ ((dev.fifo_wrptr + 1) % 2 ^ 32 % dev.fifo_len = dev.fifo_rdptr) := by
      rw [h1, h2]; omega
    have hstep : fifo_write true dev v =
        { fifo := Function.update dev.fifo dev.fifo_wrptr (v % 256), fifo_len := dev.fifo_len,
          fifo_wrptr := dev.fifo_wrptr + 1, fifo_rdptr := dev.fifo_rdptr } := by
      unfold fifo_write
      rw [if_neg hnot]
      have e : (dev.fifo_wrptr + 1) % 2 ^ 32 = dev.fifo_wrptr + 1 := by omega
      simp only [e]
      rw [if_neg (by rw [h1]; omega)]
    simp only [writeAll, hstep]
    obtain ⟨a, b, c⟩ := ih ⟨Function.update dev.fifo dev.fifo_wrptr (v % 256), dev.fifo_len,
      dev.fifo_wrptr + 1, dev.fifo_rdptr⟩ h1 h2 (by show dev.fifo_wrptr + 1 + vs.length ≤ 4095; omega)
    refine ⟨a, b, ?_⟩
    rw [c]
    simp only [List.length_cons]
    omega

/-- The write that finds the FIFO of `im1024_init` full with the read pointer at
0 leaves the write pointer at 0 too. -/
theorem fifo_write_full (dev : Fifo) (v : Nat) (h1 : dev.fifo_len = 4096)
    (h2 : dev.fifo_rdptr = 0) (h3 : dev.fifo_wrptr = 4095) :
    (fifo_write true dev v).fifo_wrptr = 0 ∧ (fifo_write true dev v).fifo_rdptr = 0 := by
  unfold fifo_write
  rw [h1, h2, h3]
  simp

theorem writeAll_append (l m : List Nat) : ∀ dev, writeAll dev (l ++ m) = writeAll (writeAll dev l) m := by
  induction l with
  | nil => intro dev; rfl
  | cons v l ih => intro dev; exact ih _

/-- After 4096 writes and no read the FIFO of `im1024_init` reports empty. -/
theorem writeAll_4096 (buf : Nat → Nat) (vals : List Nat) (h : vals.length = 4096) :
    (fifo_read (writeAll (im1024_init buf) vals)).1 = -1 := by
  obtain ⟨l, v, rfl⟩ : ∃ l v, vals = l ++ [v] := by
    have hne : vals ≠ [] := by intro h0; rw [h0] at h; simp at h
    exact ⟨vals.dropLast, vals.getLast hne, (List.dropLast_append_getLast hne).symm⟩
  have hl : l.length = 4095 := by simp at h; omega
  obtain ⟨a, b, c⟩ := writeAll_below l (im1024_init buf) rfl rfl (by simp [im1024_init, hl])
  rw [writeAll_append]
  simp only [writeAll]
  have hc : (writeAll (im1024_init buf) l).fifo_wrptr = 4095 := by
    rw [c, hl]; rfl
  obtain ⟨hw, hr⟩ := fifo_write_full _ v a b hc
  unfold fifo_read
  rw [if_pos (hw.trans hr.symm)]

/-- C20, evaluated: after `im1024_init`, 4096 calls of
`fifo_write` with the byte `0x41`, every `realloc` succeeding and no read in
between, the next `fifo_read` returns `-1`, the answer of an empty FIFO. -/
theorem fifo_loses_4096_bytes :
    (fifo_read (writeAll (im1024_init (fun _ => 0)) (List.replicate 4096 0x41))).1 = -1 :=
  writeAll_4096 _ _ (List.length_replicate _ _)

end IM1024

namespace IM1024

/-! ## Lemmas: parameter reads, pixel writes, the runs of `IMAGEW` -/

theorem wrap16_id (n : Int) (h1 : -32768 ≤ n) (h2 : n < 32768) : wrap16 n = n := by
  unfold wrap16
  omega

theorem param_byte_cons (p : Pgc) (b : Nat) (bs : List Nat) (hcl : p.clcur = none)
    (hin : p.input = b :: bs) :
    pgc_param_byte p = some (b % 256, { p with input := bs }) := by
  unfold pgc_param_byte
  rw [hcl]
  simp only []
  rw [hin]

theorem param_byte_nil (p : Pgc) (hcl : p.clcur = none) (hin : p.input = []) :
    pgc_param_byte p = none := by
  unfold pgc_param_byte
  rw [hcl]
  simp only []
  rw [hin]

/-- A parameter word is read back from its two bytes. -/
theorem param_word_bytes (p : Pgc) (v : Int) (rest : List Nat) (hcl : p.clcur = none)
    (hin : p.input = wordBytes v ++ rest) (h1 : -32768 ≤ v) (h2 : v < 32768) :
    pgc_param_word p = some (v, { p with input := rest }) := by
  unfold pgc_param_word
  rw [param_byte_cons p _ ((v / 256 % 256).toNat :: rest) hcl (by rw [hin]; rfl)]
  simp only []
  rw [param_byte_cons { p with input := (v / 256 % 256).toNat :: rest }
    (v / 256 % 256).toNat rest hcl rfl]
  simp only []
  have e : wrap16 (((v % 256).toNat % 256 + 256 * ((v / 256 % 256).toNat % 256) : Nat) : Int)
      = v := by
    unfold wrap16
    omega
  rw [e]

theorem rowPixels_append (row : Int) (l m : List Nat) : ∀ col : Int,
    rowPixels row col (l ++ m) = rowPixels row col l ++ rowPixels row (col + l.length) m := by
  induction l with
  | nil => intro col; simp [rowPixels]
  | cons v vs ih =>
    intro col
    show (col, row, v) :: rowPixels row (col + 1) (vs ++ m) = _
    rw [ih]
    show _ = (col, row, v) :: rowPixels row (col + 1) vs ++ _
    have e : col + 1 + (vs.length : Int) = col + ((v :: vs).length : Int) := by
      simp only [List.length_cons]; push_cast; ring
    rw [e]
    rfl

theorem wrote_refl (p : Pgc) (row col : Int) : Wrote p p row col [] p.input :=
  ⟨rfl, rfl, rfl, rfl, rfl, rfl, rfl, rfl, rfl, rfl, by simp [rowPixels], fun _ _ _ => rfl⟩

theorem wrote_trans {p q r : Pgc} {row col : Int} {v1 v2 r1 r2 : List Nat}
    (h1 : Wrote p q row col v1 r1) (h2 : Wrote q r row (col + v1.length) v2 r2) :
    Wrote p r row col (v1 ++ v2) r2 where
  vp_x1 := h2.vp_x1.trans h1.vp_x1
  vp_y1 := h2.vp_y1.trans h1.vp_y1
  vp_x2 := h2.vp_x2.trans h1.vp_x2
  vp_y2 := h2.vp_y2.trans h1.vp_y2
  maxw := h2.maxw.trans h1.maxw
  maxh := h2.maxh.trans h1.maxh
  draw_mode := h2.draw_mode.trans h1.draw_mode
  ascii_mode := h2.ascii_mode.trans h1.ascii_mode
  clcur := h2.clcur.trans h1.clcur
  input := h2.input
  pixlog := by rw [h2.pixlog, h1.pixlog, rowPixels_append, List.append_assoc]
  frame := by
    intro a b hab
    rw [h2.frame a b (by
      intro h; apply hab
      simp only [List.length_append]; push_cast; omega),
      h1.frame a b (by
      intro h; apply hab
      simp only [List.length_append]; push_cast; omega)]

/-- One call of `pgc_write_pixel` with an ink below 256. -/
theorem wrote_pixel (p : Pgc) (row col : Int) (v : Nat) (hv : v < 256) :
    Wrote p (pgc_write_pixel p col row v) row col [v] p.input := by
  have e : v % 256 = v := Nat.mod_eq_of_lt hv
  unfold pgc_write_pixel
  simp only [e]
  split
  · exact ⟨rfl, rfl, rfl, rfl, rfl, rfl, rfl, rfl, rfl, rfl, rfl, fun _ _ _ => rfl⟩
  · refine ⟨rfl, rfl, rfl, rfl, rfl, rfl, rfl, rfl, rfl, rfl, rfl, ?_⟩
    intro a b hab
    show (if a = col ∧ b = row then v else p.vram a b) = p.vram a b
    rw [if_neg]
    rintro ⟨rfl, rfl⟩
    apply hab
    simp

/-- A parameter read outside a command list. -/
theorem wrote_read (p : Pgc) (row col : Int) (bs : List Nat) :
    Wrote p { p with input := bs } row col [] bs :=
  ⟨rfl, rfl, rfl, rfl, rfl, rfl, rfl, rfl, rfl, rfl, by simp [rowPixels], fun _ _ _ => rfl⟩

/-- The literal run: `min n w` bytes are read and written, `w` being the
number of columns left. -/
theorem literal_run (col2 row : Int) (hc2 : col2 < 32767) : ∀ (n : Nat) (col1 : Int) (p : Pgc)
    (s : List Nat), p.clcur = none → p.input = s → (∀ b ∈ s, b < 256) → -32768 ≤ col1 →
    col1 ≤ col2 + 1 → min n (col2 + 1 - col1).toNat ≤ s.length →
    ∃ q, imagewLiteral n col1 col2 row p
        = (true, col1 + (min n (col2 + 1 - col1).toNat : Nat), q) ∧
      Wrote p q row col1 (s.take (min n (col2 + 1 - col1).toNat))
        (s.drop (min n (col2 + 1 - col1).toNat)) := by
  intro n
  induction n with
  | zero =>
    intro col1 p s _ hin _ _ _ _
    refine ⟨p, ?_, ?_⟩
    · simp [imagewLiteral]
    · simp only [Nat.zero_min, List.take_zero, List.drop_zero]
      rw [← hin]
      exact wrote_refl p row col1
  | succ n ih =>
    intro col1 p s hcl hin hb hlo hhi hlen
    by_cases hc : col1 ≤ col2
    · have hw : (col2 + 1 - col1).toNat = (col2 + 1 - (col1 + 1)).toNat + 1 := by omega
      have hmin : min (n + 1) (col2 + 1 - col1).toNat
          = min n (col2 + 1 - (col1 + 1)).toNat + 1 := by
        rw [hw]; omega
      rw [hmin] at hlen ⊢
      obtain ⟨b, bs, rfl⟩ : ∃ b bs, s = b :: bs := by
        cases s with
        | nil => simp at hlen
        | cons b bs => exact ⟨b, bs, rfl⟩
      have hb256 : b < 256 := hb b (by simp)
      have hstep : imagewLiteral (n + 1) col1 col2 row p
          = imagewLiteral n (col1 + 1) col2 row
              (pgc_write_pixel { p with input := bs } col1 row b) := by
        show (if col1 ≤ col2 then _ else _) = _
        rw [if_pos hc, param_byte_cons p b bs hcl hin]
        simp only []
        rw [wrap16_id (col1 + 1) (by omega) (by omega), Nat.mod_eq_of_lt hb256]
      have hp1 := wrote_pixel { p with input := bs } row col1 b hb256
      obtain ⟨q, hq, hW⟩ := ih (col1 + 1) (pgc_write_pixel { p with input := bs } col1 row b) bs
        (hp1.clcur.trans hcl) hp1.input (fun x hx => hb x (by simp [hx])) (by omega) (by omega)
        (by simp only [List.length_cons] at hlen; omega)
      refine ⟨q, ?_, ?_⟩
      · rw [hstep, hq]
        congr 2
        push_cast
        ring
      · have h0 := wrote_read p row col1 bs
        have h01 := wrote_trans h0 (by simpa using hp1)
        have h012 := wrote_trans h01 (by simpa using hW)
        simpa using h012
    · have hw : (col2 + 1 - col1).toNat = 0 := by omega
      rw [hw]
      refine ⟨p, ?_, ?_⟩
      · show (if col1 ≤ col2 then _ else _) = _
        rw [if_neg hc]
        simp
      · simp only [Nat.min_zero, List.take_zero, List.drop_zero]
        rw [← hin]
        exact wrote_refl p row col1

/-- The repeated run: `min n w` pixels of the value are written. -/
theorem repeat_run (col2 row : Int) (hc2 : col2 < 32767) (v : Nat) (hv : v < 256) :
    ∀ (n : Nat) (col1 : Int) (p : Pgc), -32768 ≤ col1 → col1 ≤ col2 + 1 →
    ∃ q, imagewRepeat n col1 col2 row v p
        = (col1 + (min n (col2 + 1 - col1).toNat : Nat), q) ∧
      Wrote p q row col1 (List.replicate (min n (col2 + 1 - col1).toNat) v) p.input := by
  intro n
  induction n with
  | zero =>
    intro col1 p _ _
    refine ⟨p, ?_, ?_⟩
    · simp [imagewRepeat]
    · simp only [Nat.zero_min, List.replicate_zero]
      exact wrote_refl p row col1
  | succ n ih =>
    intro col1 p hlo hhi
    by_cases hc : col1 ≤ col2
    · have hw : (col2 + 1 - col1).toNat = (col2 + 1 - (col1 + 1)).toNat + 1 := by omega
      have hmin : min (n + 1) (col2 + 1 - col1).toNat
          = min n (col2 + 1 - (col1 + 1)).toNat + 1 := by
        rw [hw]; omega
      rw [hmin]
      have hstep : imagewRepeat (n + 1) col1 col2 row v p
          = imagewRepeat n (col1 + 1) col2 row v (pgc_write_pixel p col1 row v) := by
        show (if col1 ≤ col2 then _ else _) = _
        rw [if_pos hc, wrap16_id (col1 + 1) (by omega) (by omega)]
      have hp1 := wrote_pixel p row col1 v hv
      obtain ⟨q, hq, hW⟩ := ih (col1 + 1) (pgc_write_pixel p col1 row v) (by omega) (by omega)
      refine ⟨q, ?_, ?_⟩
      · rw [hstep, hq]
        congr 1
        push_cast
        ring
      · rw [hp1.input] at hW
        have h01 := wrote_trans hp1 (by simpa using hW)
        simpa [List.replicate_succ] using h01
    · have hw : (col2 + 1 - col1).toNat = 0 := by omega
      rw [hw]
      refine ⟨p, ?_, ?_⟩
      · show (if col1 ≤ col2 then _ else _) = _
        rw [if_neg hc]
        simp
      · simp only [Nat.min_zero, List.replicate_zero]
        exact wrote_refl p row col1

theorem rleExpandFrom_nil (n : Nat) : rleExpandFrom n [] = [] := by
  cases n <;> rfl

/-- A pending literal run is a prefix of the stream as it is. -/
theorem rleExpandFrom_lit : ∀ (n : Nat) (s : List Nat),
    rleExpandFrom n s = s.take n ++ rleExpandFrom 0 (s.drop n) := by
  intro n
  induction n with
  | zero => intro s; simp
  | succ n ih =>
    intro s
    cases s with
    | nil => simp [rleExpandFrom_nil]
    | cons b bs =>
      show b :: rleExpandFrom n bs = _
      rw [ih bs]
      simp

/-- The first `w` bytes of an expansion that starts inside a literal run of
`n` bytes, when the stream holds the `min n w` bytes to copy. -/
theorem take_rleExpandFrom (n w : Nat) (s : List Nat) (h : min n w ≤ s.length) :
    (rleExpandFrom n s).take w
      = s.take (min n w) ++ (rleExpandFrom 0 (s.drop (min n w))).take (w - min n w) := by
  rw [rleExpandFrom_lit]
  by_cases hn : n ≤ w
  · have e : min n w = n := Nat.min_eq_left hn
    rw [e] at h ⊢
    rw [List.take_append_eq_append_take, List.length_take, Nat.min_eq_left h,
      List.take_take, Nat.min_eq_right hn]
  · have e : min n w = w := Nat.min_eq_right (by omega)
    rw [e] at h ⊢
    rw [List.take_append_eq_append_take, List.length_take, List.take_take,
      Nat.min_eq_left (by omega : w ≤ n)]
    have : w - min n s.length = 0 := by omega
    simp [this]

theorem rleExpandFrom_one (c : Nat) : rleExpandFrom 0 [c] = [] := rfl

set_option maxRecDepth 10000 in
theorem and_80 : ∀ c, c < 256 → ((c &&& 0x80 ≠ 0) ↔ 128 ≤ c) := by
  decide

/-- The column loop of the hex mode, with fuel above the number of columns
left and a stream whose expansion covers them. -/
theorem imagewHex_run (col2 row : Int) (hc2 : col2 < 32767) : ∀ (fuel : Nat) (col1 : Int)
    (p : Pgc) (s : List Nat), p.clcur = none → p.input = s → (∀ b ∈ s, b < 256) →
    -32768 ≤ col1 → col1 ≤ col2 + 1 →
    (col2 + 1 - col1).toNat ≤ (rleExpandFrom 0 s).length →
    (col2 + 1 - col1).toNat < fuel →
    ∃ q rest, imagewHex fuel col1 col2 row p = some (true, q) ∧
      Wrote p q row col1 ((rleExpandFrom 0 s).take (col2 + 1 - col1).toNat) rest := by
  intro fuel
  induction fuel with
  | zero => intro col1 p s _ _ _ _ _ _ hf; omega
  | succ f ih =>
    intro col1 p s hcl hin hb hlo hhi hex hf
    by_cases hc : col1 ≤ col2
    · -- at least one column is left, so the stream has a control byte and data
      have hwpos : 0 < (col2 + 1 - col1).toNat := by omega
      obtain ⟨c, v, bs, rfl⟩ : ∃ c v bs, s = c :: v :: bs := by
        cases s with
        | nil =>
          rw [rleExpandFrom_nil, List.length_nil] at hex
          omega
        | cons c t =>
          cases t with
          | nil =>
            rw [rleExpandFrom_one, List.length_nil] at hex
            omega
          | cons v bs => exact ⟨c, v, bs, rfl⟩
      have hc256 : c < 256 := hb c (by simp)
      have hv256 : v < 256 := hb v (by simp)
      have hbs : ∀ b ∈ v :: bs, b < 256 := fun x hx => hb x (by simp at hx ⊢; tauto)
      have hread := wrote_read p row col1 (v :: bs)
      by_cases hlit : 128 ≤ c
      · -- literal run
        have hn : (c + 256 - 0x7f) % 256 = c - 0x7F := by omega
        have hE : rleExpandFrom 0 (c :: v :: bs) = rleExpandFrom (c - 0x7F) (v :: bs) := by
          show (if c ≥ 0x80 then _ else _) = _
          rw [if_pos hlit]
        rw [hE] at hex ⊢
        have hk : min (c - 0x7F) (col2 + 1 - col1).toNat ≤ (v :: bs).length := by
          by_contra hlt
          have h1 : (v :: bs).length < c - 0x7F := by omega
          rw [rleExpandFrom_lit, List.take_of_length_le (by omega),
            List.drop_of_length_le (by omega)] at hex
          simp only [rleExpandFrom_nil, List.append_nil] at hex
          omega
        obtain ⟨q1, hq1, hW1⟩ := literal_run col2 row hc2 (c - 0x7F) col1
          { p with input := v :: bs } (v :: bs) hcl rfl hbs hlo hhi hk
        have hkpos : 0 < min (c - 0x7F) (col2 + 1 - col1).toNat := by omega
        obtain ⟨q, rest, hq, hW⟩ := ih (col1 + (min (c - 0x7F) (col2 + 1 - col1).toNat : Nat)) q1
          ((v :: bs).drop (min (c - 0x7F) (col2 + 1 - col1).toNat))
          (hW1.clcur.trans hcl) hW1.input
          (fun x hx => hbs x (List.mem_of_mem_drop hx)) (by omega) (by omega)
          (by
            by_cases hle : c - 0x7F ≤ (col2 + 1 - col1).toNat
            · have e : min (c - 0x7F) (col2 + 1 - col1).toNat = c - 0x7F := Nat.min_eq_left hle
              rw [e] at hk ⊢
              rw [rleExpandFrom_lit, List.length_append, List.length_take,
                Nat.min_eq_left hk] at hex
              omega
            · omega)
          (by omega)
        refine ⟨q, rest, ?_, ?_⟩
        · show (if col1 ≤ col2 then _ else _) = _
          rw [if_pos hc, param_byte_cons p c (v :: bs) hcl hin]
          simp only []
          rw [Nat.mod_eq_of_lt hc256, if_pos ((and_80 c hc256).mpr hlit), hn, hq1]
          exact hq
        · rw [take_rleExpandFrom _ _ _ hk]
          have hlen : ((v :: bs).take (min (c - 0x7F) (col2 + 1 - col1).toNat)).length
              = min (c - 0x7F) (col2 + 1 - col1).toNat := by
            rw [List.length_take]; omega
          have hw' : (col2 + 1 - (col1 + (min (c - 0x7F) (col2 + 1 - col1).toNat : Nat))).toNat
              = (col2 + 1 - col1).toNat - min (c - 0x7F) (col2 + 1 - col1).toNat := by omega
          rw [hw'] at hW
          have h1 := wrote_trans hread (by simpa using hW1)
          have h2 := wrote_trans h1 (by
            simp only [List.nil_append, hlen]
            exact hW)
          simpa using h2
      · -- repeated run
        have hn : (c + 1) % 256 = c + 1 := by omega
        have hE : rleExpandFrom 0 (c :: v :: bs)
            = List.replicate (c + 1) v ++ rleExpandFrom 0 bs := by
          show (if c ≥ 0x80 then _ else _) = _
          rw [if_neg hlit]
        rw [hE] at hex ⊢
        obtain ⟨q1, hq1, hW1⟩ := repeat_run col2 row hc2 v hv256 (c + 1) col1
          { p with input := bs } hlo hhi
        obtain ⟨q, rest, hq, hW⟩ := ih (col1 + (min (c + 1) (col2 + 1 - col1).toNat : Nat)) q1 bs
          (hW1.clcur.trans hcl) hW1.input
          (fun x hx => hb x (by simp [hx])) (by omega) (by omega)
          (by
            rw [List.length_append, List.length_replicate] at hex
            omega)
          (by omega)
        refine ⟨q, rest, ?_, ?_⟩
        · show (if col1 ≤ col2 then _ else _) = _
          rw [if_pos hc, param_byte_cons p c (v :: bs) hcl hin]
          simp only []
          rw [Nat.mod_eq_of_lt hc256, if_neg (fun h => hlit ((and_80 c hc256).mp h)),
            param_byte_cons { p with input := v :: bs } v bs hcl rfl]
          simp only []
          rw [Nat.mod_eq_of_lt hv256, hn, hq1]
          exact hq
        · have htake : (List.replicate (c + 1) v ++ rleExpandFrom 0 bs).take (col2 + 1 - col1).toNat
              = List.replicate (min (c + 1) (col2 + 1 - col1).toNat) v ++
                (rleExpandFrom 0 bs).take
                  ((col2 + 1 - col1).toNat - min (c + 1) (col2 + 1 - col1).toNat) := by
            rw [List.take_append_eq_append_take, List.take_replicate, List.length_replicate]
            congr 2
            · omega
            · omega
          rw [htake]
          have hw' : (col2 + 1 - (col1 + (min (c + 1) (col2 + 1 - col1).toNat : Nat))).toNat
              = (col2 + 1 - col1).toNat - min (c + 1) (col2 + 1 - col1).toNat := by omega
          rw [hw'] at hW
          have hread2 := wrote_read { p with input := v :: bs } row col1 bs
          have h0 := wrote_trans hread (by simpa using hread2)
          have h1 := wrote_trans h0 (by simpa using hW1)
          have h2 := wrote_trans h1 (by
            simp only [List.nil_append, List.append_nil, List.length_replicate]
            exact hW)
          simpa using h2
    · have hw : (col2 + 1 - col1).toNat = 0 := by omega
      refine ⟨p, p.input, ?_, ?_⟩
      · show (if col1 ≤ col2 then _ else _) = _
        rw [if_neg hc]
      · rw [hw, List.take_zero]
        exact wrote_refl p row col1

/-! ## Lemmas: rows and row order of `BLKMOV` -/

theorem sameCfg_refl (p : Pgc) : SameCfg p p :=
  ⟨rfl, rfl, rfl, rfl, rfl, rfl, rfl, rfl, rfl⟩

theorem sameCfg_trans {p q r : Pgc} (h1 : SameCfg p q) (h2 : SameCfg q r) : SameCfg p r :=
  ⟨h2.vp_x1.trans h1.vp_x1, h2.vp_y1.trans h1.vp_y1, h2.vp_x2.trans h1.vp_x2,
    h2.vp_y2.trans h1.vp_y2, h2.maxw.trans h1.maxw, h2.maxh.trans h1.maxh,
    h2.draw_mode.trans h1.draw_mode, h2.clcur.trans h1.clcur, h2.input.trans h1.input⟩

theorem unclipped_of_same {p q : Pgc} (h : Unclipped p) (hs : SameCfg p q) : Unclipped q := by
  obtain ⟨a, b, c, d⟩ := h
  exact ⟨hs.vp_x1.trans a, hs.vp_y1.trans b, by rw [hs.vp_x2, hs.maxw, c],
    by rw [hs.vp_y2, hs.maxh, d]⟩

theorem read_pixel_lt (p : Pgc) (x y : Int) : pgc_read_pixel p x y < 256 := by
  unfold pgc_read_pixel
  split
  · exact Nat.mod_lt _ (by norm_num)
  · norm_num

/-- Reading sees the framebuffer only at the position read. -/
theorem read_pixel_congr (p q : Pgc) (x y : Int) (hw : q.maxw = p.maxw) (hh : q.maxh = p.maxh)
    (hv : q.vram x y = p.vram x y) : pgc_read_pixel q x y = pgc_read_pixel p x y := by
  unfold pgc_read_pixel
  rw [hw, hh, hv]

/-- A pixel write with the viewport open. -/
theorem write_pixel_unclipped (p : Pgc) (x y : Int) (ink : Nat) (hu : Unclipped p) :
    SameCfg p (pgc_write_pixel p x y ink) ∧
    ∀ a b, (pgc_write_pixel p x y ink).vram a b =
      if a = x ∧ b = y ∧ 0 ≤ a ∧ a < p.maxw ∧ 0 ≤ b ∧ b < p.maxh then ink % 256
      else p.vram a b := by
  obtain ⟨h1, h2, h3, h4⟩ := hu
  unfold pgc_write_pixel
  simp only []
  split
  · rename_i hout
    refine ⟨⟨rfl, rfl, rfl, rfl, rfl, rfl, rfl, rfl, rfl⟩, ?_⟩
    intro a b
    rw [if_neg]
    rintro ⟨rfl, rfl, h⟩
    rw [h1, h2, h3, h4] at hout
    omega
  · rename_i hin
    refine ⟨⟨rfl, rfl, rfl, rfl, rfl, rfl, rfl, rfl, rfl⟩, ?_⟩
    intro a b
    show (if a = x ∧ b = y then ink % 256 else p.vram a b) = _
    rw [h1, h2, h3, h4] at hin
    by_cases hab : a = x ∧ b = y
    · obtain ⟨rfl, rfl⟩ := hab
      rw [if_pos ⟨rfl, rfl⟩, if_pos (by refine ⟨rfl, rfl, ?_⟩; omega)]
    · rw [if_neg hab, if_neg (by rintro ⟨rfl, rfl, _⟩; exact hab ⟨rfl, rfl⟩)]

/-- The first loop of `blkmov_row` fills `src` with the pixels of the source
row. -/
theorem blkmovRead_run (p : Pgc) (x0 x1 x2 sy ty : Int) (hx1 : x1 < 32767)
    (hw : x1 - x0 < 1024) : ∀ (fuel : Nat) (x : Int) (src dst : Int → Nat),
    x0 ≤ x → -32768 ≤ x → (x1 + 1 - x).toNat < fuel →
    ∃ src1 dst1, blkmovRead fuel p x0 x1 x2 sy ty x src dst = Except.ok (src1, dst1) ∧
      ∀ i, src1 i = if x - x0 ≤ i ∧ i ≤ x1 - x0 then pgc_read_pixel p (x0 + i) sy else src i := by
  intro fuel
  induction fuel with
  | zero => intro x src dst _ _ hf; omega
  | succ f ih =>
    intro x src dst hx hlo hf
    by_cases hc : x ≤ x1
    · obtain ⟨s1, d1, hr, hs⟩ := ih (x + 1)
        (Function.update src (x - x0) (pgc_read_pixel p x sy))
        (Function.update dst (x - x0) (pgc_read_pixel p (x - x0 + x2) ty))
        (by omega) (by omega) (by omega)
      refine ⟨s1, d1, ?_, ?_⟩
      · show (if x ≤ x1 then _ else _) = _
        rw [if_pos hc, if_pos (by omega), wrap16_id (x + 1) (by omega) (by omega)]
        exact hr
      · intro i
        rw [hs i]
        by_cases hi : i = x - x0
        · subst hi
          rw [if_neg (by omega), Function.update_same, if_pos (by omega)]
          congr 1
          ring
        · rw [Function.update_noteq hi]
          by_cases h2 : x + 1 - x0 ≤ i ∧ i ≤ x1 - x0
          · rw [if_pos h2, if_pos (by omega)]
          · rw [if_neg h2, if_neg (by omega)]
    · refine ⟨src, dst, ?_, ?_⟩
      · show (if x ≤ x1 then _ else _) = _
        rw [if_neg hc]
      · intro i
        rw [if_neg (by omega)]

/-- The second loop of `blkmov_row` in drawing mode 0 stores `src` in the
target row. -/
theorem blkmovWrite_run (x0 x1 x2 ty : Int) (src dst : Int → Nat) (hx1 : x1 < 32767)
    (hw : x1 - x0 < 1024) : ∀ (fuel : Nat) (x : Int) (p : Pgc),
    Unclipped p → p.draw_mode = 0 → x0 ≤ x → -32768 ≤ x → (x1 + 1 - x).toNat < fuel →
    ∃ q, blkmovWrite fuel p x0 x1 x2 ty x src dst = Except.ok q ∧ SameCfg p q ∧
      ∀ a b, q.vram a b =
        if b = ty ∧ x - x0 + x2 ≤ a ∧ a ≤ x1 - x0 + x2 ∧
            0 ≤ a ∧ a < p.maxw ∧ 0 ≤ b ∧ b < p.maxh
        then src (a - x2) % 256 else p.vram a b := by
  intro fuel
  induction fuel with
  | zero => intro x p _ _ _ _ hf; omega
  | succ f ih =>
    intro x p hu hm hx hlo hf
    by_cases hc : x ≤ x1
    · obtain ⟨hs1, hv1⟩ := write_pixel_unclipped p (x - x0 + x2) ty (src (x - x0)) hu
      obtain ⟨q, hq, hs, hv⟩ := ih (x + 1) (pgc_write_pixel p (x - x0 + x2) ty (src (x - x0)))
        (unclipped_of_same hu hs1) (hs1.draw_mode.trans hm) (by omega) (by omega) (by omega)
      refine ⟨q, ?_, sameCfg_trans hs1 hs, ?_⟩
      · show (if x ≤ x1 then _ else _) = _
        rw [if_pos hc, if_pos (by omega), wrap16_id (x + 1) (by omega) (by omega)]
        simp only [hm]
        exact hq
      · intro a b
        rw [hv a b, hv1 a b, hs1.maxw, hs1.maxh]
        by_cases hb : b = ty ∧ 0 ≤ a ∧ a < p.maxw ∧ 0 ≤ b ∧ b < p.maxh
        · by_cases ha : a = x - x0 + x2
          · subst ha
            rw [if_neg (by omega), if_pos (by omega), if_pos (by omega)]
            congr 2
            ring
          · by_cases h2 : x + 1 - x0 + x2 ≤ a ∧ a ≤ x1 - x0 + x2
            · rw [if_pos (by omega), if_pos (by omega)]
            · rw [if_neg (by omega), if_neg (by omega), if_neg (by omega)]
        · rw [if_neg (by omega), if_neg (by omega), if_neg (by omega)]
    · refine ⟨p, ?_, sameCfg_refl p, ?_⟩
      · show (if x ≤ x1 then _ else _) = _
        rw [if_neg hc]
      · intro a b
        rw [if_neg (by omega)]

/-- One row of `BLKMOV` in drawing mode 0: the target row gets the pixels that
were read from the source row. -/
theorem blkmov_row_run (p : Pgc) (x0 x1 x2 sy ty : Int) (fuel : Nat)
    (hu : Unclipped p) (hm : p.draw_mode = 0) (hx0 : -32768 ≤ x0) (hx1 : x1 < 32767)
    (hw : x1 - x0 < 1024) (hf : (x1 + 1 - x0).toNat < fuel) :
    ∃ q, blkmov_row fuel p x0 x1 x2 sy ty = Except.ok q ∧ SameCfg p q ∧
      ∀ a b, q.vram a b =
        if b = ty ∧ x2 ≤ a ∧ a ≤ x2 + (x1 - x0) ∧ 0 ≤ a ∧ a < p.maxw ∧ 0 ≤ b ∧ b < p.maxh
        then pgc_read_pixel p (a - x2 + x0) sy else p.vram a b := by
  obtain ⟨s1, d1, hr, hs⟩ := blkmovRead_run p x0 x1 x2 sy ty hx1 hw fuel x0
    (fun _ => 0) (fun _ => 0) (le_refl _) hx0 hf
  obtain ⟨q, hq, hc, hv⟩ := blkmovWrite_run x0 x1 x2 ty s1 d1 hx1 hw fuel x0 p hu hm
    (le_refl _) hx0 hf
  refine ⟨q, ?_, hc, ?_⟩
  · unfold blkmov_row
    rw [hr]
    exact hq
  · intro a b
    rw [hv a b]
    by_cases h : b = ty ∧ x2 ≤ a ∧ a ≤ x2 + (x1 - x0) ∧ 0 ≤ a ∧ a < p.maxw ∧ 0 ≤ b ∧ b < p.maxh
    · rw [if_pos (by omega), if_pos h, hs (a - x2), if_pos (by omega),
        Nat.mod_eq_of_lt (read_pixel_lt _ _ _)]
      congr 1
      ring
    · rw [if_neg (by omega), if_neg h]

/-- The loop that goes down from the top (`y2 ≤ y0`). -/
theorem blkmovDown_run (x0 y0 x1 y1 x2 y2 : Int) (hx0 : -32768 ≤ x0) (hx1 : x1 < 32767)
    (hw : x1 - x0 < 1024) (hy1 : y1 < 32767) (hy2 : 0 ≤ y2) (hd : y2 ≤ y0) :
    ∀ (fuel : Nat) (y : Int) (p : Pgc), Unclipped p → p.draw_mode = 0 → y0 ≤ y →
    (y1 + 1 - y).toNat + (x1 + 1 - x0).toNat < fuel →
    ∃ q, blkmovDown fuel p x0 y0 x1 y1 x2 y2 y = Except.ok q ∧ SameCfg p q ∧
      ∀ a b, q.vram a b =
        if y - y0 + y2 ≤ b ∧ b ≤ y1 - y0 + y2 ∧ x2 ≤ a ∧ a ≤ x2 + (x1 - x0) ∧
            0 ≤ a ∧ a < p.maxw ∧ 0 ≤ b ∧ b < p.maxh
        then pgc_read_pixel p (a - x2 + x0) (b - y2 + y0) else p.vram a b := by
  intro fuel
  induction fuel with
  | zero => intro y p _ _ _ hf; omega
  | succ f ih =>
    intro y p hu hm hy hf
    by_cases hc : y ≤ y1
    · obtain ⟨p1, hp1, hs1, hv1⟩ := blkmov_row_run p x0 x1 x2 y (y - y0 + y2) (f + 1) hu hm
        hx0 hx1 hw (by omega)
      obtain ⟨q, hq, hs, hv⟩ := ih (y + 1) p1 (unclipped_of_same hu hs1) (hs1.draw_mode.trans hm)
        (by omega) (by omega)
      refine ⟨q, ?_, sameCfg_trans hs1 hs, ?_⟩
      · show (if y ≤ y1 then _ else _) = _
        rw [if_pos hc, wrap16_id (y - y0 + y2) (by omega) (by omega), hp1]
        simp only []
        rw [wrap16_id (y + 1) (by omega) (by omega)]
        exact hq
      · intro a b
        rw [hv a b, hs1.maxw, hs1.maxh]
        by_cases hfr : x2 ≤ a ∧ a ≤ x2 + (x1 - x0) ∧ 0 ≤ a ∧ a < p.maxw ∧ 0 ≤ b ∧ b < p.maxh
        · by_cases h2 : y + 1 - y0 + y2 ≤ b ∧ b ≤ y1 - y0 + y2
          · rw [if_pos (by omega), if_pos (by omega)]
            apply read_pixel_congr _ _ _ _ hs1.maxw hs1.maxh
            rw [hv1, if_neg (by omega)]
          · rw [if_neg (by omega), hv1 a b]
            by_cases h3 : b = y - y0 + y2
            · rw [if_pos (by omega), if_pos (by omega)]
              congr 1
              omega
            · rw [if_neg (by omega), if_neg (by omega)]
        · rw [if_neg (by omega), hv1 a b, if_neg (by omega), if_neg (by omega)]
    · refine ⟨p, ?_, sameCfg_refl p, ?_⟩
      · show (if y ≤ y1 then _ else _) = _
        rw [if_neg hc]
      · intro a b
        rw [if_neg (by omega)]

/-- The loop that goes up from the bottom (`y2 > y0`). -/
theorem blkmovUp_run (x0 y0 x1 y1 x2 y2 : Int) (hx0 : -32768 ≤ x0) (hx1 : x1 < 32767)
    (hw : x1 - x0 < 1024) (hy0 : -32768 < y0) (hy1 : y1 < 32767) (hy2 : 0 ≤ y2) (hd : y0 < y2)
    (hal : y1 - y0 + y2 < 65536) :
    ∀ (fuel : Nat) (y : Int) (p : Pgc), Unclipped p → p.draw_mode = 0 → p.maxh ≤ 32768 →
    y ≤ y1 → (y + 1 - y0).toNat + (x1 + 1 - x0).toNat < fuel →
    ∃ q, blkmovUp fuel p x0 y0 x1 y1 x2 y2 y = Except.ok q ∧ SameCfg p q ∧
      ∀ a b, q.vram a b =
        if y2 ≤ b ∧ b ≤ y - y0 + y2 ∧ x2 ≤ a ∧ a ≤ x2 + (x1 - x0) ∧
            0 ≤ a ∧ a < p.maxw ∧ 0 ≤ b ∧ b < p.maxh
        then pgc_read_pixel p (a - x2 + x0) (b - y2 + y0) else p.vram a b := by
  intro fuel
  induction fuel with
  | zero => intro y p _ _ _ _ hf; omega
  | succ f ih =>
    intro y p hu hm hmh hy hf
    by_cases hc : y ≥ y0
    · obtain ⟨p1, hp1, hs1, hv1⟩ := blkmov_row_run p x0 x1 x2 y (wrap16 (y - y0 + y2)) (f + 1)
        hu hm hx0 hx1 hw (by omega)
      obtain ⟨q, hq, hs, hv⟩ := ih (y - 1) p1 (unclipped_of_same hu hs1) (hs1.draw_mode.trans hm)
        (by rw [hs1.maxh]; exact hmh) (by omega) (by omega)
      have hty : wrap16 (y - y0 + y2) = y - y0 + y2 ∨
          (wrap16 (y - y0 + y2) < 0 ∧ 32768 ≤ y - y0 + y2) := by
        unfold wrap16
        omega
      refine ⟨q, ?_, sameCfg_trans hs1 hs, ?_⟩
      · show (if y ≥ y0 then _ else _) = _
        rw [if_pos hc, hp1]
        simp only []
        rw [wrap16_id (y - 1) (by omega) (by omega)]
        exact hq
      · intro a b
        rw [hv a b, hs1.maxw, hs1.maxh]
        by_cases hfr : x2 ≤ a ∧ a ≤ x2 + (x1 - x0) ∧ 0 ≤ a ∧ a < p.maxw ∧ 0 ≤ b ∧ b < p.maxh
        · by_cases h2 : y2 ≤ b ∧ b ≤ y - 1 - y0 + y2
          · rw [if_pos (by omega), if_pos (by omega)]
            apply read_pixel_congr _ _ _ _ hs1.maxw hs1.maxh
            rw [hv1, if_neg (by omega)]
          · rw [if_neg (by omega), hv1 a b]
            by_cases h3 : b = y - y0 + y2
            · rcases hty with e | e
              · rw [if_pos (by omega), if_pos (by omega)]
                congr 1
                omega
              · omega
            · rw [if_neg (by omega), if_neg (by omega)]
        · rw [if_neg (by omega), hv1 a b, if_neg (by omega), if_neg (by omega)]
    · refine ⟨p, ?_, sameCfg_refl p, ?_⟩
      · show (if y ≥ y0 then _ else _) = _
        rw [if_neg hc]
      · intro a b
        rw [if_neg (by omega)]

/-! ## Properties of the drawing commands -/

/-- Parameter words are read back from their bytes. -/
theorem paramWords_bytes (vs : List Int) : ∀ (p : Pgc) (rest : List Nat), p.clcur = none →
    p.input = wordsBytes vs ++ rest → (∀ v ∈ vs, -32768 ≤ v ∧ v < 32768) →
    paramWords vs.length p = (some vs, { p with input := rest }) := by
  induction vs with
  | nil =>
    intro p rest _ hin _
    simp only [wordsBytes, List.nil_append] at hin
    show (some [], p) = _
    rw [← hin]
  | cons v vs ih =>
    intro p rest hcl hin hr
    have e := param_word_bytes p v (wordsBytes vs ++ rest) hcl
      (by rw [hin]; simp [wordsBytes, wordBytes]) (hr v (by simp)).1 (hr v (by simp)).2
    show (match pgc_param_word p with
      | none => (none, p)
      | some (v, p1) =>
        match paramWords vs.length p1 with
        | (none, p2) => (none, p2)
        | (some vs, p2) => (some (v :: vs), p2)) = _
    rw [e]
    simp only []
    rw [ih { p with input := wordsBytes vs ++ rest } rest hcl rfl
      (fun x hx => hr x (by simp [hx]))]

/-- C22 fails as stated, counterexample.  First, `BLKMOV` with the source
rectangle `x0 = x1 = 32767`, `y0 = y1 = 0` (one pixel wide) and the target
origin `(0, 0)`: in `blkmov_row` the column counter, an `int16_t`, goes from
32767 to -32768 and stays below `x1`; the next turn indexes the local array
`src` at `-65535`; whatever the fuel, the handler does not end normally.
Second, the source rectangle `(0 .. 1, 0 .. 0)` copied to the origin
`(1023, 0)` of a framebuffer 1024 pixels wide: the source pixel `(1, 0)` holds
1, and the target position `(1024, 0)`, outside the framebuffer, reads 0
afterwards. -/
theorem blkmov_column_overflow :
    (∀ fuel, ∃ e, hndl_blkmov fuel
      (demoPgc (fun _ _ => 0) (wordsBytes [32767, 0, 32767, 0, 0, 0])) = Except.error e) ∧
    pgc_read_pixel (demoPgc demoVram (wordsBytes [0, 0, 1, 0, 1023, 0])) 1 0 = 1 ∧
    (match hndl_blkmov 5 (demoPgc demoVram (wordsBytes [0, 0, 1, 0, 1023, 0])) with
      | Except.ok (true, q) => pgc_read_pixel q 1024 0
      | _ => 999) = 0 := by
  refine ⟨?_, by decide, by decide⟩
  intro fuel
  rcases fuel with _ | _ | f
  · exact ⟨Err.fuel, rfl⟩
  · exact ⟨Err.fuel, rfl⟩
  · exact ⟨Err.bounds, rfl⟩

/-- C22 within the range of the counters.  Outside a command list, in drawing
mode 0, with a framebuffer of at most 32768 rows: for every source rectangle
`(x0 .. x1, y0 .. y1)` of width at most 1024 with `x1 < 32767`,
`y1 < 32767`, `y0 > -32768`, every target origin `(x2, y2)` with
non-negative coordinates and last target row `y2 + (y1 - y0)` below 65536,
and enough fuel, `hndl_blkmov` ends normally; afterwards every pixel of the
framebuffer in the target rectangle holds what `pgc_read_pixel` returned
before the command at the matching source position (0 for a position outside
the framebuffer), also when the rectangles overlap; every other pixel is
unchanged; the viewport is as before. -/
theorem blkmov_overlap_safe (p : Pgc) (x0 y0 x1 y1 x2 y2 : Int) (rest : List Nat) (fuel : Nat)
    (hcl : p.clcur = none) (hin : p.input = wordsBytes [x0, y0, x1, y1, x2, y2] ++ rest)
    (hm : p.draw_mode = 0) (hmh : p.maxh ≤ 32768)
    (hr : ∀ v ∈ [x0, y0, x1, y1, x2, y2], -32768 ≤ v ∧ v < 32768)
    (hx1 : x1 < 32767) (hy1 : y1 < 32767) (hy0 : -32768 < y0) (hw : x1 - x0 < 1024)
    (hx2 : 0 ≤ x2) (hy2 : 0 ≤ y2) (hal : y2 + (y1 - y0) < 65536)
    (hf : (y1 + 1 - y0).toNat + (x1 + 1 - x0).toNat < fuel) :
    ∃ q, hndl_blkmov fuel p = Except.ok (true, q) ∧
      (∀ a b, q.vram a b =
        if x2 ≤ a ∧ a ≤ x2 + (x1 - x0) ∧ y2 ≤ b ∧ b ≤ y2 + (y1 - y0) ∧ a < p.maxw ∧ b < p.maxh
        then pgc_read_pixel p (a - x2 + x0) (b - y2 + y0) else p.vram a b) ∧
      q.vp_x1 = p.vp_x1 ∧ q.vp_y1 = p.vp_y1 ∧ q.vp_x2 = p.vp_x2 ∧ q.vp_y2 = p.vp_y2 := by
  obtain ⟨vx1, vy1, vx2, vy2, mw, mh, dm, am, fm, lp, cl, inp, vr, pl, ll⟩ := p
  simp only [] at hcl hin hm hmh
  subst hcl hin hm
  have hx0 := (hr x0 (by simp)).1
  have e := paramWords_bytes [x0, y0, x1, y1, x2, y2]
    ⟨vx1, vy1, vx2, vy2, mw, mh, 0, am, fm, lp, none,
      wordsBytes [x0, y0, x1, y1, x2, y2] ++ rest, vr, pl, ll⟩ rest rfl rfl hr
  have hu : Unclipped ⟨0, 0, mw - 1, mh - 1, mw, mh, 0, am, fm, lp, none, rest, vr, pl, ll⟩ :=
    ⟨rfl, rfl, rfl, rfl⟩
  by_cases hd : y2 ≤ y0
  · obtain ⟨q, hq, _, hv⟩ := blkmovDown_run x0 y0 x1 y1 x2 y2 hx0 hx1 hw hy1 hy2 hd fuel y0
      ⟨0, 0, mw - 1, mh - 1, mw, mh, 0, am, fm, lp, none, rest, vr, pl, ll⟩ hu rfl (le_refl _) hf
    refine ⟨{ q with vp_x1 := vx1, vp_y1 := vy1, vp_x2 := vx2, vp_y2 := vy2 }, ?_, ?_,
      rfl, rfl, rfl, rfl⟩
    · unfold hndl_blkmov
      rw [show (6 : Nat) = [x0, y0, x1, y1, x2, y2].length from rfl, e]
      simp only [hd, if_true]
      rw [hq]
    · intro a b
      show q.vram a b = _
      rw [hv a b]
      simp only []
      by_cases h : x2 ≤ a ∧ a ≤ x2 + (x1 - x0) ∧ y2 ≤ b ∧ b ≤ y2 + (y1 - y0) ∧ a < mw ∧ b < mh
      · rw [if_pos (by omega), if_pos h]
        rfl
      · rw [if_neg (by omega), if_neg h]
  · obtain ⟨q, hq, _, hv⟩ := blkmovUp_run x0 y0 x1 y1 x2 y2 hx0 hx1 hw hy0 hy1 hy2
      (by omega) (by omega) fuel y1
      ⟨0, 0, mw - 1, mh - 1, mw, mh, 0, am, fm, lp, none, rest, vr, pl, ll⟩ hu rfl hmh
      (le_refl _) hf
    refine ⟨{ q with vp_x1 := vx1, vp_y1 := vy1, vp_x2 := vx2, vp_y2 := vy2 }, ?_, ?_,
      rfl, rfl, rfl, rfl⟩
    · unfold hndl_blkmov
      rw [show (6 : Nat) = [x0, y0, x1, y1, x2, y2].length from rfl, e]
      simp only [hd, if_false]
      rw [hq]
    · intro a b
      show q.vram a b = _
      rw [hv a b]
      simp only []
      by_cases h : x2 ≤ a ∧ a ≤ x2 + (x1 - x0) ∧ y2 ≤ b ∧ b ≤ y2 + (y1 - y0) ∧ a < mw ∧ b < mh
      · rw [if_pos (by omega), if_pos h]
        rfl
      · rw [if_neg (by omega), if_neg h]

/-- Witness of C22 within the range of the counters: the source rectangle
`(0 .. 2, 0 .. 1)` copied to the origin `(1, 1)`, which overlaps it.  Pixel
`(1, 2)` holds the old pixel `(0, 1)`, which the copy of the other row has
overwritten by then. -/
theorem blkmov_overlap_safe_witness :
    ∃ q, hndl_blkmov 2000 (demoPgc demoVram (wordsBytes [0, 0, 2, 1, 1, 1]))
        = Except.ok (true, q) ∧
      q.vram 1 2 = 10 ∧ q.vram 0 1 = 10 ∧ q.vram 1 1 = 0 :=
  (blkmov_overlap_safe (demoPgc demoVram (wordsBytes [0, 0, 2, 1, 1, 1])) 0 0 2 1 1 1 [] 2000
    rfl (by simp [demoPgc]) rfl (by decide) (by decide) (by decide) (by decide) (by decide)
    (by decide) (by decide) (by decide) (by decide) (by decide)).imp
    (fun q h => ⟨h.1, (h.2.1 1 2).trans (by decide), (h.2.1 0 1).trans (by decide),
      (h.2.1 1 1).trans (by decide)⟩)

/-- C23: run-length decoding of `IMAGEW` in hex mode.  Outside a command list,
for every row, every `col1 ≤ col2 < 32767` and every stream of bytes whose
expansion covers the `col2 - col1 + 1` columns (the stream is not exhausted):
with any fuel above the number of columns `hndl_imagew` ends normally; its
calls of `pgc_write_pixel` are, in this order, one for each column
`col1 .. col2` of the row, with the first `col2 - col1 + 1` bytes of the
expansion as inks; no pixel outside these columns of the row changes; and the
viewport is as before. -/
theorem imagew_hex_decodes (p : Pgc) (row col1 col2 : Int) (stream : List Nat) (fuel : Nat)
    (hmode : p.ascii_mode = false) (hcl : p.clcur = none)
    (hin : p.input = wordBytes row ++ wordBytes col1 ++ wordBytes col2 ++ stream)
    (hrow : -32768 ≤ row ∧ row < 32768) (hlo : -32768 ≤ col1) (hc : col1 ≤ col2)
    (hc2 : col2 < 32767) (hbytes : ∀ b ∈ stream, b < 256)
    (hex : (col2 - col1 + 1).toNat ≤ (rleExpand stream).length)
    (hfuel : (col2 - col1 + 1).toNat < fuel) :
    ∃ q, hndl_imagew fuel p = some (true, q) ∧
      q.pixlog = p.pixlog
        ++ rowPixels row col1 ((rleExpand stream).take (col2 - col1 + 1).toNat) ∧
      (∀ a b, ¬ (b = row ∧ col1 ≤ a ∧ a ≤ col2) → q.vram a b = p.vram a b) ∧
      q.vp_x1 = p.vp_x1 ∧ q.vp_y1 = p.vp_y1 ∧ q.vp_x2 = p.vp_x2 ∧ q.vp_y2 = p.vp_y2 := by
  have hw : (col2 - col1 + 1).toNat = (col2 + 1 - col1).toNat := by congr 1; ring
  rw [hw] at hex hfuel ⊢
  unfold rleExpand at hex ⊢
  obtain ⟨vx1, vy1, vx2, vy2, mw, mh, dm, am, fm, lp, cl, inp, vr, pl, ll⟩ := p
  simp only [] at hmode hcl hin
  subst hmode hcl hin
  have e1 := param_word_bytes
    ⟨vx1, vy1, vx2, vy2, mw, mh, dm, false, fm, lp, none,
      wordBytes row ++ wordBytes col1 ++ wordBytes col2 ++ stream, vr, pl, ll⟩
    row (wordBytes col1 ++ wordBytes col2 ++ stream) rfl (by simp) hrow.1 hrow.2
  have e2 := param_word_bytes
    ⟨vx1, vy1, vx2, vy2, mw, mh, dm, false, fm, lp, none,
      wordBytes col1 ++ wordBytes col2 ++ stream, vr, pl, ll⟩ col1
    (wordBytes col2 ++ stream) rfl (by simp) hlo (by omega)
  have e3 := param_word_bytes
    ⟨vx1, vy1, vx2, vy2, mw, mh, dm, false, fm, lp, none, wordBytes col2 ++ stream, vr, pl, ll⟩
    col2 stream rfl rfl (by omega) (by omega)
  obtain ⟨q, rest, hq, hW⟩ := imagewHex_run col2 row hc2 fuel col1
    ⟨0, 0, mw - 1, mh - 1, mw, mh, dm, false, fm, lp, none, stream, vr, pl, ll⟩
    stream rfl rfl hbytes hlo (by omega) hex hfuel
  refine ⟨{ q with vp_x1 := vx1, vp_y1 := vy1, vp_x2 := vx2, vp_y2 := vy2 },
    ?_, ?_, ?_, rfl, rfl, rfl, rfl⟩
  · unfold hndl_imagew
    rw [e1]
    simp only []
    rw [e2]
    simp only []
    rw [e3]
    simp only [Bool.false_eq_true, if_false]
    rw [hq]
  · exact hW.pixlog
  · intro a b hab
    show q.vram a b = vr a b
    rw [hW.frame a b (by
      intro h; apply hab
      rw [List.length_take, Nat.min_eq_left hex] at h
      omega)]

/-- Witness of C23: row 5, columns 10 to 14, and the stream `81 01 02 02 09`:
a literal run of two bytes and then a byte repeated three times. -/
theorem imagew_hex_decodes_witness :
    ∃ q, hndl_imagew 6 (demoPgc (fun _ _ => 0)
        (wordBytes 5 ++ wordBytes 10 ++ wordBytes 14 ++ [0x81, 1, 2, 0x02, 9, 77]))
      = some (true, q) ∧
      q.pixlog = [(10, 5, 1), (11, 5, 2), (12, 5, 9), (13, 5, 9), (14, 5, 9)] :=
  (imagew_hex_decodes (demoPgc (fun _ _ => 0)
      (wordBytes 5 ++ wordBytes 10 ++ wordBytes 14 ++ [0x81, 1, 2, 0x02, 9, 77]))
    5 10 14 [0x81, 1, 2, 0x02, 9, 77] 6 rfl rfl rfl (by decide) (by decide) (by decide)
    (by decide) (by decide) (by decide) (by decide)).imp
    (fun _ h => ⟨h.1, h.2.1.trans (by decide)⟩)

/-- C28, evaluated: `POLY` with the count byte 0 outside a command list.  No
vertex is stored, and the closing edge reads both arrays at index
`realcount - 1 = 4294967295` while the capacity is 256. -/
theorem poly_empty_reads_out_of_range :
    (hndl_poly logDraw 1 (fun _ => 0) (fun _ => 0) (demoPgc (fun _ _ => 0) [0])).map
      (fun r => r.2)
      = some [(4294967295, 256), (4294967295, 256), (0, 256), (0, 256)] := by
  decide

end IM1024

namespace IntelFlash

/-! ## Lemmas and properties of the flash -/

/-- Masking with a shifted mask is masking the shifted number. -/
theorem and_mul_two_pow (a m i : Nat) : a &&& (2 ^ i * m) = 2 ^ i * ((a / 2 ^ i) &&& m) := by
  apply Nat.eq_of_testBit_eq
  intro j
  rw [Nat.testBit_and, Nat.testBit_mul_pow_two, Nat.testBit_mul_pow_two, Nat.testBit_and,
    ← Nat.shiftRight_eq_div_pow, Nat.testBit_shiftRight]
  by_cases h : j ≥ i
  · have e : i + (j - i) = j := by omega
    simp [h, e]
  · simp [h]

/-- The bits 13 to 16 of an array index, as arithmetic. -/
theorem and_1e000 (a : Nat) (h : a < 0x20000) : a &&& 0x1e000 = 0x2000 * (a / 0x2000) := by
  have e : (0x1e000 : Nat) = 2 ^ 13 * 15 := by norm_num
  rw [e, and_mul_two_pow]
  have h2 : a / 2 ^ 13 < 16 := by
    apply Nat.div_lt_of_lt_mul
    norm_num
    omega
  have h3 : a / 2 ^ 13 &&& 15 = a / 2 ^ 13 := by
    rw [show (15 : Nat) = 2 ^ 4 - 1 from rfl, Nat.and_pow_two_sub_one_eq_mod]
    exact Nat.mod_eq_of_lt h2
  rw [h3]
  norm_num

theorem arrayIndex_lt (flash : flash_t) (addr : Nat) : arrayIndex flash addr < 0x20000 := by
  unfold arrayIndex
  exact Nat.and_lt_two_pow _ (by norm_num : (0x1ffff : Nat) < 2 ^ 17)

theorem memset_frame (a : Nat → Nat) (start v len k : Nat) (h : k < start ∨ start + len ≤ k) :
    memset a start v len k = a k := by
  unfold memset
  rw [if_neg (by omega)]


theorem tables_bxt (type command status : Nat) (array : Nat → Nat)
    (h : type % 256 &&& FLASH_IS_BXB = 0) :
    (flashOf type command status array).block_start = table4 0x00000 0x1c000 0x1d000 0x1e000 ∧
    (flashOf type command status array).block_end = table4 0x1bfff 0x1cfff 0x1dfff 0x1ffff ∧
    (flashOf type command status array).block_len = table4 0x1c000 0x01000 0x01000 0x02000 := by
  simp [flashOf, intel_flash_init, h]

theorem tables_bxb (type command status : Nat) (array : Nat → Nat)
    (h : type % 256 &&& FLASH_IS_BXB ≠ 0) :
    (flashOf type command status array).block_start = table4 0x04000 0x03000 0x04000 0x00000 ∧
    (flashOf type command status array).block_end = table4 0x1ffff 0x03fff 0x04fff 0x01fff ∧
    (flashOf type command status array).block_len = table4 0x1c000 0x01000 0x01000 0x02000 := by
  simp [flashOf, intel_flash_init, h]

/-- The erase loop leaves a byte alone that lies in none of the blocks 0, 1, 2. -/
theorem erase_frame (flash : flash_t) (addr k : Nat)
    (h : ∀ i, i < 3 → k < flash.block_start i ∨ flash.block_start i + flash.block_len i ≤ k) :
    [0, 1, 2].foldl (eraseBlock flash addr) flash.array k = flash.array k := by
  have step : ∀ (a : Nat → Nat) (i : Nat), i < 3 → eraseBlock flash addr a i k = a k := by
    intro a i hi
    unfold eraseBlock
    split
    · exact memset_frame _ _ _ _ _ (h i hi)
    · rfl
  simp only [List.foldl]
  rw [step _ 2 (by norm_num), step _ 1 (by norm_num), step _ 0 (by norm_num)]

/-- The array after `flash_write`, case by case. -/
theorem flash_write_array (addr val : Nat) (flash : flash_t) :
    (flash_write addr val flash).array =
      if flash.command = CMD_ERASE_SETUP then
        if val % 256 = CMD_ERASE_CONFIRM then
          [0, 1, 2].foldl (eraseBlock flash (arrayIndex flash addr)) flash.array
        else flash.array
      else if flash.command = CMD_PROGRAM_SETUP ∨ flash.command = CMD_PROGRAM_SETUP_ALT then
        if arrayIndex flash addr &&& 0x1e000 ≠ flash.block_start 3 &&& 0x1e000
          then Function.update flash.array (arrayIndex flash addr) (val % 256) else flash.array
      else flash.array := by
  unfold flash_write
  simp only []
  split
  · split <;> rfl
  · split <;> rfl

/-- C24: the boot block is immutable.  For every device type (28F001BX-T or
BX-B, high pin inverted or not), every flash state with the block tables that
`intel_flash_init` sets for the type, whatever its command, status and array
content, every address and every value: `flash_write` leaves every array byte
with index in `block_start[BLOCK_BOOT] .. block_end[BLOCK_BOOT]` as it was. -/
theorem boot_block_immutable (type command status : Nat) (array : Nat → Nat) (addr val k : Nat)
    (hlo : (flashOf type command status array).block_start BLOCK_BOOT ≤ k)
    (hhi : k ≤ (flashOf type command status array).block_end BLOCK_BOOT) :
    (flash_write addr val (flashOf type command status array)).array k = array k := by
  have hidx := arrayIndex_lt (flashOf type command status array) addr
  have hmask := and_1e000 _ hidx
  have harr : (flashOf type command status array).array = array := rfl
  rw [flash_write_array, hmask]
  by_cases hb : type % 256 &&& FLASH_IS_BXB = 0
  · obtain ⟨hs, he, hl⟩ := tables_bxt type command status array hb
    rw [hs] at hlo
    rw [he] at hhi
    simp only [table4, BLOCK_BOOT] at hlo hhi
    norm_num at hlo hhi
    have hfr := erase_frame (flashOf type command status array)
      (arrayIndex (flashOf type command status array) addr) k (by
        intro i hi
        rw [hs, hl]
        simp only [table4]
        interval_cases i <;> norm_num <;> omega)
    split
    · split
      · rw [hfr, harr]
      · rw [harr]
    · split
      · split
        · rename_i hne
          rw [harr, Function.update_noteq]
          intro heq
          apply hne
          rw [← heq, hs]
          simp only [table4]
          norm_num
          omega
        · rw [harr]
      · rw [harr]
  · obtain ⟨hs, he, hl⟩ := tables_bxb type command status array hb
    rw [hs] at hlo
    rw [he] at hhi
    simp only [table4, BLOCK_BOOT] at hlo hhi
    norm_num at hlo hhi
    have hfr := erase_frame (flashOf type command status array)
      (arrayIndex (flashOf type command status array) addr) k (by
        intro i hi
        rw [hs, hl]
        simp only [table4]
        interval_cases i <;> norm_num <;> omega)
    split
    · split
      · rw [hfr, harr]
      · rw [harr]
    · split
      · split
        · rename_i hne
          rw [harr, Function.update_noteq]
          intro heq
          apply hne
          rw [← heq, hs]
          simp only [table4]
          norm_num
          omega
        · rw [harr]
      · rw [harr]

/-- Witness of C24: a program command aimed at the first boot byte of a
28F001BX-T leaves the byte as it was. -/
theorem boot_block_immutable_witness :
    (flash_write 0xFE000 0x55 (flashOf 0 CMD_PROGRAM_SETUP 0 (fun _ => 0xAA))).array 0x1e000
      = 0xAA :=
  boot_block_immutable 0 CMD_PROGRAM_SETUP 0 (fun _ => 0xAA) 0xFE000 0x55 0x1e000
    (by decide) (by decide)

theorem arrayIndex_congr (f g : flash_t) (h : g.invert_high_pin = f.invert_high_pin)
    (addr : Nat) : arrayIndex g addr = arrayIndex f addr := by
  unfold arrayIndex
  rw [h]

/-- What `flash_write` keeps: pin setting and block tables. -/
theorem flash_write_fields (addr val : Nat) (flash : flash_t) :
    (flash_write addr val flash).invert_high_pin = flash.invert_high_pin ∧
    (flash_write addr val flash).block_start = flash.block_start ∧
    (flash_write addr val flash).block_end = flash.block_end ∧
    (flash_write addr val flash).block_len = flash.block_len := by
  unfold flash_write
  simp only []
  split
  · split <;> exact ⟨rfl, rfl, rfl, rfl⟩
  · split <;> exact ⟨rfl, rfl, rfl, rfl⟩

/-- A write in read-array mode only latches the command. -/
theorem flash_write_latch (addr val : Nat) (flash : flash_t)
    (h1 : flash.command ≠ CMD_ERASE_SETUP) (h2 : flash.command ≠ CMD_PROGRAM_SETUP)
    (h3 : flash.command ≠ CMD_PROGRAM_SETUP_ALT) :
    flash_write addr val flash =
      { flash with command := val % 256,
                   status := if val % 256 = CMD_CLEAR_STATUS then 0 else flash.status } := by
  unfold flash_write
  simp only []
  rw [if_neg h1, if_neg (by rintro (h | h) <;> contradiction)]

/-- A write after program-setup. -/
theorem flash_write_program (addr val : Nat) (flash : flash_t)
    (h : flash.command = CMD_PROGRAM_SETUP ∨ flash.command = CMD_PROGRAM_SETUP_ALT) :
    flash_write addr val flash =
      { flash with
        array := if arrayIndex flash addr &&& 0x1e000 ≠ flash.block_start 3 &&& 0x1e000
          then Function.update flash.array (arrayIndex flash addr) (val % 256) else flash.array,
        command := CMD_READ_STATUS, status := 0x80 } := by
  unfold flash_write
  simp only []
  rw [if_neg (by rcases h with h | h <;> rw [h] <;> decide), if_pos h]

/-- Outside the boot block the guard of the program command lets the write
through. -/
theorem program_guard (type command status : Nat) (array : Nat → Nat) (i : Nat)
    (hi : i < 0x20000)
    (hboot : ¬ ((flashOf type command status array).block_start BLOCK_BOOT ≤ i ∧
      i ≤ (flashOf type command status array).block_end BLOCK_BOOT)) :
    i &&& 0x1e000 ≠ (flashOf type command status array).block_start 3 &&& 0x1e000 := by
  rw [and_1e000 i hi]
  by_cases hb : type % 256 &&& FLASH_IS_BXB = 0
  · obtain ⟨hs, he, _⟩ := tables_bxt type command status array hb
    rw [hs, he] at hboot
    rw [hs]
    simp only [table4, BLOCK_BOOT] at hboot ⊢
    norm_num at hboot ⊢
    omega
  · obtain ⟨hs, he, _⟩ := tables_bxb type command status array hb
    rw [hs, he] at hboot
    rw [hs]
    simp only [table4, BLOCK_BOOT] at hboot ⊢
    norm_num at hboot ⊢
    omega

/-- C25: program/read round trip.  For every device type and pin setting,
every flash state in read-array mode with the block tables of the type, every
byte `v` and every address `a` whose array index (after the high-pin
inversion) is outside the boot block: the writes program-setup (`0x40` or
`0x10`, at any address), `v` at `a`, read-array (`0xFF`, at any address) make
`flash_read a` return `v`, leave every other array byte as it was, and leave
`0x80` in the status. -/
theorem program_read_roundtrip (type status : Nat) (array : Nat → Nat)
    (setup a0 a a1 v : Nat)
    (hsetup : setup = CMD_PROGRAM_SETUP ∨ setup = CMD_PROGRAM_SETUP_ALT) (hv : v < 256)
    (hboot : ¬ ((flashOf type CMD_READ_ARRAY status array).block_start BLOCK_BOOT
        ≤ arrayIndex (flashOf type CMD_READ_ARRAY status array) a ∧
      arrayIndex (flashOf type CMD_READ_ARRAY status array) a
        ≤ (flashOf type CMD_READ_ARRAY status array).block_end BLOCK_BOOT)) :
    flash_read a (flash_write a1 CMD_READ_ARRAY (flash_write a v
        (flash_write a0 setup (flashOf type CMD_READ_ARRAY status array)))) = v ∧
    (∀ k, k ≠ arrayIndex (flashOf type CMD_READ_ARRAY status array) a →
      (flash_write a1 CMD_READ_ARRAY (flash_write a v
        (flash_write a0 setup (flashOf type CMD_READ_ARRAY status array)))).array k = array k) ∧
    (flash_write a1 CMD_READ_ARRAY (flash_write a v
        (flash_write a0 setup (flashOf type CMD_READ_ARRAY status array)))).status = 0x80 := by
  have hg := program_guard type CMD_READ_ARRAY status array _
    (arrayIndex_lt (flashOf type CMD_READ_ARRAY status array) a) hboot
  have hs256 : setup % 256 = setup := by
    rcases hsetup with h | h <;> rw [h] <;> decide
  have hc0 : (flashOf type CMD_READ_ARRAY status array).command = CMD_READ_ARRAY := rfl
  have e1 := flash_write_latch a0 setup (flashOf type CMD_READ_ARRAY status array)
    (by rw [hc0]; decide) (by rw [hc0]; decide) (by rw [hc0]; decide)
  rw [hs256] at e1
  have hc1 : (flash_write a0 setup (flashOf type CMD_READ_ARRAY status array)).command = setup := by
    rw [e1]
  have hi1 : arrayIndex (flash_write a0 setup (flashOf type CMD_READ_ARRAY status array)) a
      = arrayIndex (flashOf type CMD_READ_ARRAY status array) a :=
    arrayIndex_congr _ _ (flash_write_fields _ _ _).1 a
  have hb1 : (flash_write a0 setup (flashOf type CMD_READ_ARRAY status array)).block_start
      = (flashOf type CMD_READ_ARRAY status array).block_start := (flash_write_fields _ _ _).2.1
  have ha1 : (flash_write a0 setup (flashOf type CMD_READ_ARRAY status array)).array = array := by
    rw [e1]; rfl
  have e2 := flash_write_program a v (flash_write a0 setup (flashOf type CMD_READ_ARRAY status array))
    (by rw [hc1]; exact hsetup)
  rw [hi1, hb1, if_pos hg, ha1, Nat.mod_eq_of_lt hv] at e2
  have hc2 : (flash_write a v
      (flash_write a0 setup (flashOf type CMD_READ_ARRAY status array))).command
        = CMD_READ_STATUS := by rw [e2]
  have hst2 : (flash_write a v
      (flash_write a0 setup (flashOf type CMD_READ_ARRAY status array))).status = 0x80 := by
    rw [e2]
  have ha2 : (flash_write a v
      (flash_write a0 setup (flashOf type CMD_READ_ARRAY status array))).array
        = Function.update array (arrayIndex (flashOf type CMD_READ_ARRAY status array) a) v := by
    rw [e2]
  have hi2 : arrayIndex (flash_write a v
      (flash_write a0 setup (flashOf type CMD_READ_ARRAY status array))) a
      = arrayIndex (flashOf type CMD_READ_ARRAY status array) a :=
    (arrayIndex_congr _ _ (flash_write_fields _ _ _).1 a).trans hi1
  have e3 := flash_write_latch a1 CMD_READ_ARRAY (flash_write a v
      (flash_write a0 setup (flashOf type CMD_READ_ARRAY status array)))
    (by rw [hc2]; decide) (by rw [hc2]; decide) (by rw [hc2]; decide)
  have hc3 : (flash_write a1 CMD_READ_ARRAY (flash_write a v
      (flash_write a0 setup (flashOf type CMD_READ_ARRAY status array)))).command
        = CMD_READ_ARRAY := by rw [e3]; rfl
  have ha3 : (flash_write a1 CMD_READ_ARRAY (flash_write a v
      (flash_write a0 setup (flashOf type CMD_READ_ARRAY status array)))).array
        = Function.update array (arrayIndex (flashOf type CMD_READ_ARRAY status array) a) v := by
    rw [e3]; exact ha2
  have hst3 : (flash_write a1 CMD_READ_ARRAY (flash_write a v
      (flash_write a0 setup (flashOf type CMD_READ_ARRAY status array)))).status = 0x80 := by
    rw [e3]
    show (if CMD_READ_ARRAY % 256 = CMD_CLEAR_STATUS then 0 else _) = 0x80
    rw [if_neg (by decide)]
    exact hst2
  have hi3 : arrayIndex (flash_write a1 CMD_READ_ARRAY (flash_write a v
      (flash_write a0 setup (flashOf type CMD_READ_ARRAY status array)))) a
      = arrayIndex (flashOf type CMD_READ_ARRAY status array) a :=
    (arrayIndex_congr _ _ (flash_write_fields _ _ _).1 a).trans hi2
  refine ⟨?_, ?_, hst3⟩
  · unfold flash_read
    simp only []
    rw [hc3, if_neg (by decide), if_neg (by decide), ha3, hi3, Function.update_same]
  · intro k hk
    rw [ha3, Function.update_noteq hk]

/-- Witness of C25: on a 28F001BX-T with the high pin inverted, programming
`0x5A` at bus address `0xF0000` (array index 0) is read back. -/
theorem program_read_roundtrip_witness :
    flash_read 0xF0000 (flash_write 0xE0000 CMD_READ_ARRAY (flash_write 0xF0000 0x5A
        (flash_write 0xE0000 CMD_PROGRAM_SETUP (flashOf 1 CMD_READ_ARRAY 0 (fun _ => 0xFF)))))
      = 0x5A :=
  (program_read_roundtrip 1 0 (fun _ => 0xFF) CMD_PROGRAM_SETUP 0xE0000 0xF0000 0xE0000 0x5A
    (Or.inl rfl) (by decide) (by decide)).1

/-- The block tables of the 28F001BX-T are a partition of the array: each
block has `block_end - block_start + 1 = block_len`, and every index below
`0x20000` lies in exactly one of the four blocks. -/
theorem bxt_blocks_partition (type command status : Nat) (array : Nat → Nat)
    (h : type % 256 &&& FLASH_IS_BXB = 0) :
    (∀ i, i < 4 → (flashOf type command status array).block_end i
        - (flashOf type command status array).block_start i + 1
      = (flashOf type command status array).block_len i) ∧
    ∀ k, k < 0x20000 → ∃ i, i < 4 ∧
      ((flashOf type command status array).block_start i ≤ k ∧
        k ≤ (flashOf type command status array).block_end i) ∧
      ∀ j, j < 4 → ((flashOf type command status array).block_start j ≤ k ∧
        k ≤ (flashOf type command status array).block_end j) → j = i := by
  obtain ⟨hs, he, hl⟩ := tables_bxt type command status array h
  rw [hs, he, hl]
  refine ⟨?_, ?_⟩
  · intro i hi
    interval_cases i <;> simp [table4]
  · intro k hk
    by_cases h1 : k < 0x1c000
    · refine ⟨0, by norm_num, by simp [table4]; omega, ?_⟩
      intro j hj
      interval_cases j <;> simp [table4] <;> omega
    · by_cases h2 : k < 0x1d000
      · refine ⟨1, by norm_num, by simp [table4]; omega, ?_⟩
        intro j hj
        interval_cases j <;> simp [table4] <;> omega
      · by_cases h3 : k < 0x1e000
        · refine ⟨2, by norm_num, by simp [table4]; omega, ?_⟩
          intro j hj
          interval_cases j <;> simp [table4] <;> omega
        · refine ⟨3, by norm_num, by simp [table4]; omega, ?_⟩
          intro j hj
          interval_cases j <;> simp [table4] <;> omega

/-- C26, evaluated for the 28F001BX-B (`type = FLASH_IS_BXB`): index `0x4000`
lies in the main block and in data block 2, index `0x2000` lies in none of
the four blocks; an erase-confirm at bus address `0xE4800` (index `0x4800`,
inside data block 2) sets the last byte of the array, far outside that block,
to `0xff`, and an erase-confirm at `0xE2000` (index `0x2000`, outside the boot
block) erases nothing. -/
theorem bxb_blocks_overlap :
    ((flashOf 2 CMD_ERASE_SETUP 0 (fun _ => 0)).block_start BLOCK_MAIN ≤ 0x4000 ∧
      0x4000 ≤ (flashOf 2 CMD_ERASE_SETUP 0 (fun _ => 0)).block_end BLOCK_MAIN) ∧
    ((flashOf 2 CMD_ERASE_SETUP 0 (fun _ => 0)).block_start BLOCK_DATA2 ≤ 0x4000 ∧
      0x4000 ≤ (flashOf 2 CMD_ERASE_SETUP 0 (fun _ => 0)).block_end BLOCK_DATA2) ∧
    (∀ i, i < 4 → ¬ ((flashOf 2 CMD_ERASE_SETUP 0 (fun _ => 0)).block_start i ≤ 0x2000 ∧
      0x2000 ≤ (flashOf 2 CMD_ERASE_SETUP 0 (fun _ => 0)).block_end i)) ∧
    (flash_write 0xE4800 CMD_ERASE_CONFIRM
      (flashOf 2 CMD_ERASE_SETUP 0 (fun _ => 0))).array 0x1ffff = 0xff ∧
    (flash_write 0xE2000 CMD_ERASE_CONFIRM
      (flashOf 2 CMD_ERASE_SETUP 0 (fun _ => 0))).array 0x2000 = 0 := by
  decide

end IntelFlash

namespace NetUdp

/-! ## Properties of the tunnel framing -/

/-- C27 fails as stated, counterexample: the 60 bytes of `demoFrame` XOR to
`0xFF`, the header `do_send` builds for them carries the checksum `0xFF`, and
`poll_thread`, connected and given that datagram, takes the registration
branch and delivers nothing. -/
theorem data_frame_taken_as_register :
    demoFrame.length = 60 ∧
    packet_crc demoFrame 60 = CS_CMD_REG ∧
    poll_packet storedZlib [0x52, 0x54, 0x00, 0xAA, 0xBB, 0xCC] true
      (do_send storedZlib 16 demoFrame 60).1 (do_send storedZlib 16 demoFrame 60).2
      [0, 0, 0, 0, 0, 0] (do_send storedZlib 16 demoFrame 60).1.length
      = (true, Rx.registered) := by
  decide

/-- The registration branch is taken exactly for a datagram with the magic
number, a sufficient length and the checksum byte `CS_CMD_REG`. -/
theorem poll_registered_iff (z : Zlib) (mac rxmac body : List Nat) (conn : Bool)
    (hdr : handshake_hdr) (len : Nat) :
    (poll_packet z mac conn hdr body rxmac len).2 = Rx.registered ↔
      hdr.magic = PKT_MAGIC ∧ ¬ len < hdr.length ∧ hdr.checksum = CS_CMD_REG := by
  unfold poll_packet
  simp only []
  split_ifs <;> simp_all

/-- C27 as the code has it.  For every payload `p`, every zlib, header size
and receiver state, `poll_thread` given the datagram that `do_send` builds
for `p` takes the registration branch exactly when the bytes of `p` XOR to
`0xFF`.  When they do not, the receiver is connected, `p` is not empty and
shorter than 65536 bytes, its compressed form likewise, `uncompress` undoes
`compress`, and the six bytes at offset 6 differ from the local address, the
datagram takes the data branch and `p` is delivered. -/
theorem register_iff_crc_ff (z : Zlib) (hdrSize : Nat) (mac rxmac : List Nat) (conn : Bool)
    (p : List Nat) :
    ((poll_packet z mac conn (do_send z hdrSize p p.length).1 (do_send z hdrSize p p.length).2
      rxmac (do_send z hdrSize p p.length).1.length).2 = Rx.registered
      ↔ packet_crc p p.length = CS_CMD_REG) ∧
    (packet_crc p p.length ≠ CS_CMD_REG → conn = true → p ≠ [] → p.length < 2 ^ 16 →
      z.compress p ≠ [] → (z.compress p).length < 2 ^ 16 →
      z.uncompress (z.compress p) p.length = p → rxmac ≠ mac.take 6 →
      poll_packet z mac conn (do_send z hdrSize p p.length).1 (do_send z hdrSize p p.length).2
        rxmac (do_send z hdrSize p p.length).1.length = (true, Rx.delivered p)) := by
  refine ⟨?_, ?_⟩
  · rw [poll_registered_iff]
    simp [do_send]
  · intro hcrc hconn hne hlen hcne hclen hinv hmac
    have hp : p.length % 2 ^ 16 = p.length := Nat.mod_eq_of_lt hlen
    have hc : (z.compress p).length % 2 ^ 16 = (z.compress p).length := Nat.mod_eq_of_lt hclen
    have hpos : 0 < p.length := List.length_pos.mpr hne
    have hcpos : 0 < (z.compress p).length := List.length_pos.mpr hcne
    unfold poll_packet
    simp only [do_send, List.take_length, hp, hc, if_true, Nat.lt_irrefl, if_false]
    rw [if_neg hcrc, hconn, if_pos rfl, if_pos ⟨hpos, hcpos⟩, hinv]
    simp [hmac]

/-- Witness of C27 as the code has it: the first 14 bytes of `demoFrame` XOR
to `0x7E`; sent alone they are delivered. -/
theorem register_iff_crc_ff_witness :
    poll_packet storedZlib [0x52, 0x54, 0x00, 0xAA, 0xBB, 0xCC] true
      (do_send storedZlib 16 (demoFrame.take 14) (demoFrame.take 14).length).1
      (do_send storedZlib 16 (demoFrame.take 14) (demoFrame.take 14).length).2
      [0, 0, 0, 0, 0, 0]
      (do_send storedZlib 16 (demoFrame.take 14) (demoFrame.take 14).length).1.length
      = (true, Rx.delivered (demoFrame.take 14)) :=
  (register_iff_crc_ff storedZlib 16 [0x52, 0x54, 0x00, 0xAA, 0xBB, 0xCC]
    [0, 0, 0, 0, 0, 0] true (demoFrame.take 14)).2 (by decide) rfl (by decide) (by decide)
    (by decide) (by decide) (by decide) (by decide)

end NetUdp

namespace WinOpendir

/-! ## Lemmas and properties of `readdir` -/

theorem readdirN_succ (d : Decls) (n : Nat) (p : DIR) :
    readdirN d (n + 1) p = (readdir d p).1 :: readdirN d n (readdir d p).2 := rfl

/-- The calls after the two faked entries: from a state whose work area holds
`e` and whose search has `es` left, `es.length + 2` calls return `e`, the
names of `es`, and then `NULL`. -/
theorem readdir_regular (d : Decls) (es : List Name) : ∀ (e : Name) (p : DIR) (m : Nat),
    p.sts = 0 → p.offset = m → 2 ≤ m → p.dta = e → p.handle = es →
    (∀ k : Nat, k ≤ m + es.length + 1 → d.offsetT k = k ∧ d.d_offT k = k) →
    (∀ x ∈ e :: es, x.length ≤ d.MAXNAMLEN) →
    readdirN d (es.length + 2) p = entriesFrom d m (e :: es) ++ [none] := by
  induction es with
  | nil =>
    intro e p m hsts hoff hm hdta hh hT hlen
    have ho := (hT (m + 1) (by simp only [List.length]; omega)).1
    have hd := (hT m (by simp only [List.length]; omega)).2
    have hcopy : wcsncpy e (d.MAXNAMLEN + 1) = e := by
      unfold wcsncpy
      exact List.take_of_length_le (by have := hlen e (by simp); omega)
    have h1 : readdir d p = (some (entryOf d m e),
        { p with offset := m + 1, sts := 1, dent := entryOf d m e }) := by
      unfold readdir
      rw [if_neg (by rw [hsts]; decide), hoff]
      simp only []
      push_cast at ho
      rw [ho, hd, hdta, hcopy, hh]
      rw [if_neg (by omega), if_neg (by omega), if_neg (by intro h; omega)]
      rfl
    show readdirN d (1 + 1) p = _
    rw [readdirN_succ, h1, readdirN_succ]
    simp only []
    unfold readdir
    simp [readdirN, entriesFrom]
  | cons x xs ih =>
    intro e p m hsts hoff hm hdta hh hT hlen
    have ho := (hT (m + 1) (by simp only [List.length]; omega)).1
    have hd := (hT m (by simp only [List.length]; omega)).2
    have hcopy : wcsncpy e (d.MAXNAMLEN + 1) = e := by
      unfold wcsncpy
      exact List.take_of_length_le (by have := hlen e (by simp); omega)
    have h1 : readdir d p = (some (entryOf d m e),
        { p with offset := m + 1, sts := 0, dent := entryOf d m e, dta := x, handle := xs }) := by
      unfold readdir
      rw [if_neg (by rw [hsts]; decide), hoff]
      simp only []
      push_cast at ho
      rw [ho, hd, hdta, hcopy, hh]
      rw [if_neg (by omega), if_neg (by omega), if_neg (by intro h; omega)]
      rfl
    have := ih x { p with offset := m + 1, sts := 0, dent := entryOf d m e, dta := x, handle := xs }
      (m + 1) rfl (by simp) (by omega) rfl rfl
      (by intro k hk; exact hT k (by simp at hk ⊢; omega))
      (by intro y hy; exact hlen y (by simp at hy ⊢; tauto))
    show readdirN d ((xs.length + 2) + 1) p = _
    rw [readdirN_succ, h1]
    simp only []
    rw [this]
    rfl

set_option maxRecDepth 4000 in
/-- C21, evaluated: a root directory whose search yields one name of 200
characters, with `d_reclen` an `unsigned short`.  The three calls return ".",
".." and the name with the record lengths 1, 2 and 65480: the lengths of the
two faked names are stored as they are, the length 200 of the third goes
through the cast `(char)` first (-56), where the record length of the claim
is the name length, 200. -/
theorem long_name_reclen :
    (opendir [0x5C] (fun _ => [List.replicate 200 0x61])).map
      (fun p => (readdirN shortDecls 3 p).map
        (Option.map (fun e => (e.d_name.length, e.d_reclen))))
      = some [some (1, 1), some (2, 2), some (200, 65480)] := by
  decide

/-- The order of the entries of a root directory.  For every directory
opened with the root flag set whose search yields `e1 .. en` (`n ≥ 1`, names
that fit `d_name`), with integer types that hold the positions `0 .. n + 2`
and the lengths 1 and 2: `n + 3` calls of `readdir` return ".", "..",
`e1, .., en` in this order and then `NULL`, and `d_off` is 0, 1, 2, ...  The
record length of a regular entry is what the cast `(char)` leaves of the name
length: the name length only for a name shorter than 128 characters. -/
theorem readdir_fakes_root (d : Decls) (name : Name) (search : Name → List Name) (p : DIR)
    (e : Name) (es : List Name)
    (hopen : opendir name search = some p) (hroot : p.isroot = true)
    (hsearch : search (name ++ SUFFIX) = e :: es)
    (hT : ∀ k : Nat, k ≤ es.length + 3 → d.offsetT k = k ∧ d.d_offT k = k)
    (hR : ∀ k : Nat, k < 128 → d.d_reclenT k = k)
    (hM : 1 ≤ d.MAXNAMLEN) (hlen : ∀ x ∈ e :: es, x.length ≤ d.MAXNAMLEN) :
    readdirN d (es.length + 4) p =
      some ⟨1, 0, 1, [0x2E]⟩ :: some ⟨1, 1, 2, [0x2E, 0x2E]⟩ :: entriesFrom d 2 (e :: es)
        ++ [none] ∧
    ∀ x ∈ e :: es, x.length < 128 → ∀ k, (entryOf d k x).d_reclen = x.length := by
  have hp : p = ⟨true, 0, 0, e, es, name ++ SUFFIX, ⟨0, 0, 0, []⟩⟩ := by
    unfold opendir at hopen
    simp only [hsearch, Option.some.injEq] at hopen
    have hr : decide ((name ++ SUFFIX).length = 3) = true := by rw [← hopen] at hroot; exact hroot
    rw [← hopen, hr]
  have o1 := (hT 1 (by omega)).1
  have o2 := (hT 2 (by omega)).1
  have d0 := (hT 0 (by omega)).2
  have d1 := (hT 1 (by omega)).2
  have r1 := hR 1 (by norm_num)
  have r2 := hR 2 (by norm_num)
  push_cast at o1 o2 d0 d1 r1 r2
  have c1 : wcsncpy [0x2E] (d.MAXNAMLEN + 1) = [0x2E] := by
    unfold wcsncpy
    exact List.take_of_length_le (by simp)
  have c2 : wcsncpy [0x2E, 0x2E] (d.MAXNAMLEN + 1) = [0x2E, 0x2E] := by
    unfold wcsncpy
    exact List.take_of_length_le (by simp; omega)
  have h1 : readdir d p = (some ⟨1, 0, 1, [0x2E]⟩,
      { p with offset := 1, sts := 0, dent := ⟨1, 0, 1, [0x2E]⟩ }) := by
    rw [hp]
    unfold readdir
    simp only []
    rw [if_neg (by decide)]
    norm_num
    rw [o1, d0, r1, c1]
    simp
  have h2 : readdir d { p with offset := 1, sts := 0, dent := ⟨1, 0, 1, [0x2E]⟩ } =
      (some ⟨1, 1, 2, [0x2E, 0x2E]⟩,
        { p with offset := 2, sts := 0, dent := ⟨1, 1, 2, [0x2E, 0x2E]⟩ }) := by
    rw [hp]
    unfold readdir
    simp only []
    rw [if_neg (by decide)]
    norm_num
    rw [o2, d1, r2, c2]
    simp
  refine ⟨?_, ?_⟩
  · show readdirN d ((es.length + 2) + 1 + 1) p = _
    rw [readdirN_succ, h1, readdirN_succ]
    simp only []
    rw [h2]
    simp only []
    rw [readdir_regular d es e _ 2 rfl rfl (le_refl 2) (by rw [hp]) (by rw [hp])
      (by intro k hk; exact hT k (by omega)) hlen]
    rfl
  · intro x _ hx k
    show d.d_reclenT (toChar x.length) = x.length
    have : toChar (x.length : Int) = x.length := by
      unfold toChar
      omega
    rw [this]
    exact hR x.length hx

/-- The order of the entries, evaluated: the root directory holding `AB` and
`C`. -/
theorem readdir_fakes_root_witness :
    (opendir [0x5C] (fun _ => [[0x41, 0x42], [0x43]])).map (readdirN shortDecls 5)
      = some [some ⟨1, 0, 1, [0x2E]⟩, some ⟨1, 1, 2, [0x2E, 0x2E]⟩,
          some ⟨1, 2, 2, [0x41, 0x42]⟩, some ⟨1, 3, 1, [0x43]⟩, none] :=
  (congrArg (Option.map (readdirN shortDecls 5))
    (rfl : opendir [0x5C] (fun _ => [[0x41, 0x42], [0x43]]) = some _)).trans
    (congrArg some ((readdir_fakes_root shortDecls [0x5C] (fun _ => [[0x41, 0x42], [0x43]]) _
      [0x41, 0x42] [[0x43]] rfl rfl rfl
      (by intro k hk; simp only [List.length] at hk; interval_cases k <;> decide)
      (by intro k hk; interval_cases k <;> decide)
      (by decide) (by decide)).1.trans (by decide)))

end WinOpendir
